import Mathlib

/-!
Verification development for the gql graph-query front end:
a shallow embedding of the graph-pattern semantic analyzer
(`GraphPatternContext`), the variable-reference resolver, and the
pre-analysis AST rewrites, with theorems checking the natural-language
specification against them.
-/

namespace GqlSpec

/-- Error codes raised by the analyzer (subset relevant to graph patterns). -/
inductive ErrorCode where
  | E0001 | E0002 | E0003 | E0004 | E0005 | E0006 | E0007 | E0008 | E0009
  | E0051 | E0052 | E0053 | E0054 | E0055 | E0060 | E0109 | E0110 | E0111
  | E0113
  deriving DecidableEq, Repr

/-- An analyzer failure: either a thrown `FormattedError` with its code, or a
violation of the stack discipline (a C++ assertion / undefined behaviour,
such as reading the top of an empty stack). -/
inductive Err where
  | code (c : ErrorCode)
  | broken
  deriving DecidableEq, Repr

end GqlSpec

namespace GqlSpec

/-- `GraphPatternVariableType` from `gql/syntax_analyzer/defs.h`. -/
inductive GraphPatternVariableType where
  | Node | Edge | Path | Subpath
  deriving DecidableEq, Repr

/-- `VariableDegreeOfExposure` from `gql/syntax_analyzer/defs.h`. -/
inductive VariableDegreeOfExposure where
  | UnconditionalSingleton
  | ConditionalSingleton
  | EffectivelyBoundedGroup
  | EffectivelyUnboundedGroup
  deriving DecidableEq, Repr

/-- `ast::InputPosition`: a (line, column) pair that may be unset. -/
structure InputPosition where
  line : Nat := 0
  col : Nat := 0
  isSet : Bool := false
  deriving DecidableEq, Repr

/-- A string-keyed association list standing in for `std::unordered_map`
with string keys.  Iteration order is unspecified in C++; the embedding
fixes insertion order. -/
abbrev SMap (α : Type) : Type := List (String × α)

namespace SMap

/-- `find`: the value stored under a key, if any. -/
def find? {α : Type} : SMap α → String → Option α
  | [], _ => none
  | (k, v) :: rest, key => if k = key then some v else find? rest key

/-- `find` with a default, modelling `operator[]` reads of absent keys. -/
def findD {α : Type} (m : SMap α) (key : String) (d : α) : α :=
  (m.find? key).getD d

/-- Whether a key is present (`count(key) != 0`). -/
def hasKey {α : Type} (m : SMap α) (key : String) : Bool :=
  (m.find? key).isSome

/-- Insertion of a key known (or assumed) to be absent; models a successful
`emplace`.  The new entry is appended, fixing insertion-order iteration. -/
def insert {α : Type} (m : SMap α) (key : String) (v : α) : SMap α :=
  m ++ [(key, v)]

/-- `operator[] =`: overwrite the entry if present, append it otherwise. -/
def set {α : Type} : SMap α → String → α → SMap α
  | [], key, v => [(key, v)]
  | (k, w) :: rest, key, v =>
      if k = key then (k, v) :: rest else (k, w) :: set rest key v

/-- The list of keys in iteration order. -/
def keys {α : Type} (m : SMap α) : List String := m.map Prod.fst

/-- Keys are pairwise distinct; maintained by `insert`/`set` use. -/
def Nodup {α : Type} (m : SMap α) : Prop := m.keys.Nodup

instance {α : Type} (m : SMap α) : Decidable m.Nodup :=
  inferInstanceAs (Decidable m.keys.Nodup)

end SMap

end GqlSpec

namespace GqlSpec

/-- `GraphPatternContext::Variable` (graph_pattern_context.h). -/
structure Variable where
  type : GraphPatternVariableType
  declarationPosition : InputPosition := {}
  isTemp : Bool := false
  degree : VariableDegreeOfExposure := .UnconditionalSingleton
  deriving DecidableEq, Repr

/-- `GraphPatternContext::ExposedVariable : Variable` with the
strict-interior flag for 16.6 Syntax Rule 5. -/
structure ExposedVariable extends Variable where
  isStrictInterior : Bool := false
  deriving DecidableEq, Repr

/-- `GraphPatternContext::VariableDeclaration`. -/
structure VariableDeclaration where
  type : GraphPatternVariableType
  declarationOrder : Int := 0
  firstDeclarationPosition : InputPosition := {}
  deriving DecidableEq, Repr

/-- `GraphPatternAuxData::Variable` (aux_data.h). -/
structure AuxVariable where
  type : GraphPatternVariableType
  degreeOfExposure : VariableDegreeOfExposure
  isTemp : Bool
  deriving DecidableEq, Repr

/-- `syntax_analyzer::PathVariableReferenceScopeAuxData` (aux_data.h): the
per-`PathFactor` / per-`PathPatternExpression` map of element variables
declared there. -/
structure PathVariableReferenceScopeAuxData where
  declaredVariables : SMap AuxVariable := []
  deriving DecidableEq, Repr

/-- `GraphPatternContext::VariableScope`: a lexical scope in the
parent-linked scope tree (scopes identified by index into the
`variableScopes` arena). -/
structure VariableScope where
  parent : Option Nat := none
  localVariables : SMap Variable := []
  deriving DecidableEq, Repr

/-- `GraphPatternContext::SearchConditionScope`.  The borrowed `condition`
and `auxData` pointers are irrelevant to the analyzer's state transitions
and are elided; `variableScope` is an index into the scope arena. -/
structure SearchConditionScope where
  variableScope : Nat := 0
  scope : Option (List String) := none
  inaccessibleVariables : SMap Int := []
  deriving DecidableEq, Repr

/-- `GraphPatternContext::Union` bookkeeping frame. -/
structure UnionFrame where
  indexOfFirstSearchConditionScopeInOperands : List Nat := []
  declarationsInOperands : List (SMap Int) := []
  deriving DecidableEq, Repr

/-- `Union::isFirstOperand`. -/
def UnionFrame.isFirstOperand (u : UnionFrame) : Bool :=
  u.declarationsInOperands.isEmpty

/-- `syntax_analyzer::PathPatternAuxData` (aux_data.h): the joinable
(unconditional-singleton) variables exposed by a `PathPattern`. -/
structure PathPatternAuxData where
  joinableVariables : List String := []
  deriving DecidableEq, Repr

/-- The state of `gql::detail::GraphPatternContext`.  Stacks are lists with
the top at the head.  `variableScopes` and `referenceScopes` are arenas
addressed by index (the C++ uses a `std::list` plus raw pointers for the
former and AST-owned aux-data plus a raw pointer for the latter). -/
structure GraphPatternContext where
  differentEdgesMatchMode : Bool := false
  isInsideQuantifiedPathPrimary : Bool := false
  isInsideSelectivePattern : Bool := false
  isRestrictivePathMode : List Bool := [false]
  variableScopes : List VariableScope := []
  variableScopeStack : List Nat := []
  exposedVariables : List (SMap ExposedVariable) := []
  variableDeclarations : SMap VariableDeclaration := []
  lastVariableDeclarationPosition : InputPosition := {}
  declarationsInUnions : List (SMap Int) := [[]]
  searchConditionScopes : List SearchConditionScope := []
  indexOfFirstSearchConditionScopeInPathPattern : Nat := 0
  expectingLeftBoundaryVariable : Bool := false
  leftBoundaryVariable : Option String := none
  possibleRightBoundaryVariable : Option String := none
  pathPatternUnion : List UnionFrame := []
  minimumPathLength : List Int := [0]
  nonZeroNodeCount : List Bool := [false]
  referenceScopes : List PathVariableReferenceScopeAuxData := []
  currentVariableReferenceScope : Option Nat := none
  deriving DecidableEq, Repr

/-- Replace the element at an index, failing when out of range (the C++
counterpart dereferences a raw pointer, so going out of range would be
undefined behaviour). -/
def listModify {α : Type} : List α → Nat → (α → α) → Option (List α)
  | [], _, _ => none
  | x :: rest, 0, f => some (f x :: rest)
  | x :: rest, n + 1, f => (listModify rest n f).map (x :: ·)

namespace GraphPatternContext

/-- `GraphPatternContext::ExposeVariable`, restricted to one frame: emplace
the variable, and on a pre-existing entry enforce 16.4 Syntax Rule 3 /
16.7 Syntax Rule 22c (E0008) and 16.6 Syntax Rule 7 (E0009).  A successful
emplace never overwrites the existing entry. -/
def exposeIntoFrame (frame : SMap ExposedVariable) (name : String)
    (v : ExposedVariable) : Except Err (SMap ExposedVariable) :=
  match frame.find? name with
  | none => .ok (frame.insert name v)
  | some existingVar =>
      if v.degree ≠ .UnconditionalSingleton ∨
          existingVar.degree ≠ .UnconditionalSingleton then
        .error (.code .E0008)
      else if v.isStrictInterior ∨ existingVar.isStrictInterior then
        .error (.code .E0009)
      else
        .ok frame

/-- Expose a list of (name, variable) entries into a frame, left to right. -/
def mergeEntries (frame : SMap ExposedVariable) :
    List (String × ExposedVariable) → Except Err (SMap ExposedVariable)
  | [] => .ok frame
  | (k, v) :: rest =>
      match exposeIntoFrame frame k v with
      | .error e => .error e
      | .ok frame' => mergeEntries frame' rest

/-- `GraphPatternContext::ExposeVariable` on the top exposed frame. -/
def ExposeVariable (st : GraphPatternContext) (name : String)
    (v : ExposedVariable) : Except Err GraphPatternContext :=
  match st.exposedVariables with
  | [] => .error .broken
  | frame :: rest =>
      (exposeIntoFrame frame name v).map
        (fun frame' => { st with exposedVariables := frame' :: rest })

/-- `GraphPatternContext::ExposeNewVariable`: expose, and additionally
record Node/Edge variables in the current variable-reference scope's
`declaredVariables` with `isTemp` hard-coded to `false` (the C++ asserts
that the scope pointer is set; its absence is modelled as `broken`). -/
def ExposeNewVariable (st : GraphPatternContext) (name : String)
    (v : ExposedVariable) : Except Err GraphPatternContext :=
  match st.ExposeVariable name v with
  | .error e => .error e
  | .ok st' =>
      if v.type = .Node ∨ v.type = .Edge then
        match st'.currentVariableReferenceScope with
        | none => .error .broken
        | some i =>
            let wr := fun (sc : PathVariableReferenceScopeAuxData) =>
              { sc with declaredVariables := sc.declaredVariables.set name (AuxVariable.mk v.type v.degree false) }
            match listModify st'.referenceScopes i wr with
            | none => .error .broken
            | some scopes => .ok { st' with referenceScopes := scopes }
      else .ok st'

/-- Expose a list of entries through `ExposeNewVariable`, left to right. -/
def exposeNewList (st : GraphPatternContext) :
    List (String × ExposedVariable) → Except Err GraphPatternContext
  | [] => .ok st
  | (k, v) :: rest =>
      match st.ExposeNewVariable k v with
      | .error e => .error e
      | .ok st' => exposeNewList st' rest

/-- `GraphPatternContext::EnterVariableScope`: push a fresh exposed frame
and a fresh lexical scope whose parent is the current scope. -/
def EnterVariableScope (st : GraphPatternContext) : GraphPatternContext :=
  let newScope : VariableScope :=
    { parent := st.variableScopeStack.head?, localVariables := [] }
  { st with
    exposedVariables := [] :: st.exposedVariables,
    variableScopes := st.variableScopes ++ [newScope],
    variableScopeStack := st.variableScopes.length :: st.variableScopeStack }

/-- `GraphPatternContext::AppendExposedVariables`: pop the top exposed
frame and re-expose each of its entries into the frame below. -/
def AppendExposedVariables (st : GraphPatternContext) :
    Except Err GraphPatternContext :=
  match st.exposedVariables with
  | top :: next :: rest =>
      (mergeEntries next top).map
        (fun merged => { st with exposedVariables := merged :: rest })
  | _ => .error .broken

/-- `GraphPatternContext::ExitVariableScope`: copy the top exposed frame
into the current lexical scope's `localVariables`, pop the scope stack and
merge the frame downward. -/
def ExitVariableScope (st : GraphPatternContext) :
    Except Err GraphPatternContext :=
  match st.exposedVariables, st.variableScopeStack with
  | frame :: _, i :: stackRest =>
      match listModify st.variableScopes i (fun vs =>
          { vs with localVariables :=
              (frame.foldl (fun lv kv => lv.set kv.1 kv.2.toVariable)
                vs.localVariables) }) with
      | none => .error .broken
      | some scopes =>
          AppendExposedVariables
            { st with variableScopes := scopes, variableScopeStack := stackRest }
  | _, _ => .error .broken

/-- `GraphPatternContext` constructor: sentinel frames plus one variable
scope. -/
def init (differentEdgesMatchMode : Bool) : GraphPatternContext :=
  EnterVariableScope
    { differentEdgesMatchMode := differentEdgesMatchMode,
      minimumPathLength := [0],
      nonZeroNodeCount := [false],
      exposedVariables := [[]],
      declarationsInUnions := [[]],
      isRestrictivePathMode := [false] }

/-- `GraphPatternContext::DeclareVariable` (the declaration-order asserts
are release no-ops and elided; the first-sight position update is kept). -/
def DeclareVariable (st : GraphPatternContext) (name : String)
    (pos : InputPosition) (type : GraphPatternVariableType)
    (isTemp : Bool := false) : Except Err GraphPatternContext :=
  let st :=
    if !st.lastVariableDeclarationPosition.isSet then
      { st with lastVariableDeclarationPosition := pos }
    else st
  let declStep : Except Err GraphPatternContext :=
    match SMap.find? st.variableDeclarations name with
    | none =>
        let newDecl : VariableDeclaration :=
          { type := type,
            declarationOrder := (st.variableDeclarations.length : Int),
            firstDeclarationPosition := pos }
        .ok { st with variableDeclarations :=
                SMap.set st.variableDeclarations name newDecl }
    | some decl =>
        if decl.type ≠ type then .error (.code .E0001)
        else
          match type with
          | .Path => .error (.code .E0002)
          | .Subpath => .error (.code .E0003)
          | .Node => .ok st
          | .Edge => .ok st
  match declStep with
  | .error e => .error e
  | .ok st =>
      match st.ExposeNewVariable name
          { type := type, declarationPosition := pos, isTemp := isTemp } with
      | .error e => .error e
      | .ok st =>
          match st.declarationsInUnions with
          | [] => .error .broken
          | d :: ds =>
              .ok { st with declarationsInUnions :=
                      (d.set name (d.findD name 0 + 1)) :: ds }

/-- `GraphPatternContext::DeclareNodeVariable`, including boundary-variable
tracking for selective patterns. -/
def DeclareNodeVariable (st : GraphPatternContext) (name : String)
    (pos : InputPosition) (isTemp : Bool) : Except Err GraphPatternContext :=
  match st.DeclareVariable name pos .Node isTemp with
  | .error e => .error e
  | .ok st =>
      let st :=
        if st.expectingLeftBoundaryVariable ∧ !isTemp then
          { st with leftBoundaryVariable := some name,
                    expectingLeftBoundaryVariable := false }
        else st
      .ok { st with possibleRightBoundaryVariable := some name }

/-- `GraphPatternContext::DeclareEdgeVariable`. -/
def DeclareEdgeVariable (st : GraphPatternContext) (name : String)
    (pos : InputPosition) (isTemp : Bool) : Except Err GraphPatternContext :=
  st.DeclareVariable name pos .Edge isTemp

/-- `GraphPatternContext::DeclarePathVariable`. -/
def DeclarePathVariable (st : GraphPatternContext) (name : String)
    (pos : InputPosition) : Except Err GraphPatternContext :=
  st.DeclareVariable name pos .Path

/-- `GraphPatternContext::DeclareSubpathVariable`. -/
def DeclareSubpathVariable (st : GraphPatternContext) (name : String)
    (pos : InputPosition) : Except Err GraphPatternContext :=
  st.DeclareVariable name pos .Subpath

/-- `GraphPatternContext::EnterPathPattern`. -/
def EnterPathPattern (st : GraphPatternContext) (isSelectivePattern : Bool) :
    GraphPatternContext :=
  let st :=
    { st with
      isInsideSelectivePattern := isSelectivePattern,
      expectingLeftBoundaryVariable := isSelectivePattern,
      leftBoundaryVariable := none,
      possibleRightBoundaryVariable := none,
      exposedVariables := [] :: st.exposedVariables }
  let st :=
    if isSelectivePattern then
      { st.EnterVariableScope with
        indexOfFirstSearchConditionScopeInPathPattern :=
          st.searchConditionScopes.length }
    else st
  { st with nonZeroNodeCount := false :: st.nonZeroNodeCount }

/-- Set `scope` on every search-condition scope from an index onward. -/
def setScopeFrom (scopes : List SearchConditionScope) (start : Nat)
    (varSet : List String) : List SearchConditionScope :=
  scopes.mapIdx (fun i sc =>
    if start ≤ i then { sc with scope := some varSet } else sc)

/-- Mark non-boundary variables of a selective pattern's frame as strict
interior (16.6 Syntax Rule 5). -/
def markStrictInterior (frame : SMap ExposedVariable)
    (lb rb : Option String) : SMap ExposedVariable :=
  frame.map (fun kv =>
    if lb = some kv.1 ∨ rb = some kv.1 then kv
    else (kv.1, { kv.2 with isStrictInterior := true }))

/-- The selective-pattern prologue of `ExitPathPattern`: snapshot the
pattern's variable set into the search-condition scopes registered during
it, close the extra variable scope, and mark strict-interior variables. -/
def exitPathPatternPrep (st : GraphPatternContext) :
    Except Err GraphPatternContext :=
  if st.isInsideSelectivePattern then
    match st.exposedVariables with
    | [] => .error .broken
    | frame :: _ =>
        let varSet := frame.keys
        match st.ExitVariableScope with
        | .error e => .error e
        | .ok st =>
            let st :=
              { st with searchConditionScopes :=
                  (setScopeFrom st.searchConditionScopes
                    st.indexOfFirstSearchConditionScopeInPathPattern varSet) }
            match st.exposedVariables with
            | [] => .error .broken
            | frame :: rest =>
                .ok { st with exposedVariables :=
                        (markStrictInterior frame st.leftBoundaryVariable
                          st.possibleRightBoundaryVariable) :: rest }
  else .ok st

/-- `GraphPatternContext::ExitPathPattern`: build `joinableVariables` from
the unconditional singletons, downgrade `EffectivelyUnboundedGroup` to
`EffectivelyBoundedGroup` (16.7 Syntax Rule 22.h) while re-exposing the
frame upward, and require a non-zero node count (E0109).  Returns the
`PathPatternAuxData` attached to the AST node. -/
def ExitPathPattern (st : GraphPatternContext) :
    Except Err (GraphPatternContext × PathPatternAuxData) :=
  match st.exitPathPatternPrep with
  | .error e => .error e
  | .ok st =>
      match st.exposedVariables with
      | [] => .error .broken
      | frame :: rest =>
          let aux : PathPatternAuxData :=
            { joinableVariables :=
                SMap.keys (frame.filter
                  (fun kv => decide (kv.2.degree = .UnconditionalSingleton))) }
          match rest with
          | [] => .error .broken
          | next :: rest' =>
              let entries := frame.map (fun kv =>
                if kv.2.degree = .EffectivelyUnboundedGroup then
                  (kv.1, { kv.2 with degree := .EffectivelyBoundedGroup })
                else kv)
              match mergeEntries next entries with
              | .error e => .error e
              | .ok merged =>
                  match st.nonZeroNodeCount with
                  | [] => .error .broken
                  | nz :: nzs =>
                      if !nz then .error (.code .E0109)
                      else
                        .ok ({ st with
                                exposedVariables := merged :: rest',
                                nonZeroNodeCount := nzs }, aux)

/-- `GraphPatternContext::EnterParenthesizedPathPatternExpression`. -/
def EnterParenthesizedPathPatternExpression (st : GraphPatternContext) :
    GraphPatternContext :=
  { st.EnterVariableScope with
    nonZeroNodeCount := false :: st.nonZeroNodeCount }

/-- `GraphPatternContext::ExitParenthesizedPathPatternExpression`. -/
def ExitParenthesizedPathPatternExpression (st : GraphPatternContext)
    (hasSubpathVariable : Bool) : Except Err GraphPatternContext :=
  match st.ExitVariableScope with
  | .error e => .error e
  | .ok st =>
      match st.nonZeroNodeCount with
      | nz :: nz2 :: nzs =>
          if hasSubpathVariable ∧ !nz then .error (.code .E0110)
          else .ok { st with nonZeroNodeCount := (nz2 || nz) :: nzs }
      | _ => .error .broken

/-- `GraphPatternContext::EnterPathMode`. -/
def EnterPathMode (st : GraphPatternContext) (isWalk : Bool) :
    Except Err GraphPatternContext :=
  match st.isRestrictivePathMode with
  | [] => .error .broken
  | r :: _ =>
      .ok { st with isRestrictivePathMode :=
              (r || !isWalk) :: st.isRestrictivePathMode }

/-- `GraphPatternContext::ExitPathMode`. -/
def ExitPathMode (st : GraphPatternContext) : Except Err GraphPatternContext :=
  match st.isRestrictivePathMode with
  | [] => .error .broken
  | _ :: rs => .ok { st with isRestrictivePathMode := rs }

/-- `GraphPatternContext::EnterQuantifiedPathPrimary`: reject nesting
(E0004, 16.7 Syntax Rule 9) and unbounded quantification outside
restrictive searches, selective patterns and different-edges-match mode
(E0005, 16.4 Syntax Rule 14). -/
def EnterQuantifiedPathPrimary (st : GraphPatternContext) (bounded : Bool) :
    Except Err GraphPatternContext :=
  if st.isInsideQuantifiedPathPrimary then .error (.code .E0004)
  else
    let st := { st with isInsideQuantifiedPathPrimary := true }
    match st.isRestrictivePathMode with
    | [] => .error .broken
    | r :: _ =>
        if !bounded ∧ !r ∧ !st.isInsideSelectivePattern ∧
            !st.differentEdgesMatchMode then
          .error (.code .E0005)
        else
          .ok { st with
                expectingLeftBoundaryVariable := false,
                minimumPathLength := 0 :: st.minimumPathLength,
                nonZeroNodeCount := false :: st.nonZeroNodeCount,
                exposedVariables := [] :: st.exposedVariables }

/-- The degree rewrite of `ExitQuantifiedPathPrimary` (16.7 Syntax Rule
22.e): any degree other than `EffectivelyUnboundedGroup` becomes
`EffectivelyBoundedGroup` under a bounded quantifier or a restrictive
search, and `EffectivelyUnboundedGroup` otherwise. -/
def quantifiedDegree (bounded insideRestrictive : Bool)
    (v : ExposedVariable) : ExposedVariable :=
  if v.degree ≠ .EffectivelyUnboundedGroup then
    { v with degree :=
        if bounded || insideRestrictive then .EffectivelyBoundedGroup
        else .EffectivelyUnboundedGroup }
  else v

/-- `GraphPatternContext::ExitQuantifiedPathPrimary`. -/
def ExitQuantifiedPathPrimary (st : GraphPatternContext) (bounded : Bool)
    (lowerBound : Int) : Except Err GraphPatternContext :=
  let st := { st with isInsideQuantifiedPathPrimary := false }
  match st.exposedVariables, st.isRestrictivePathMode with
  | frame :: rest, r :: _ =>
      let entries := frame.map
        (fun kv => (kv.1, quantifiedDegree bounded r kv.2))
      match exposeNewList { st with exposedVariables := rest } entries with
      | .error e => .error e
      | .ok st =>
          let st := { st with possibleRightBoundaryVariable := none }
          match st.minimumPathLength with
          | [] => .error .broken
          | m :: mrest =>
              if m = 0 then .error (.code .E0006)
              else
                match mrest with
                | [] => .error .broken
                | m2 :: ms =>
                    let st := { st with
                      minimumPathLength := (m2 + m * lowerBound) :: ms }
                    match st.nonZeroNodeCount with
                    | nz :: nz2 :: nzs =>
                        .ok { st with nonZeroNodeCount :=
                                (nz2 || (nz && decide (0 < lowerBound))) :: nzs }
                    | _ => .error .broken
  | _, _ => .error .broken

/-- `GraphPatternContext::EnterQuestionedPathPrimary`. -/
def EnterQuestionedPathPrimary (st : GraphPatternContext) :
    GraphPatternContext :=
  { st with
    expectingLeftBoundaryVariable := false,
    minimumPathLength := 0 :: st.minimumPathLength,
    nonZeroNodeCount := false :: st.nonZeroNodeCount,
    exposedVariables := [] :: st.exposedVariables }

/-- `GraphPatternContext::ExitQuestionedPathPrimary`: promote
unconditional singletons to conditional singletons, leave the other
degrees alone, and require a positive minimum path length (E0007). -/
def ExitQuestionedPathPrimary (st : GraphPatternContext) :
    Except Err GraphPatternContext :=
  match st.exposedVariables with
  | frame :: rest =>
      let entries := frame.map (fun kv =>
        if kv.2.degree = .UnconditionalSingleton then
          (kv.1, { kv.2 with degree := .ConditionalSingleton })
        else kv)
      match exposeNewList { st with exposedVariables := rest } entries with
      | .error e => .error e
      | .ok st =>
          let st := { st with possibleRightBoundaryVariable := none }
          match st.minimumPathLength, st.nonZeroNodeCount with
          | m :: m2 :: ms, _ :: nz2 :: nzs =>
              if m = 0 then .error (.code .E0007)
              else
                .ok { st with minimumPathLength := m2 :: ms,
                              nonZeroNodeCount := nz2 :: nzs }
          | _, _ =>
              if st.minimumPathLength.head? = some 0 then
                .error (.code .E0007)
              else .error .broken
  | _ => .error .broken

/-- The `int` maximum pushed by `EnterPathPatternUnion`
(`std::numeric_limits<int>::max()`). -/
def intMax : Int := 2147483647

/-- `GraphPatternContext::EnterPathPatternUnion`. -/
def EnterPathPatternUnion (st : GraphPatternContext) : GraphPatternContext :=
  { st with
    exposedVariables := [] :: st.exposedVariables,
    expectingLeftBoundaryVariable := false,
    minimumPathLength := intMax :: st.minimumPathLength,
    nonZeroNodeCount := true :: st.nonZeroNodeCount,
    pathPatternUnion :=
      { indexOfFirstSearchConditionScopeInOperands :=
          [st.searchConditionScopes.length],
        declarationsInOperands := [] } :: st.pathPatternUnion }

/-- `GraphPatternContext::EnterPathPatternUnionOperand`. -/
def EnterPathPatternUnionOperand (st : GraphPatternContext) :
    GraphPatternContext :=
  { st with
    exposedVariables := [] :: st.exposedVariables,
    minimumPathLength := 0 :: st.minimumPathLength,
    nonZeroNodeCount := false :: st.nonZeroNodeCount,
    declarationsInUnions := [] :: st.declarationsInUnions }

/-- The degree merge of `ExitPathPatternUnionOperand` for a name exposed
both by the union so far and by the operand: either side
`EffectivelyUnboundedGroup` wins, then `EffectivelyBoundedGroup`, then
`ConditionalSingleton`; two unconditional singletons stay unconditional. -/
def unionMergeDegree (opDeg uDeg : VariableDegreeOfExposure) :
    VariableDegreeOfExposure :=
  if opDeg = .EffectivelyUnboundedGroup ∨ uDeg = .EffectivelyUnboundedGroup then
    .EffectivelyUnboundedGroup
  else if opDeg = .EffectivelyBoundedGroup ∨ uDeg = .EffectivelyBoundedGroup then
    .EffectivelyBoundedGroup
  else if opDeg = .ConditionalSingleton ∨ uDeg = .ConditionalSingleton then
    .ConditionalSingleton
  else uDeg

/-- The first loop of `ExitPathPatternUnionOperand`: a union-so-far
unconditional singleton not exposed by the operand is demoted to
`ConditionalSingleton`; every other entry is left alone. -/
def unionAbsentDemote (opFrame : SMap ExposedVariable) (k : String)
    (v : ExposedVariable) : ExposedVariable :=
  if v.degree = .UnconditionalSingleton ∧ !(SMap.hasKey opFrame k) then
    { v with degree := .ConditionalSingleton }
  else v

/-- The demotion applied when an operand-only variable is inserted into
the union frame: a non-first operand's unconditional singleton becomes a
`ConditionalSingleton`. -/
def unionInsertDemote (firstOperand : Bool) (v : ExposedVariable) :
    ExposedVariable :=
  if !firstOperand ∧ v.degree = .UnconditionalSingleton then
    { v with degree := .ConditionalSingleton }
  else v

/-- One iteration of the second loop of `ExitPathPatternUnionOperand`:
insert a fresh operand variable (demoting it when appropriate), or merge
the degree of a variable already known to the union. -/
def unionOperandStep (firstOperand : Bool) (uf : SMap ExposedVariable)
    (kv : String × ExposedVariable) : SMap ExposedVariable :=
  match SMap.find? uf kv.1 with
  | none => SMap.insert uf kv.1 (unionInsertDemote firstOperand kv.2)
  | some existingVar =>
      SMap.set uf kv.1
        { existingVar with
            degree := unionMergeDegree kv.2.degree existingVar.degree }

/-- The frame merge of `ExitPathPatternUnionOperand` (16.7 Syntax Rule
22.d): demote union-so-far unconditional singletons missing from the
operand, then fold the operand's entries into the union frame. -/
def unionOperandFrameMerge (opFrame uFrame : SMap ExposedVariable)
    (firstOperand : Bool) : SMap ExposedVariable :=
  opFrame.foldl (unionOperandStep firstOperand)
    (uFrame.map (fun kv => (kv.1, unionAbsentDemote opFrame kv.1 kv.2)))

/-- `GraphPatternContext::ExitPathPatternUnionOperand`. -/
def ExitPathPatternUnionOperand (st : GraphPatternContext) :
    Except Err GraphPatternContext :=
  match st.exposedVariables, st.pathPatternUnion, st.minimumPathLength,
      st.nonZeroNodeCount, st.declarationsInUnions with
  | opFrame :: uFrame :: rest, u :: us, m :: m2 :: ms, b :: b2 :: bs,
      d :: d2 :: ds =>
      let merged := unionOperandFrameMerge opFrame uFrame u.isFirstOperand
      let u' :=
        { u with
          indexOfFirstSearchConditionScopeInOperands :=
            u.indexOfFirstSearchConditionScopeInOperands ++
              [st.searchConditionScopes.length],
          declarationsInOperands := u.declarationsInOperands ++ [d] }
      let d2' := d.foldl (fun acc kv => acc.set kv.1 (acc.findD kv.1 0 + kv.2)) d2
      .ok { st with
            exposedVariables := merged :: rest,
            pathPatternUnion := u' :: us,
            minimumPathLength := (min m2 m) :: ms,
            nonZeroNodeCount := (b && b2) :: bs,
            declarationsInUnions := d2' :: ds }
  | _, _, _, _, _ => .error .broken

/-- `GraphPatternContext::EnterNodePattern`. -/
def EnterNodePattern (st : GraphPatternContext) :
    Except Err GraphPatternContext :=
  match st.nonZeroNodeCount with
  | [] => .error .broken
  | _ :: nzs => .ok { st with nonZeroNodeCount := true :: nzs }

/-- `GraphPatternContext::EnterEdgePattern`. -/
def EnterEdgePattern (st : GraphPatternContext) :
    Except Err GraphPatternContext :=
  match st.minimumPathLength with
  | [] => .error .broken
  | m :: ms =>
      .ok { st with
            expectingLeftBoundaryVariable := false,
            possibleRightBoundaryVariable := none,
            minimumPathLength := (m + 1) :: ms }

/-- `GraphPatternContext::AddSearchCondition` (both overloads): register
the `WHERE` with the current lexical scope. -/
def AddSearchCondition (st : GraphPatternContext) :
    Except Err GraphPatternContext :=
  match st.variableScopeStack with
  | [] => .error .broken
  | i :: _ =>
      let newCondition : SearchConditionScope :=
        { variableScope := i, scope := none, inaccessibleVariables := [] }
      .ok { st with searchConditionScopes :=
              st.searchConditionScopes ++ [newCondition] }

/-- `GraphPatternContext::Finalize`: drop from each scope's
`inaccessibleVariables` every name whose total declaration count across
the graph pattern exceeds the recorded adjacent-operand count, then close
the outermost variable scope. -/
def Finalize (st : GraphPatternContext) : Except Err GraphPatternContext :=
  match st.declarationsInUnions with
  | [] => .error .broken
  | total :: _ =>
      let filterScope := fun (sc : SearchConditionScope) =>
        { sc with inaccessibleVariables :=
            (sc.inaccessibleVariables.filter
              (fun kv => !(decide (kv.2 < SMap.findD total kv.1 0)))) }
      let st :=
        { st with searchConditionScopes :=
            (st.searchConditionScopes.map filterScope) }
      st.ExitVariableScope

/-- The per-variable join of `GraphPatternContext::variables()`: the kind
and first position come from the declaration record, the temporary flag
and degree from the surviving exposure. -/
def variablesJoin (decl : VariableDeclaration) (varDef : ExposedVariable) :
    Variable :=
  { type := decl.type,
    declarationPosition := decl.firstDeclarationPosition,
    isTemp := varDef.isTemp,
    degree := varDef.degree }

/-- One step of `GraphPatternContext::variables()`'s loop. -/
def variablesFold (top : SMap ExposedVariable) (acc : Option (SMap Variable))
    (kv : String × VariableDeclaration) : Option (SMap Variable) :=
  match acc, SMap.find? top kv.1 with
  | some m, some varDef => some (SMap.set m kv.1 (variablesJoin kv.2 varDef))
  | _, _ => none

/-- `GraphPatternContext::variables()` (named `variablesMap` because
`variables` is reserved): join the first-declaration record with the
surviving top-frame exposure (the C++ dereferences the `find` result, so a
missing exposure is `broken`, modelled as `none`). -/
def variablesMap (st : GraphPatternContext) : Option (SMap Variable) :=
  match st.exposedVariables with
  | [] => none
  | top :: _ =>
      st.variableDeclarations.foldl (variablesFold top) (some [])

/-- `VariableReferenceScope` constructor: allocate a fresh aux-data record
for a `PathFactor` / `PathPatternExpression` and make it current,
remembering the previous scope for restoration. -/
def pushReferenceScope (st : GraphPatternContext) :
    GraphPatternContext × Option Nat :=
  let fresh : PathVariableReferenceScopeAuxData := { declaredVariables := [] }
  ({ st with
      referenceScopes := st.referenceScopes ++ [fresh],
      currentVariableReferenceScope := some st.referenceScopes.length },
   st.currentVariableReferenceScope)

/-- `VariableReferenceScope` destructor: restore the parent scope. -/
def popReferenceScope (st : GraphPatternContext) (prev : Option Nat) :
    GraphPatternContext :=
  { st with currentVariableReferenceScope := prev }

end GraphPatternContext

end GqlSpec

namespace GqlSpec

/-- `ExecutionContext::InaccessibleReason` (syntax_analyzer.h, used by
reference.cpp). -/
inductive InaccessibleReason where
  | ReferenceToTheAdjacentUnionOperand
  | NonLocalReferenceWithGroupDegreeOfReference
  | ReferenceFromSelectivePathPattern
  deriving DecidableEq, Repr

/-- A field of the working record / working table.  Value types are
abstracted to an opaque identifier: `ProcessBindingVariableReference`
returns the field's type unchanged without inspecting it. -/
structure RecordField where
  name : String
  type : Nat
  deriving DecidableEq, Repr

/-- `HasField(record, name)`: the first field with the given name. -/
def hasFieldIn (fields : List RecordField) (name : String) :
    Option RecordField :=
  fields.find? (fun f => f.name = name)

/-- The slice of `SyntaxAnalyzer::ExecutionContext` that
`ProcessBindingVariableReference` reads. -/
structure ExecutionContext where
  workingRecord : List RecordField := []
  workingTable : List RecordField := []
  inaccessibleVariables : SMap InaccessibleReason := []
  deriving DecidableEq, Repr

/-- The error code raised for each inaccessibility reason
(reference.cpp, the `switch` in `ProcessBindingVariableReference`). -/
def inaccessibleCode : InaccessibleReason → ErrorCode
  | .ReferenceToTheAdjacentUnionOperand => .E0051
  | .NonLocalReferenceWithGroupDegreeOfReference => .E0052
  | .ReferenceFromSelectivePathPattern => .E0053

/-- `SyntaxAnalyzer::ProcessBindingVariableReference` (reference.cpp):
look the name up in the working record; on a miss consult the recorded
inaccessibility reason (E0051/E0052/E0053), then the working table
(E0113), and fall back to E0054. -/
def ProcessBindingVariableReference (context : ExecutionContext)
    (name : String) : Except ErrorCode Nat :=
  match hasFieldIn context.workingRecord name with
  | some field => .ok field.type
  | none =>
      match SMap.find? context.inaccessibleVariables name with
      | some reason => .error (inaccessibleCode reason)
      | none =>
          if (hasFieldIn context.workingTable name).isSome then
            .error .E0113
          else
            .error .E0054

/-- Modelled from the spec: the driver code that turns a finalized
`SearchConditionScope` into the `ExecutionContext` used to type-check its
condition is not under src/ (only `reference.cpp`, its consumer, is).
Per spec §4.3, the scope's final `inaccessibleVariables` map "is the final
visibility oracle handed to the expression type-checker": each surviving
name is tagged with the adjacent-union-operand reason and excluded from
the working record built over the graph pattern's fields. -/
def contextForScope (sc : SearchConditionScope)
    (allFields : List RecordField) : ExecutionContext :=
  { workingRecord := allFields.filter
      (fun f => !(SMap.hasKey sc.inaccessibleVariables f.name)),
    workingTable := allFields,
    inaccessibleVariables := sc.inaccessibleVariables.map
      (fun kv => (kv.1, .ReferenceToTheAdjacentUnionOperand)) }

end GqlSpec

namespace GqlSpec

namespace Rewrite

/-- `ast::CompOp` (only `Equals` is produced by the rewrites). -/
inductive CompOp where
  | Equals | NotEquals
  deriving DecidableEq, Repr

/-- `ast::ValueExpression::Binary::Op` (subset). -/
inductive BinOp where
  | BoolAnd | BoolOr
  deriving DecidableEq, Repr

/-- `ast::ElementVariableDeclaration`. -/
structure ElementVariableDeclaration where
  name : String
  isTemp : Bool := false
  pos : Nat := 0
  deriving DecidableEq, Repr

/-- `ast::LabelExpression` (without positions; the rewrites never touch
label subtrees). -/
inductive LabelExpr where
  | label (name : String)
  | negation (e : LabelExpr)
  | conjunction (l r : LabelExpr)
  | disjunction (l r : LabelExpr)
  | wildcard
  deriving DecidableEq, Repr

/-- Edge directedness markers. -/
inductive EdgeDirection where
  | left | right | undirected | leftOrRight | anyDir
  deriving DecidableEq, Repr

/-- `ast::PathMode`. -/
inductive PathMode where
  | WALK | TRAIL | SIMPLE | ACYCLIC
  deriving DecidableEq, Repr

/-- The quantifier variants of `ast::PathFactor`. -/
inductive Quantifier where
  | noQuant
  | questioned
  | range (lower : Nat) (upper : Option Nat)
  deriving DecidableEq, Repr

/-- `ast::SubpathVariable`. -/
structure SubpathVar where
  name : String
  pos : Nat := 0
  deriving DecidableEq, Repr

/-- `ast::PathPatternExpression::Op`. -/
inductive PathOp where
  | Concat | Union | MultisetAlternation
  deriving DecidableEq, Repr

/-- The contents of a `SimplifiedPathPatternExpression`, modelled from the
spec (§4.1 R1): label terms, alternation, concatenation, quantification
and direction overrides.  Simplified expressions hold only label material,
never value expressions or nested patterns. -/
inductive SimplifiedContents where
  | labelTerm (e : LabelExpr)
  | alternation (l r : SimplifiedContents)
  | concatenation (l r : SimplifiedContents)
  | quantified (q : Quantifier) (inner : SimplifiedContents)
  | directed (d : EdgeDirection) (inner : SimplifiedContents)
  deriving DecidableEq, Repr

/-- One `name: value` pair of an `ElementPropertySpecification`,
parametric in the value type because the value is a recursive
`ValueExpr`. -/
structure PropertyKeyValueF (v : Type) where
  name : String
  value : v
  deriving DecidableEq, Repr

/-- `ast::ElementPatternFiller`, parametric in the predicate type because
the predicate holds recursive value expressions. -/
structure FillerF (π : Type) where
  var : Option ElementVariableDeclaration := none
  labelExpr : Option LabelExpr := none
  predicate : Option π := none
  deriving DecidableEq, Repr

/-- `ast::ParenthesizedPathPatternWhereClause`, parametric in the
expression type; `condition` is a `ValueExpressionPtr`, `none` models the
default-constructed empty expression. -/
structure WhereClauseF (v : Type) where
  pos : Nat := 0
  condition : Option v := none
  deriving DecidableEq, Repr

mutual

/-- Value expressions, with the alternatives the rewrites construct; every
other expression kind is an opaque leaf (`atomExpr`); `pos = 0` models an
unset `InputPosition`.  Modelled from the spec: value expressions can hold
nested `EXISTS { MATCH ... }` subqueries carrying full path patterns
(`ast::ValueExpression`'s definition is not under src/; the rewrites are
full tree walks and the R1 unit test, rewrite_unittest.cpp:65, shows the
walk rewriting a path pattern inside such a subquery), modelled by the
`existsMatch` alternative. -/
inductive ValueExpr where
  | comparison (pos : Nat) (op : CompOp) (left right : ValueExpr)
  | binary (pos : Nat) (op : BinOp) (left right : ValueExpr)
  | propertyReference (pos : Nat) (element : ValueExpr) (property : String)
  | bindingVariableReference (pos : Nat) (name : String)
  | atomExpr (pos : Nat) (id : Nat)
  | existsMatch (pos : Nat) (paths : List PathPatternExpr)

/-- The two alternatives of `ElementPatternFiller::predicate`. -/
inductive ElementPredicate where
  | whereClause (pos : Nat) (condition : ValueExpr)
  | propertySpec (pos : Nat) (props : List (PropertyKeyValueF ValueExpr))

/-- `ast::ElementPattern` = node or edge pattern with a filler. -/
inductive ElementPattern where
  | node (pos : Nat) (filler : FillerF ElementPredicate)
  | edge (pos : Nat) (dir : EdgeDirection) (filler : FillerF ElementPredicate)

/-- `ast::PathPrimary`: the pattern variant of a `PathFactor`.  `bareDash`
is the surface `-` abbreviation eliminated by the R2 rewrite. -/
inductive PathPrimary where
  | element (e : ElementPattern)
  | parenthesized (p : ParenthesizedPPE)
  | simplified (pos : Nat) (dir : EdgeDirection) (contents : SimplifiedContents)
  | bareDash

/-- `ast::ParenthesizedPathPatternExpression`. -/
inductive ParenthesizedPPE where
  | mk (pos : Nat) (subpathVar : Option SubpathVar) (mode : PathMode)
      (pattern : PathPatternExpr) (whereCl : Option (WhereClauseF ValueExpr))

/-- `ast::PathFactor`: a quantified primary. -/
inductive PathFactor where
  | mk (quantifier : Quantifier) (pattern : PathPrimary)

/-- One term of a `PathPatternExpression` (a factor sequence). -/
inductive PathTerm where
  | mk (factors : List PathFactor)

/-- `ast::PathPatternExpression`. -/
inductive PathPatternExpr where
  | mk (op : PathOp) (terms : List PathTerm)

end

/-- One `name: value` pair of an `ElementPropertySpecification`. -/
abbrev PropertyKeyValue : Type := PropertyKeyValueF ValueExpr

/-- `ast::ElementPatternFiller`. -/
abbrev ElementPatternFiller : Type := FillerF ElementPredicate

/-- `ast::ParenthesizedPathPatternWhereClause`. -/
abbrev WhereClause : Type := WhereClauseF ValueExpr

/-- The `InputPosition` of a value expression. -/
def ValueExpr.pos : ValueExpr → Nat
  | .comparison p _ _ _ => p
  | .binary p _ _ _ => p
  | .propertyReference p _ _ => p
  | .bindingVariableReference p _ => p
  | .atomExpr p _ => p
  | .existsMatch p _ => p

/-- The filler of an element pattern (`variant_switch` over node/edge). -/
def ElementPattern.filler : ElementPattern → ElementPatternFiller
  | .node _ f => f
  | .edge _ _ f => f

/-- The input position of an element pattern. -/
def ElementPattern.pos : ElementPattern → Nat
  | .node p _ => p
  | .edge p _ _ => p

/-- Replace the filler, preserving the element's kind, direction and
position. -/
def ElementPattern.withFiller : ElementPattern → ElementPatternFiller →
    ElementPattern
  | .node p _, f => .node p f
  | .edge p d _, f => .edge p d f

/-- The quantifier of a factor. -/
def PathFactor.quantifier : PathFactor → Quantifier
  | .mk q _ => q

/-- The primary of a factor. -/
def PathFactor.pattern : PathFactor → PathPrimary
  | .mk _ p => p

/-- The factors of a term. -/
def PathTerm.factors : PathTerm → List PathFactor
  | .mk fs => fs

/-- The operator of a path pattern expression. -/
def PathPatternExpr.op : PathPatternExpr → PathOp
  | .mk op _ => op

/-- The terms of a path pattern expression. -/
def PathPatternExpr.terms : PathPatternExpr → List PathTerm
  | .mk _ ts => ts

/-- The position of a parenthesized path pattern expression. -/
def ParenthesizedPPE.pos : ParenthesizedPPE → Nat
  | .mk p _ _ _ _ => p

/-- The inner pattern of a parenthesized path pattern expression. -/
def ParenthesizedPPE.pattern : ParenthesizedPPE → PathPatternExpr
  | .mk _ _ _ pat _ => pat

/-- The `WHERE` clause of a parenthesized path pattern expression. -/
def ParenthesizedPPE.whereCl : ParenthesizedPPE → Option WhereClause
  | .mk _ _ _ _ w => w

/-- `SetInputPositionRecursive` on a subpath variable. -/
def setPosSubpathVar (p : Nat) (v : SubpathVar) : SubpathVar :=
  if v.pos ≠ 0 then v else { v with pos := p }

/-- `SetInputPositionRecursive` on an element variable declaration. -/
def setPosVar (p : Nat) (v : ElementVariableDeclaration) :
    ElementVariableDeclaration :=
  if v.pos ≠ 0 then v else { v with pos := p }

mutual

/-- `SetInputPositionRecursive` on a value expression: a node with a set
position keeps it and shields its subtree (`kSkipChildren`); an unset node
takes the position and the walk continues below it. -/
def setPosExpr (p : Nat) : ValueExpr → ValueExpr
  | .comparison q op l r =>
      if q ≠ 0 then .comparison q op l r
      else .comparison p op (setPosExpr p l) (setPosExpr p r)
  | .binary q op l r =>
      if q ≠ 0 then .binary q op l r
      else .binary p op (setPosExpr p l) (setPosExpr p r)
  | .propertyReference q e n =>
      if q ≠ 0 then .propertyReference q e n
      else .propertyReference p (setPosExpr p e) n
  | .bindingVariableReference q n =>
      if q ≠ 0 then .bindingVariableReference q n
      else .bindingVariableReference p n
  | .atomExpr q i => if q ≠ 0 then .atomExpr q i else .atomExpr p i
  | .existsMatch q paths =>
      if q ≠ 0 then .existsMatch q paths
      else .existsMatch p (setPosPaths p paths)

/-- `SetInputPositionRecursive` on the path patterns of an `EXISTS`
subquery. -/
def setPosPaths (p : Nat) : List PathPatternExpr → List PathPatternExpr
  | [] => []
  | x :: rest => setPosExprP p x :: setPosPaths p rest

/-- `SetInputPositionRecursive` on a property list. -/
def setPosProps (p : Nat) :
    List (PropertyKeyValueF ValueExpr) → List (PropertyKeyValueF ValueExpr)
  | [] => []
  | .mk n v :: rest => .mk n (setPosExpr p v) :: setPosProps p rest

/-- `SetInputPositionRecursive` on an element predicate. -/
def setPosPredicate (p : Nat) : ElementPredicate → ElementPredicate
  | .whereClause q c =>
      if q ≠ 0 then .whereClause q c else .whereClause p (setPosExpr p c)
  | .propertySpec q props =>
      if q ≠ 0 then .propertySpec q props
      else .propertySpec p (setPosProps p props)

/-- `SetInputPositionRecursive` on an element pattern filler. -/
def setPosFiller (p : Nat) :
    FillerF ElementPredicate → FillerF ElementPredicate
  | .mk v l none => .mk (v.map (setPosVar p)) l none
  | .mk v l (some pr) => .mk (v.map (setPosVar p)) l (some (setPosPredicate p pr))

/-- `SetInputPositionRecursive` on an element pattern. -/
def setPosElement (p : Nat) : ElementPattern → ElementPattern
  | .node q f => if q ≠ 0 then .node q f else .node p (setPosFiller p f)
  | .edge q d f => if q ≠ 0 then .edge q d f else .edge p d (setPosFiller p f)

/-- `SetInputPositionRecursive` on a `WHERE` clause. -/
def setPosWhere (p : Nat) : WhereClauseF ValueExpr → WhereClauseF ValueExpr
  | .mk q none => if q ≠ 0 then .mk q none else .mk p none
  | .mk q (some c) =>
      if q ≠ 0 then .mk q (some c) else .mk p (some (setPosExpr p c))

/-- `SetInputPositionRecursive` on an optional `WHERE` clause. -/
def setPosWhereOpt (p : Nat) :
    Option (WhereClauseF ValueExpr) → Option (WhereClauseF ValueExpr)
  | none => none
  | some w => some (setPosWhere p w)

/-- `SetInputPositionRecursive` on a primary. -/
def setPosPrimary (p : Nat) : PathPrimary → PathPrimary
  | .element e => .element (setPosElement p e)
  | .parenthesized pp => .parenthesized (setPosParen p pp)
  | .simplified q d c =>
      if q ≠ 0 then .simplified q d c else .simplified p d c
  | .bareDash => .bareDash

/-- `SetInputPositionRecursive` on a parenthesized expression. -/
def setPosParen (p : Nat) : ParenthesizedPPE → ParenthesizedPPE
  | .mk q sv mode pat wc =>
      if q ≠ 0 then .mk q sv mode pat wc
      else .mk p (sv.map (setPosSubpathVar p)) mode (setPosExprP p pat)
        (setPosWhereOpt p wc)

/-- `SetInputPositionRecursive` on a path pattern expression. -/
def setPosExprP (p : Nat) : PathPatternExpr → PathPatternExpr
  | .mk op ts => .mk op (setPosTerms p ts)

/-- `SetInputPositionRecursive` on a term list. -/
def setPosTerms (p : Nat) : List PathTerm → List PathTerm
  | [] => []
  | t :: rest => setPosTerm p t :: setPosTerms p rest

/-- `SetInputPositionRecursive` on a term. -/
def setPosTerm (p : Nat) : PathTerm → PathTerm
  | .mk fs => .mk (setPosFactors p fs)

/-- `SetInputPositionRecursive` on a factor list. -/
def setPosFactors (p : Nat) : List PathFactor → List PathFactor
  | [] => []
  | f :: rest => setPosFactor p f :: setPosFactors p rest

/-- `SetInputPositionRecursive` on a factor. -/
def setPosFactor (p : Nat) : PathFactor → PathFactor
  | .mk q pr => .mk q (setPosPrimary p pr)

end

end Rewrite

end GqlSpec

namespace GqlSpec

namespace Rewrite

/-- The parenthesized wrapper built by R3/R4 around a rewritten element:
fresh node, no subpath variable, `WALK` mode, a single term holding a
single unquantified factor. -/
def wrapElement (e : ElementPattern) (w : WhereClause) : ParenthesizedPPE :=
  .mk 0 none .WALK (.mk .Concat [.mk [.mk .noQuant (.element e)]]) (some w)

mutual

/-- `RewriteElementPatternWhereClause` (R3) on a primary: lift an element's
`WHERE` predicate into a surrounding parenthesized path pattern
expression; the new `WHERE` keeps the original clause's position, and the
remaining fresh nodes take the element's position.  The visitor returns
`kSkipChildren` on every element pattern (element_pattern_where.cpp:49),
so nothing below an element — in particular a lifted condition's nested
`EXISTS` subquery — is rewritten in the same pass. -/
def r3Primary : PathPrimary → PathPrimary
  | .element e =>
      match e.filler.predicate with
      | some (.whereClause wpos cond) =>
          let e' := e.withFiller { e.filler with predicate := none }
          let wrapper := wrapElement e' { pos := wpos, condition := some cond }
          .parenthesized (setPosParen e.pos wrapper)
      | _ => .element e
  | .parenthesized pp => .parenthesized (r3Paren pp)
  | .simplified q d c => .simplified q d c
  | .bareDash => .bareDash

/-- R3 on a parenthesized expression (the visitor continues below it,
including into its `WHERE` clause's expression tree). -/
def r3Paren : ParenthesizedPPE → ParenthesizedPPE
  | .mk q sv mode pat wc => .mk q sv mode (r3ExprP pat) (r3WhereOpt wc)

/-- R3 on an optional `WHERE` clause. -/
def r3WhereOpt : Option (WhereClauseF ValueExpr) →
    Option (WhereClauseF ValueExpr)
  | none => none
  | some w => some (r3Where w)

/-- R3 on a `WHERE` clause. -/
def r3Where : WhereClauseF ValueExpr → WhereClauseF ValueExpr
  | .mk q none => .mk q none
  | .mk q (some c) => .mk q (some (r3Value c))

/-- R3 on a value expression: the walk descends through expressions and
into the path patterns of `EXISTS` subqueries. -/
def r3Value : ValueExpr → ValueExpr
  | .comparison p op l r => .comparison p op (r3Value l) (r3Value r)
  | .binary p op l r => .binary p op (r3Value l) (r3Value r)
  | .propertyReference p e n => .propertyReference p (r3Value e) n
  | .bindingVariableReference p n => .bindingVariableReference p n
  | .atomExpr p i => .atomExpr p i
  | .existsMatch p paths => .existsMatch p (r3Paths paths)

/-- R3 over a list of path pattern expressions (the program's `MATCH`
roots and the patterns of `EXISTS` subqueries). -/
def r3Paths : List PathPatternExpr → List PathPatternExpr
  | [] => []
  | x :: rest => r3ExprP x :: r3Paths rest

/-- R3 on a path pattern expression. -/
def r3ExprP : PathPatternExpr → PathPatternExpr
  | .mk op ts => .mk op (r3Terms ts)

/-- R3 on a term list. -/
def r3Terms : List PathTerm → List PathTerm
  | [] => []
  | t :: rest => r3Term t :: r3Terms rest

/-- R3 on a term. -/
def r3Term : PathTerm → PathTerm
  | .mk fs => .mk (r3Factors fs)

/-- R3 on a factor list. -/
def r3Factors : List PathFactor → List PathFactor
  | [] => []
  | f :: rest => r3Factor f :: r3Factors rest

/-- R3 on a factor. -/
def r3Factor : PathFactor → PathFactor
  | .mk q pr => .mk q (r3Primary pr)

end

/-- The generated-identifier scheme of R4: the fixed prefix reserved for
generated identifiers followed by the counter value
(`fmt::format("gql_gen_prop{}", ++lastGeneratedId)`). -/
def generatedName (n : Nat) : String := "gql_gen_prop" ++ toString n

/-- One conjunct `v.p = value` of the R4 rewrite. -/
def mkPropComparison (varName : String) (p : PropertyKeyValue) : ValueExpr :=
  .comparison 0 .Equals
    (.propertyReference 0 (.bindingVariableReference 0 varName) p.name)
    p.value

/-- The loop of R4 building the conjunction: after the first property the
accumulated expression is conjoined on the left
(`bin.left = expr; bin.right = next`). -/
def buildPropConjAux (varName : String) (acc : ValueExpr) :
    List PropertyKeyValue → ValueExpr
  | [] => acc
  | p :: rest =>
      buildPropConjAux varName
        (.binary 0 .BoolAnd acc (mkPropComparison varName p)) rest

/-- The property conjunction of R4 (`none` when the property list is
empty, in which case the `WHERE` keeps its default-constructed empty
condition). -/
def buildPropConj (varName : String) : List PropertyKeyValue →
    Option ValueExpr
  | [] => none
  | p :: rest => some (buildPropConjAux varName (mkPropComparison varName p) rest)

mutual

/-- `RewriteElementPropertyPredicate` (R4) on a primary, threading the
per-program generated-identifier counter: rewrite an element's property
specification into a lifted `WHERE` conjunction, injecting a temporary
variable when the filler has none.  The visitor returns `kSkipChildren`
on every element pattern (element_property_predicate.cpp:87), so nothing
below an element — in particular the lifted property values — is
rewritten in the same pass. -/
def r4Primary (c : Nat) : PathPrimary → PathPrimary × Nat
  | .element e =>
      match e.filler.predicate with
      | some (.propertySpec _ props) =>
          let vc : ElementVariableDeclaration × Nat :=
            match e.filler.var with
            | some v => (v, c)
            | none =>
                (setPosVar e.pos { name := generatedName (c + 1), isTemp := true },
                 c + 1)
          let conj := buildPropConj vc.1.name props
          let e' := e.withFiller
            { e.filler with var := some vc.1, predicate := none }
          let wrapper := wrapElement e' { pos := 0, condition := conj }
          (.parenthesized (setPosParen e.pos wrapper), vc.2)
      | _ => (.element e, c)
  | .parenthesized pp =>
      let pc := r4Paren c pp
      (.parenthesized pc.1, pc.2)
  | .simplified q d cs => (.simplified q d cs, c)
  | .bareDash => (.bareDash, c)

/-- R4 on a parenthesized expression: the walk continues below it,
including into its `WHERE` clause's expression tree. -/
def r4Paren (c : Nat) : ParenthesizedPPE → ParenthesizedPPE × Nat
  | .mk q sv mode pat wc =>
      let pc := r4ExprP c pat
      let wr := r4WhereOpt pc.2 wc
      (.mk q sv mode pc.1 wr.1, wr.2)

/-- R4 on an optional `WHERE` clause. -/
def r4WhereOpt (c : Nat) : Option (WhereClauseF ValueExpr) →
    Option (WhereClauseF ValueExpr) × Nat
  | none => (none, c)
  | some w =>
      let wr := r4Where c w
      (some wr.1, wr.2)

/-- R4 on a `WHERE` clause. -/
def r4Where (c : Nat) : WhereClauseF ValueExpr → WhereClauseF ValueExpr × Nat
  | .mk q none => (.mk q none, c)
  | .mk q (some v) =>
      let vr := r4Value c v
      (.mk q (some vr.1), vr.2)

/-- R4 on a value expression: the walk descends through expressions and
into the path patterns of `EXISTS` subqueries. -/
def r4Value (c : Nat) : ValueExpr → ValueExpr × Nat
  | .comparison p op l r =>
      let lr := r4Value c l
      let rr := r4Value lr.2 r
      (.comparison p op lr.1 rr.1, rr.2)
  | .binary p op l r =>
      let lr := r4Value c l
      let rr := r4Value lr.2 r
      (.binary p op lr.1 rr.1, rr.2)
  | .propertyReference p e n =>
      let er := r4Value c e
      (.propertyReference p er.1 n, er.2)
  | .bindingVariableReference p n => (.bindingVariableReference p n, c)
  | .atomExpr p i => (.atomExpr p i, c)
  | .existsMatch p paths =>
      let pr := r4Paths c paths
      (.existsMatch p pr.1, pr.2)

/-- R4 over a list of path pattern expressions, threading the counter. -/
def r4Paths (c : Nat) : List PathPatternExpr → List PathPatternExpr × Nat
  | [] => ([], c)
  | p :: rest =>
      let pc := r4ExprP c p
      let rc := r4Paths pc.2 rest
      (pc.1 :: rc.1, rc.2)

/-- R4 on a path pattern expression. -/
def r4ExprP (c : Nat) : PathPatternExpr → PathPatternExpr × Nat
  | .mk op ts =>
      let tc := r4Terms c ts
      (.mk op tc.1, tc.2)

/-- R4 on a term list. -/
def r4Terms (c : Nat) : List PathTerm → List PathTerm × Nat
  | [] => ([], c)
  | t :: rest =>
      let tc := r4Term c t
      let rc := r4Terms tc.2 rest
      (tc.1 :: rc.1, rc.2)

/-- R4 on a term. -/
def r4Term (c : Nat) : PathTerm → PathTerm × Nat
  | .mk fs =>
      let fc := r4Factors c fs
      (.mk fc.1, fc.2)

/-- R4 on a factor list. -/
def r4Factors (c : Nat) : List PathFactor → List PathFactor × Nat
  | [] => ([], c)
  | f :: rest =>
      let fc := r4Factor c f
      let rc := r4Factors fc.2 rest
      (fc.1 :: rc.1, rc.2)

/-- R4 on a factor. -/
def r4Factor (c : Nat) : PathFactor → PathFactor × Nat
  | .mk q pr =>
      let pc := r4Primary c pr
      (.mk q pc.1, pc.2)

end

end Rewrite

end GqlSpec

namespace GqlSpec

namespace Rewrite

/-- Modelled from the spec: a labeled edge pattern produced by R1
(`~/ A /~>` becomes `(~[:A]~>)`); the directedness markers project onto
the edge's direction. -/
def simplifiedEdge (dir : EdgeDirection) (e : LabelExpr) : PathFactor :=
  .mk .noQuant (.element (.edge 0 dir { labelExpr := some e }))

mutual

/-- Modelled from the spec: translate one simplified term to a factor.
Label terms become labeled edges; alternation becomes a parenthesized
union of the operand terms; concatenation becomes a parenthesized
sequence; quantification moves onto the containing factor; direction
markers override the ambient direction. -/
def translateFactor (dir : EdgeDirection) : SimplifiedContents → PathFactor
  | .labelTerm e => simplifiedEdge dir e
  | .alternation l r =>
      .mk .noQuant (.parenthesized (.mk 0 none .WALK
        (.mk .Union (altTerms dir l ++ altTerms dir r)) none))
  | .concatenation l r =>
      .mk .noQuant (.parenthesized (.mk 0 none .WALK
        (.mk .Concat [.mk (factorSeq dir l ++ factorSeq dir r)]) none))
  | .quantified q inner => .mk q (translateFactor dir inner).pattern
  | .directed d inner => translateFactor d inner

/-- Modelled from the spec: the alternation operands of a simplified
expression, each as one term. -/
def altTerms (dir : EdgeDirection) : SimplifiedContents → List PathTerm
  | .alternation l r => altTerms dir l ++ altTerms dir r
  | .concatenation l r => [.mk (factorSeq dir l ++ factorSeq dir r)]
  | .quantified q inner =>
      [.mk [PathFactor.mk q (translateFactor dir inner).pattern]]
  | .directed d inner => altTerms d inner
  | .labelTerm e => [.mk [simplifiedEdge dir e]]

/-- Modelled from the spec: the concatenated factors of one simplified
term. -/
def factorSeq (dir : EdgeDirection) : SimplifiedContents → List PathFactor
  | .concatenation l r => factorSeq dir l ++ factorSeq dir r
  | .alternation l r =>
      [.mk .noQuant (.parenthesized (.mk 0 none .WALK
        (.mk .Union (altTerms dir l ++ altTerms dir r)) none))]
  | .quantified q inner => [.mk q (translateFactor dir inner).pattern]
  | .directed d inner => factorSeq d inner
  | .labelTerm e => [simplifiedEdge dir e]

end

/-- Modelled from the spec (R1): replace a `SimplifiedPathPatternExpression`
with an equivalent `ParenthesizedPathPatternExpression` built from labeled
edge patterns. -/
def r1Simplified (pos : Nat) (dir : EdgeDirection) (c : SimplifiedContents) :
    ParenthesizedPPE :=
  let alts := altTerms dir c
  .mk pos none .WALK
    (.mk (if 1 < alts.length then .Union else .Concat) alts) none

mutual

/-- Modelled from the spec: `RewriteSimplifiedPathPattern` (R1) on a
primary.  The spec calls every rewrite "a full tree walk", and the R1
unit test (rewrite_unittest.cpp:65) shows the walk rewriting a simplified
pattern nested inside an `EXISTS` subquery, so R1 descends into element
predicates and `WHERE` expression trees. -/
def r1Primary : PathPrimary → PathPrimary
  | .element e => .element (r1Element e)
  | .parenthesized (.mk q sv mode pat wc) =>
      .parenthesized (.mk q sv mode (r1ExprP pat) (r1WhereOpt wc))
  | .simplified q d c => .parenthesized (r1Simplified q d c)
  | .bareDash => .bareDash

/-- R1 on an element pattern (the walk continues into the filler). -/
def r1Element : ElementPattern → ElementPattern
  | .node p f => .node p (r1Filler f)
  | .edge p d f => .edge p d (r1Filler f)

/-- R1 on an element pattern filler. -/
def r1Filler : FillerF ElementPredicate → FillerF ElementPredicate
  | .mk v l none => .mk v l none
  | .mk v l (some pr) => .mk v l (some (r1Pred pr))

/-- R1 on an element predicate. -/
def r1Pred : ElementPredicate → ElementPredicate
  | .whereClause p c => .whereClause p (r1Value c)
  | .propertySpec p props => .propertySpec p (r1Props props)

/-- R1 on a property list. -/
def r1Props : List (PropertyKeyValueF ValueExpr) →
    List (PropertyKeyValueF ValueExpr)
  | [] => []
  | .mk n v :: rest => .mk n (r1Value v) :: r1Props rest

/-- R1 on a value expression, descending into `EXISTS` subqueries. -/
def r1Value : ValueExpr → ValueExpr
  | .comparison p op l r => .comparison p op (r1Value l) (r1Value r)
  | .binary p op l r => .binary p op (r1Value l) (r1Value r)
  | .propertyReference p e n => .propertyReference p (r1Value e) n
  | .bindingVariableReference p n => .bindingVariableReference p n
  | .atomExpr p i => .atomExpr p i
  | .existsMatch p paths => .existsMatch p (r1Paths paths)

/-- R1 on an optional `WHERE` clause. -/
def r1WhereOpt : Option (WhereClauseF ValueExpr) →
    Option (WhereClauseF ValueExpr)
  | none => none
  | some w => some (r1Where w)

/-- R1 on a `WHERE` clause. -/
def r1Where : WhereClauseF ValueExpr → WhereClauseF ValueExpr
  | .mk q none => .mk q none
  | .mk q (some c) => .mk q (some (r1Value c))

/-- R1 over a list of path pattern expressions. -/
def r1Paths : List PathPatternExpr → List PathPatternExpr
  | [] => []
  | x :: rest => r1ExprP x :: r1Paths rest

/-- R1 on a path pattern expression. -/
def r1ExprP : PathPatternExpr → PathPatternExpr
  | .mk op ts => .mk op (r1Terms ts)

/-- R1 on a term list. -/
def r1Terms : List PathTerm → List PathTerm
  | [] => []
  | t :: rest => r1Term t :: r1Terms rest

/-- R1 on a term. -/
def r1Term : PathTerm → PathTerm
  | .mk fs => .mk (r1Factors fs)

/-- R1 on a factor list. -/
def r1Factors : List PathFactor → List PathFactor
  | [] => []
  | f :: rest => r1Factor f :: r1Factors rest

/-- R1 on a factor. -/
def r1Factor : PathFactor → PathFactor
  | .mk q pr => .mk q (r1Primary pr)

end

/-- A factor that is a bare, unquantified `-`. -/
def isBareDash (f : PathFactor) : Bool :=
  match f with
  | .mk .noQuant .bareDash => true
  | _ => false

/-- The empty anonymous node pattern introduced by R2. -/
def anonNodeFactor : PathFactor := .mk .noQuant (.element (.node 0 {}))

/-- The anonymous edge pattern a `-` expands to. -/
def anonEdgeFactor : PathFactor :=
  .mk .noQuant (.element (.edge 0 .anyDir {}))

/-- `()-()`: the expansion of a single dash in isolation. -/
def dashTriple : List PathFactor := [anonNodeFactor, anonEdgeFactor, anonNodeFactor]

mutual

/-- Modelled from the spec (R2, `RewriteElementPatterns`): `-` chains
expand to explicit node/edge/node sequences (`-` ⇒ `()-()`,
`- -` ⇒ `()-()-()`), with an anonymous node between every pair of dash
edges and at each chain end that touches a term boundary.  Like the other
rewrites, a full tree walk: the walk descends into element predicates and
`WHERE` expression trees and the `EXISTS` subqueries they hold. -/
def r2Primary : PathPrimary → PathPrimary
  | .element e => .element (r2Element e)
  | .parenthesized (.mk q sv mode pat wc) =>
      .parenthesized (.mk q sv mode (r2ExprP pat) (r2WhereOpt wc))
  | .simplified q d c => .simplified q d c
  | .bareDash => .bareDash

/-- R2 on an element pattern. -/
def r2Element : ElementPattern → ElementPattern
  | .node p f => .node p (r2Filler f)
  | .edge p d f => .edge p d (r2Filler f)

/-- R2 on an element pattern filler. -/
def r2Filler : FillerF ElementPredicate → FillerF ElementPredicate
  | .mk v l none => .mk v l none
  | .mk v l (some pr) => .mk v l (some (r2Pred pr))

/-- R2 on an element predicate. -/
def r2Pred : ElementPredicate → ElementPredicate
  | .whereClause p c => .whereClause p (r2Value c)
  | .propertySpec p props => .propertySpec p (r2Props props)

/-- R2 on a property list. -/
def r2Props : List (PropertyKeyValueF ValueExpr) →
    List (PropertyKeyValueF ValueExpr)
  | [] => []
  | .mk n v :: rest => .mk n (r2Value v) :: r2Props rest

/-- R2 on a value expression, descending into `EXISTS` subqueries. -/
def r2Value : ValueExpr → ValueExpr
  | .comparison p op l r => .comparison p op (r2Value l) (r2Value r)
  | .binary p op l r => .binary p op (r2Value l) (r2Value r)
  | .propertyReference p e n => .propertyReference p (r2Value e) n
  | .bindingVariableReference p n => .bindingVariableReference p n
  | .atomExpr p i => .atomExpr p i
  | .existsMatch p paths => .existsMatch p (r2Paths paths)

/-- R2 on an optional `WHERE` clause. -/
def r2WhereOpt : Option (WhereClauseF ValueExpr) →
    Option (WhereClauseF ValueExpr)
  | none => none
  | some w => some (r2Where w)

/-- R2 on a `WHERE` clause. -/
def r2Where : WhereClauseF ValueExpr → WhereClauseF ValueExpr
  | .mk q none => .mk q none
  | .mk q (some c) => .mk q (some (r2Value c))

/-- R2 over a list of path pattern expressions. -/
def r2Paths : List PathPatternExpr → List PathPatternExpr
  | [] => []
  | x :: rest => r2ExprP x :: r2Paths rest

/-- R2 on a path pattern expression. -/
def r2ExprP : PathPatternExpr → PathPatternExpr
  | .mk op ts => .mk op (r2Terms ts)

/-- R2 on a term list. -/
def r2Terms : List PathTerm → List PathTerm
  | [] => []
  | t :: rest => r2Term t :: r2Terms rest

/-- R2 on a term: factors processed from the term start. -/
def r2Term : PathTerm → PathTerm
  | .mk fs => .mk (r2Start fs)

/-- R2 on the factors at the start of a term: a leading dash gets an
anonymous node before it. -/
def r2Start : List PathFactor → List PathFactor
  | [] => []
  | f :: rest =>
      if isBareDash f then anonNodeFactor :: anonEdgeFactor :: r2AfterDash rest
      else r2Factor f :: r2Mid rest

/-- R2 mid-term (the previous item was not a dash): a dash becomes just an
edge. -/
def r2Mid : List PathFactor → List PathFactor
  | [] => []
  | f :: rest =>
      if isBareDash f then anonEdgeFactor :: r2AfterDash rest
      else r2Factor f :: r2Mid rest

/-- R2 just after a dash: a following dash shares an anonymous node with
it; a trailing dash gets an anonymous node after it. -/
def r2AfterDash : List PathFactor → List PathFactor
  | [] => [anonNodeFactor]
  | f :: rest =>
      if isBareDash f then anonNodeFactor :: anonEdgeFactor :: r2AfterDash rest
      else r2Factor f :: r2Mid rest

/-- R2 on a single factor: a quantified dash becomes the quantified
parenthesized expansion `(()-())`; other factors are traversed. -/
def r2Factor : PathFactor → PathFactor
  | .mk q .bareDash =>
      .mk q (.parenthesized (.mk 0 none .WALK (.mk .Concat [.mk dashTriple]) none))
  | .mk q pr => .mk q (r2Primary pr)

end

/-- The program slice the rewrites traverse: every path pattern expression
of the program (`ForEachNodeOfType<PathPrimary>` reaches each through the
enclosing statements, elided here). -/
structure GQLProgramModel where
  paths : List PathPatternExpr

/-- Modelled from the spec: `rewrite::RewriteSimplifiedPathPattern` (R1);
its implementation is not under src/, only its unit tests are. -/
def RewriteSimplifiedPathPattern (prog : GQLProgramModel) : GQLProgramModel :=
  ⟨r1Paths prog.paths⟩

/-- Modelled from the spec: `rewrite::RewriteElementPatterns` (R2);
its implementation is not under src/, only its unit tests are. -/
def RewriteElementPatterns (prog : GQLProgramModel) : GQLProgramModel :=
  ⟨r2Paths prog.paths⟩

/-- `rewrite::RewriteElementPatternWhereClause` (R3) over a program. -/
def RewriteElementPatternWhereClause (prog : GQLProgramModel) :
    GQLProgramModel :=
  ⟨r3Paths prog.paths⟩

/-- `rewrite::RewriteElementPropertyPredicate` (R4) over a program: the
generated-identifier counter starts at zero for each program. -/
def RewriteElementPropertyPredicate (prog : GQLProgramModel) :
    GQLProgramModel :=
  ⟨(r4Paths 0 prog.paths).1⟩

/-- Node-local cleanliness check of R1: the primary is not a
`SimplifiedPathPatternExpression`. -/
def noSimplified : PathPrimary → Bool
  | .simplified _ _ _ => false
  | _ => true

/-- Node-local cleanliness check of R2: the primary is not a bare `-`. -/
def noBareDash : PathPrimary → Bool
  | .bareDash => false
  | _ => true

/-- Node-local cleanliness check of R3: the primary is not an element
pattern carrying a `WHERE` predicate. -/
def noWherePredicate : PathPrimary → Bool
  | .element e =>
      match e.filler.predicate with
      | some (.whereClause _ _) => false
      | _ => true
  | _ => true

/-- Node-local cleanliness check of R4: the primary is not an element
pattern carrying a property specification. -/
def noPropSpec : PathPrimary → Bool
  | .element e =>
      match e.filler.predicate with
      | some (.propertySpec _ _) => false
      | _ => true
  | _ => true

/-- No `EXISTS` subquery anywhere in a value expression. -/
def noExistsValue : ValueExpr → Bool
  | .comparison _ _ l r => noExistsValue l && noExistsValue r
  | .binary _ _ l r => noExistsValue l && noExistsValue r
  | .propertyReference _ e _ => noExistsValue e
  | .bindingVariableReference _ _ => true
  | .atomExpr _ _ => true
  | .existsMatch _ _ => false

/-- No `EXISTS` subquery in any value of a property list. -/
def noExistsProps : List (PropertyKeyValueF ValueExpr) → Bool
  | [] => true
  | .mk _ v :: rest => noExistsValue v && noExistsProps rest

/-- Node-local check: if the primary is an element pattern, the value
expressions of its predicate (if any) contain no `EXISTS` subquery — the
shape on which the element's `kSkipChildren` shielding cannot hide a
rewritable pattern from R3/R4. -/
def noExistsUnderElem : PathPrimary → Bool
  | .element e =>
      match e.filler.predicate with
      | none => true
      | some (.whereClause _ c) => noExistsValue c
      | some (.propertySpec _ props) => noExistsProps props
  | _ => true

mutual

/-- A node-local check holds at every primary in a primary's subtree.
With `deep = true` the traversal also descends into element patterns'
predicate expressions (as the R1/R2 full walks do); with `deep = false`
element subtrees are skipped (as the R3/R4 walks do via
`kSkipChildren`). -/
def allPrimary (deep : Bool) (p : PathPrimary → Bool) : PathPrimary → Bool
  | .element e =>
      p (.element e) && (if deep then allElement deep p e else true)
  | .parenthesized pp => p (.parenthesized pp) && allParen deep p pp
  | pr => p pr

/-- A node-local check holds throughout an element pattern's subtree. -/
def allElement (deep : Bool) (p : PathPrimary → Bool) : ElementPattern → Bool
  | .node _ f => allFiller deep p f
  | .edge _ _ f => allFiller deep p f

/-- A node-local check holds throughout a filler's subtree. -/
def allFiller (deep : Bool) (p : PathPrimary → Bool) :
    FillerF ElementPredicate → Bool
  | .mk _ _ none => true
  | .mk _ _ (some pr) => allPred deep p pr

/-- A node-local check holds throughout an element predicate's values. -/
def allPred (deep : Bool) (p : PathPrimary → Bool) : ElementPredicate → Bool
  | .whereClause _ c => allValue deep p c
  | .propertySpec _ props => allProps deep p props

/-- A node-local check holds throughout a property list's values. -/
def allProps (deep : Bool) (p : PathPrimary → Bool) :
    List (PropertyKeyValueF ValueExpr) → Bool
  | [] => true
  | .mk _ v :: rest => allValue deep p v && allProps deep p rest

/-- A node-local check holds at every primary reachable inside a value
expression (through `EXISTS` subqueries). -/
def allValue (deep : Bool) (p : PathPrimary → Bool) : ValueExpr → Bool
  | .comparison _ _ l r => allValue deep p l && allValue deep p r
  | .binary _ _ l r => allValue deep p l && allValue deep p r
  | .propertyReference _ e _ => allValue deep p e
  | .bindingVariableReference _ _ => true
  | .atomExpr _ _ => true
  | .existsMatch _ paths => allPathsL deep p paths

/-- A node-local check holds throughout a list of path pattern
expressions. -/
def allPathsL (deep : Bool) (p : PathPrimary → Bool) :
    List PathPatternExpr → Bool
  | [] => true
  | x :: rest => allExprP deep p x && allPathsL deep p rest

/-- A node-local check holds at every primary below a parenthesized
expression, including inside its `WHERE` clause. -/
def allParen (deep : Bool) (p : PathPrimary → Bool) : ParenthesizedPPE → Bool
  | .mk _ _ _ pat wc => allExprP deep p pat && allWhereOpt deep p wc

/-- A node-local check holds throughout an optional `WHERE` clause. -/
def allWhereOpt (deep : Bool) (p : PathPrimary → Bool) :
    Option (WhereClauseF ValueExpr) → Bool
  | none => true
  | some w => allWhere deep p w

/-- A node-local check holds throughout a `WHERE` clause. -/
def allWhere (deep : Bool) (p : PathPrimary → Bool) :
    WhereClauseF ValueExpr → Bool
  | .mk _ none => true
  | .mk _ (some c) => allValue deep p c

/-- A node-local check holds at every primary of an expression. -/
def allExprP (deep : Bool) (p : PathPrimary → Bool) : PathPatternExpr → Bool
  | .mk _ ts => allTerms deep p ts

/-- A node-local check holds throughout a term list. -/
def allTerms (deep : Bool) (p : PathPrimary → Bool) : List PathTerm → Bool
  | [] => true
  | t :: rest => allTerm deep p t && allTerms deep p rest

/-- A node-local check holds throughout a term. -/
def allTerm (deep : Bool) (p : PathPrimary → Bool) : PathTerm → Bool
  | .mk fs => allFactors deep p fs

/-- A node-local check holds throughout a factor list. -/
def allFactors (deep : Bool) (p : PathPrimary → Bool) : List PathFactor → Bool
  | [] => true
  | f :: rest => allFactor deep p f && allFactors deep p rest

/-- A node-local check holds throughout a factor. -/
def allFactor (deep : Bool) (p : PathPrimary → Bool) : PathFactor → Bool
  | .mk _ pr => allPrimary deep p pr

end

end Rewrite

end GqlSpec


namespace GqlSpec

namespace SMap

theorem find?_eq_none_of_not_mem {α : Type} {m : SMap α} {key : String}
    (h : key ∉ m.keys) : m.find? key = none := by
  induction m with
  | nil => rfl
  | cons p rest ih =>
      simp only [keys, List.map_cons, List.mem_cons] at h
      push_neg at h
      have hk : p.1 ≠ key := fun hh => h.1 hh.symm
      simp only [find?, if_neg hk]
      exact ih (by simpa [keys] using h.2)

theorem mem_keys_of_find? {α : Type} {m : SMap α} {key : String} {v : α}
    (h : m.find? key = some v) : key ∈ m.keys := by
  induction m with
  | nil => simp [find?] at h
  | cons p rest ih =>
      by_cases hk : p.1 = key
      · simp [keys, hk]
      · simp only [find?, if_neg hk] at h
        simp only [keys, List.map_cons, List.mem_cons]
        exact Or.inr (ih h)

theorem find?_insert_self {α : Type} {m : SMap α} (key : String) (v : α)
    (h : m.find? key = none) : (m.insert key v).find? key = some v := by
  induction m with
  | nil => simp [insert, find?]
  | cons p rest ih =>
      by_cases hk : p.1 = key
      · simp [find?, hk] at h
      · simp only [find?, if_neg hk] at h
        simpa [insert, find?, if_neg hk] using ih h

theorem find?_insert_ne {α : Type} (m : SMap α) {key j : String} (v : α)
    (h : j ≠ key) : (m.insert key v).find? j = m.find? j := by
  induction m with
  | nil =>
      simp only [insert, List.nil_append, find?]
      rw [if_neg (fun hh => h hh.symm)]
  | cons p rest ih =>
      by_cases hk : p.1 = j
      · simp [insert, find?, hk]
      · simpa [insert, find?, if_neg hk] using ih

theorem find?_set_self {α : Type} (m : SMap α) (key : String) (v : α) :
    (m.set key v).find? key = some v := by
  induction m with
  | nil => simp [set, find?]
  | cons p rest ih =>
      by_cases hk : p.1 = key
      · simp [set, hk, find?]
      · simpa [set, if_neg hk, find?, if_neg hk] using ih

theorem find?_set_ne {α : Type} (m : SMap α) {key j : String} (v : α)
    (h : j ≠ key) : (m.set key v).find? j = m.find? j := by
  induction m with
  | nil =>
      simp only [set, find?]
      rw [if_neg (fun hh => h hh.symm)]
  | cons p rest ih =>
      by_cases hk : p.1 = key
      · have hpj : p.1 ≠ j := fun hh => h (hh.symm.trans hk)
        simp only [set, if_pos hk, find?]
        rw [if_neg hpj, if_neg hpj]
      · by_cases hj : p.1 = j
        · simp only [set, if_neg hk, find?, if_pos hj]
        · simpa [set, if_neg hk, find?, if_neg hj] using ih

theorem keys_insert {α : Type} (m : SMap α) (key : String) (v : α) :
    (m.insert key v).keys = m.keys ++ [key] := by
  simp [insert, keys]

theorem keys_set {α : Type} (m : SMap α) (key : String) (v : α)
    (h : key ∈ m.keys) : (m.set key v).keys = m.keys := by
  induction m with
  | nil => simp [keys] at h
  | cons p rest ih =>
      by_cases hk : p.1 = key
      · simp [set, hk, keys]
      · simp only [keys, List.map_cons, List.mem_cons] at h
        rcases h with h | h
        · exact absurd h.symm hk
        · have := ih (by simpa [keys] using h)
          simp only [keys, List.map_cons] at this
          simp [set, if_neg hk, keys, this]

/-- Membership of an entry in a map with distinct keys is the same as a
successful `find`. -/
theorem find?_eq_of_mem {α : Type} {m : SMap α} {key : String} {v : α}
    (hnd : m.Nodup) (h : (key, v) ∈ m) : m.find? key = some v := by
  induction m with
  | nil => simp at h
  | cons p rest ih =>
      rcases List.mem_cons.mp h with h | h
      · simp [← h, find?]
      · have hk : p.1 ≠ key := by
          intro hh
          have hmem : key ∈ rest.map Prod.fst :=
            List.mem_map.mpr ⟨(key, v), h, rfl⟩
          simp only [Nodup, keys, List.map_cons, List.nodup_cons] at hnd
          exact hnd.1 (hh ▸ hmem)
        have hrest : Nodup rest := by
          simp only [Nodup, keys, List.map_cons, List.nodup_cons] at hnd
          exact hnd.2
        simp [find?, if_neg hk, ih hrest h]

theorem mem_of_find? {α : Type} {m : SMap α} {key : String} {v : α}
    (h : m.find? key = some v) : (key, v) ∈ m := by
  induction m with
  | nil => simp [find?] at h
  | cons p rest ih =>
      cases p with
      | mk k w =>
          by_cases hk : k = key
          · simp only [find?, if_pos hk] at h
            subst hk
            simp only [Option.some.injEq] at h
            subst h
            exact List.mem_cons_self _ _
          · simp only [find?, if_neg hk] at h
            exact List.mem_cons_of_mem _ (ih h)

end SMap

end GqlSpec

namespace GqlSpec

namespace SMap

theorem mem_set {α : Type} {m : SMap α} {j k : String} {w x : α}
    (h : (j, w) ∈ m.set k x) : (j, w) ∈ m ∨ (j = k ∧ w = x) := by
  induction m with
  | nil =>
      simp only [set, List.mem_singleton] at h
      exact Or.inr ⟨congrArg Prod.fst h, congrArg Prod.snd h⟩
  | cons p rest ih =>
      by_cases hk : p.1 = k
      · simp only [set, if_pos hk, List.mem_cons] at h
        rcases h with h | h
        · exact Or.inr ⟨(congrArg Prod.fst h).trans hk, congrArg Prod.snd h⟩
        · exact Or.inl (List.mem_cons_of_mem _ h)
      · simp only [set, if_neg hk, List.mem_cons] at h
        rcases h with h | h
        · exact Or.inl (List.mem_cons.mpr (Or.inl h))
        · rcases ih h with h | h
          · exact Or.inl (List.mem_cons_of_mem _ h)
          · exact Or.inr h

end SMap

theorem listModify_mem {α : Type} {l l' : List α} {i : Nat} {f : α → α}
    (h : listModify l i f = some l') {x : α} (hx : x ∈ l') :
    x ∈ l ∨ ∃ y ∈ l, x = f y := by
  induction l generalizing i l' with
  | nil => simp [listModify] at h
  | cons a rest ih =>
      cases i with
      | zero =>
          simp only [listModify, Option.some.injEq] at h
          subst h
          rcases List.mem_cons.mp hx with hx | hx
          · exact Or.inr ⟨a, List.mem_cons_self .., hx⟩
          · exact Or.inl (List.mem_cons_of_mem _ hx)
      | succ n =>
          simp only [listModify] at h
          cases hrec : listModify rest n f with
          | none => simp [hrec] at h
          | some rest' =>
              simp only [hrec, Option.map_some', Option.some.injEq] at h
              subst h
              rcases List.mem_cons.mp hx with hx | hx
              · exact Or.inl (by simp [hx])
              · rcases ih hrec hx with hx | ⟨y, hy, hxy⟩
                · exact Or.inl (List.mem_cons_of_mem _ hx)
                · exact Or.inr ⟨y, List.mem_cons_of_mem _ hy, hxy⟩

theorem listModify_get {α : Type} {l l' : List α} {i : Nat} {f : α → α}
    (h : listModify l i f = some l') :
    ∃ a, l.get? i = some a ∧ l'.get? i = some (f a) ∧
      ∀ j, j ≠ i → l'.get? j = l.get? j := by
  induction l generalizing i l' with
  | nil => simp [listModify] at h
  | cons a rest ih =>
      cases i with
      | zero =>
          simp only [listModify, Option.some.injEq] at h
          subst h
          refine ⟨a, rfl, rfl, ?_⟩
          intro j hj
          cases j with
          | zero => exact absurd rfl hj
          | succ m => rfl
      | succ n =>
          simp only [listModify] at h
          cases hrec : listModify rest n f with
          | none => simp [hrec] at h
          | some rest' =>
              simp only [hrec, Option.map_some', Option.some.injEq] at h
              subst h
              obtain ⟨b, hb, hb', hother⟩ := ih hrec
              refine ⟨b, hb, hb', ?_⟩
              intro j hj
              cases j with
              | zero => rfl
              | succ m => exact hother m (fun hh => hj (by simp [hh]))

namespace GraphPatternContext

theorem exposeIntoFrame_ok_cases {frame f' : SMap ExposedVariable}
    {k : String} {v : ExposedVariable}
    (h : exposeIntoFrame frame k v = .ok f') :
    (frame.find? k = none ∧ f' = frame.insert k v) ∨
    (∃ old, frame.find? k = some old ∧
      old.degree = .UnconditionalSingleton ∧
      v.degree = .UnconditionalSingleton ∧ f' = frame) := by
  unfold exposeIntoFrame at h
  cases hf : frame.find? k with
  | none =>
      simp only [hf, Except.ok.injEq] at h
      exact Or.inl ⟨rfl, h.symm⟩
  | some old =>
      simp only [hf] at h
      by_cases h1 : v.degree ≠ .UnconditionalSingleton ∨
          old.degree ≠ .UnconditionalSingleton
      · simp [if_pos h1] at h
      · push_neg at h1
        simp only [if_neg (by push_neg; exact h1 : ¬(v.degree ≠ .UnconditionalSingleton ∨ old.degree ≠ .UnconditionalSingleton))] at h
        by_cases h2 : v.isStrictInterior = true ∨ old.isStrictInterior = true
        · simp [if_pos h2] at h
        · simp only [if_neg h2, Except.ok.injEq] at h
          exact Or.inr ⟨old, rfl, h1.2, h1.1, h.symm⟩

theorem exposeIntoFrame_ok_find_ne {frame f' : SMap ExposedVariable}
    {k j : String} {v : ExposedVariable}
    (h : exposeIntoFrame frame k v = .ok f') (hj : j ≠ k) :
    f'.find? j = frame.find? j := by
  rcases exposeIntoFrame_ok_cases h with ⟨_, rfl⟩ | ⟨old, _, _, _, rfl⟩
  · exact SMap.find?_insert_ne frame v hj
  · rfl

theorem mergeEntries_ok_find_notin {frame f' : SMap ExposedVariable}
    {es : List (String × ExposedVariable)} {k : String}
    (h : mergeEntries frame es = .ok f') (hk : k ∉ es.map Prod.fst) :
    f'.find? k = frame.find? k := by
  induction es generalizing frame with
  | nil =>
      simp only [mergeEntries, Except.ok.injEq] at h
      simp [← h]
  | cons e rest ih =>
      simp only [List.map_cons, List.mem_cons] at hk
      push_neg at hk
      simp only [mergeEntries] at h
      cases hstep : exposeIntoFrame frame e.1 e.2 with
      | error err => simp [hstep] at h
      | ok frame1 =>
          simp only [hstep] at h
          rw [ih h hk.2, exposeIntoFrame_ok_find_ne hstep hk.1]

theorem mergeEntries_ok_mem {frame f' : SMap ExposedVariable}
    {es : List (String × ExposedVariable)} {k : String} {v : ExposedVariable}
    (h : mergeEntries frame es = .ok f') (hnd : (es.map Prod.fst).Nodup)
    (hmem : (k, v) ∈ es) :
    f'.find? k = some v ∨
    (∃ old, frame.find? k = some old ∧
      old.degree = .UnconditionalSingleton ∧
      v.degree = .UnconditionalSingleton ∧ f'.find? k = some old) := by
  induction es generalizing frame with
  | nil => simp at hmem
  | cons e rest ih =>
      simp only [List.map_cons, List.nodup_cons] at hnd
      simp only [mergeEntries] at h
      cases hstep : exposeIntoFrame frame e.1 e.2 with
      | error err => simp [hstep] at h
      | ok frame1 =>
          rw [hstep] at h
          rcases List.mem_cons.mp hmem with heq | hmem
          · subst heq
            have hfind := mergeEntries_ok_find_notin h hnd.1
            rcases exposeIntoFrame_ok_cases hstep with ⟨hnone, rfl⟩ |
                ⟨old, hold, holdUS, hvUS, rfl⟩
            · left
              rw [hfind]
              exact SMap.find?_insert_self k v hnone
            · exact Or.inr ⟨old, hold, holdUS, hvUS,
                by rw [hfind]; exact hold⟩
          · have hne : k ≠ e.1 := fun hh =>
              hnd.1 (hh ▸ List.mem_map.mpr ⟨(k, v), hmem, rfl⟩)
            rcases ih h hnd.2 hmem with h1 | ⟨old, hold, holdUS, hvUS, hf⟩
            · exact Or.inl h1
            · exact Or.inr ⟨old,
                by rw [← exposeIntoFrame_ok_find_ne hstep hne]; exact hold,
                holdUS, hvUS, hf⟩

theorem ExposeVariable_ok_frames {st st' : GraphPatternContext}
    {k : String} {v : ExposedVariable} {frame : SMap ExposedVariable}
    {rest : List (SMap ExposedVariable)}
    (h : st.ExposeVariable k v = .ok st')
    (hs : st.exposedVariables = frame :: rest) :
    ∃ f1, exposeIntoFrame frame k v = .ok f1 ∧
      st' = { st with exposedVariables := f1 :: rest } := by
  unfold ExposeVariable at h
  rw [hs] at h
  cases hstep : exposeIntoFrame frame k v with
  | error e => simp [hstep, Except.map] at h
  | ok f1 =>
      refine ⟨f1, rfl, ?_⟩
      simp only [hstep, Except.map, Except.ok.injEq] at h
      exact h.symm

theorem ExposeNewVariable_ok_frames {st st' : GraphPatternContext}
    {k : String} {v : ExposedVariable} {frame : SMap ExposedVariable}
    {rest : List (SMap ExposedVariable)}
    (h : st.ExposeNewVariable k v = .ok st')
    (hs : st.exposedVariables = frame :: rest) :
    ∃ f1, exposeIntoFrame frame k v = .ok f1 ∧
      st'.exposedVariables = f1 :: rest ∧
      st'.minimumPathLength = st.minimumPathLength ∧
      st'.nonZeroNodeCount = st.nonZeroNodeCount ∧
      st'.isRestrictivePathMode = st.isRestrictivePathMode ∧
      st'.currentVariableReferenceScope =
        st.currentVariableReferenceScope := by
  unfold ExposeNewVariable at h
  cases hx : st.ExposeVariable k v with
  | error e => simp [hx] at h
  | ok st1 =>
      rw [hx] at h
      obtain ⟨f1, hstep, rfl⟩ := ExposeVariable_ok_frames hx hs
      by_cases ht : v.type = .Node ∨ v.type = .Edge
      · simp only [if_pos ht] at h
        cases hc : currentVariableReferenceScope st with
        | none => simp [hc] at h
        | some i =>
            simp only [hc] at h
            cases hm : listModify (referenceScopes st) i _ with
            | none => rw [hm] at h; exact absurd h (by simp)
            | some scopes =>
                rw [hm] at h
                simp only [Except.ok.injEq] at h
                subst h
                exact ⟨f1, hstep, rfl, rfl, rfl, rfl, rfl⟩
      · simp only [if_neg ht, Except.ok.injEq] at h
        subst h
        exact ⟨f1, hstep, rfl, rfl, rfl, rfl, rfl⟩

theorem exposeNewList_ok_frames {st st' : GraphPatternContext}
    {es : List (String × ExposedVariable)} {frame : SMap ExposedVariable}
    {rest : List (SMap ExposedVariable)}
    (h : exposeNewList st es = .ok st')
    (hs : st.exposedVariables = frame :: rest) :
    ∃ f', mergeEntries frame es = .ok f' ∧
      st'.exposedVariables = f' :: rest ∧
      st'.minimumPathLength = st.minimumPathLength ∧
      st'.nonZeroNodeCount = st.nonZeroNodeCount ∧
      st'.isRestrictivePathMode = st.isRestrictivePathMode := by
  induction es generalizing st frame with
  | nil =>
      simp only [exposeNewList, Except.ok.injEq] at h
      subst h
      exact ⟨frame, rfl, hs, rfl, rfl, rfl⟩
  | cons e restE ih =>
      simp only [exposeNewList] at h
      cases hx : st.ExposeNewVariable e.1 e.2 with
      | error err => rw [hx] at h; exact absurd h (by simp)
      | ok st1 =>
          rw [hx] at h
          obtain ⟨f1, hstep, hframes, hm, hnz, hr, _⟩ :=
            ExposeNewVariable_ok_frames hx hs
          obtain ⟨f', hmerge, hXv, hm2, hnz2, hr2⟩ := ih h hframes
          exact ⟨f', by simp only [mergeEntries, hstep]; exact hmerge,
            hXv, hm2.trans hm, hnz2.trans hnz, hr2.trans hr⟩

end GraphPatternContext

end GqlSpec

namespace GqlSpec

/-- C7: entering a quantified path primary with an unbounded quantifier
(past the nested-quantifier guard) fails with E0005 exactly when no
enclosing path mode is restrictive, the primary is not inside a selective
path pattern, and different-edges-match mode is off; when at least one of
those holds, the check raises no error and entry succeeds. -/
theorem C7_unbounded_quantifier_guard (st : GraphPatternContext)
    (r : Bool) (rs : List Bool)
    (hn : st.isInsideQuantifiedPathPrimary = false)
    (hr : st.isRestrictivePathMode = r :: rs) :
    (st.EnterQuantifiedPathPrimary false = .error (.code .E0005) ↔
      r = false ∧ st.isInsideSelectivePattern = false ∧
        st.differentEdgesMatchMode = false) ∧
    ((r = true ∨ st.isInsideSelectivePattern = true ∨
        st.differentEdgesMatchMode = true) →
      ∃ st', st.EnterQuantifiedPathPrimary false = .ok st') := by
  constructor
  · simp only [GraphPatternContext.EnterQuantifiedPathPrimary, hn, hr]
    cases r <;> cases hsel : st.isInsideSelectivePattern <;>
      cases hdif : st.differentEdgesMatchMode <;> simp_all
  · intro hdisj
    simp only [GraphPatternContext.EnterQuantifiedPathPrimary, hn, hr]
    rcases hdisj with hh | hh | hh <;> simp_all

/-- Witness for C7: with different-edges-match mode configured, an
unbounded quantified path primary is entered without error. -/
theorem C7_witness :
    ∃ st', GraphPatternContext.EnterQuantifiedPathPrimary
      { differentEdgesMatchMode := true } false = .ok st' :=
  (C7_unbounded_quantifier_guard { differentEdgesMatchMode := true } false []
    rfl rfl).2 (Or.inr (Or.inr rfl))

namespace SMap

theorem find?_filter {α : Type} {m : SMap α} {p : String × α → Bool}
    {k : String} {c : α} (hnd : m.Nodup) :
    (SMap.find? (m.filter p) k = some c ↔
      SMap.find? m k = some c ∧ p (k, c) = true) := by
  induction m with
  | nil => simp [SMap.find?]
  | cons e rest ih =>
      simp only [Nodup, keys, List.map_cons, List.nodup_cons] at hnd
      have hrest : Nodup rest := hnd.2
      cases e with
      | mk k0 v0 =>
          by_cases hk : k0 = k
          · subst hk
            by_cases hp : p (k0, v0) = true
            · rw [List.filter_cons, if_pos (by simpa using hp)]
              simp only [SMap.find?, if_pos rfl]
              constructor
              · intro h
                refine ⟨h, ?_⟩
                injection h with h
                subst h
                exact hp
              · exact fun h => h.1
            · rw [List.filter_cons, if_neg (by simpa using hp)]
              constructor
              · intro h
                exfalso
                have hkeys := mem_keys_of_find? (m := rest.filter p) h
                have hsub : List.Sublist (List.filter p rest) rest :=
                  List.filter_sublist rest
                exact hnd.1 ((hsub.map Prod.fst).subset hkeys)
              · rintro ⟨h1, h2⟩
                have h1' : v0 = c := by simpa [SMap.find?] using h1
                subst h1'
                exact absurd h2 hp
          · rw [List.filter_cons]
            have hskip : SMap.find? ((k0, v0) :: rest) k = SMap.find? rest k := by
              simp [SMap.find?, if_neg hk]
            by_cases hp : p (k0, v0) = true
            · rw [if_pos (by simpa using hp)]
              rw [hskip]
              simp only [SMap.find?, if_neg hk]
              exact ih hrest
            · rw [if_neg (by simpa using hp), hskip]
              exact ih hrest

theorem find?_mapVal {α β : Type} (m : SMap α) (f : String → α → β)
    (k : String) :
    SMap.find? (m.map (fun kv => (kv.1, f kv.1 kv.2))) k =
      (SMap.find? m k).map (f k) := by
  induction m with
  | nil => simp [SMap.find?]
  | cons e rest ih =>
      by_cases hk : e.1 = k
      · subst hk
        simp [SMap.find?, ih]
      · simp [SMap.find?, if_neg hk, ih]

end SMap

/-- Looking a name up in a field list from which every field bearing an
inaccessible name was filtered out misses whenever the name is
inaccessible. -/
theorem hasFieldIn_filter_inaccessible {α : Type} {m : SMap α}
    (fields : List RecordField) {name : String}
    (h : SMap.hasKey m name = true) :
    hasFieldIn (fields.filter (fun f => !(SMap.hasKey m f.name))) name =
      none := by
  induction fields with
  | nil => rfl
  | cons f rest ih =>
      by_cases hn : f.name = name
      · rw [List.filter_cons, if_neg (by simp [hn, h])]
        exact ih
      · by_cases hkeep : SMap.hasKey m f.name = true
        · rw [List.filter_cons, if_neg (by simp [hkeep])]
          exact ih
        · rw [List.filter_cons, if_pos (by simp [hkeep])]
          unfold hasFieldIn at ih ⊢
          rw [List.find?_cons_of_neg _ (by simp [hn])]
          exact ih

end GqlSpec

namespace GqlSpec

/-- C5 counterexample: with the name "x" recorded as inaccessible
(adjacent union operand) *and* present in the working record, resolution
returns the field's type instead of failing with E0051: the code consults
the working record before the inaccessibility map, contradicting the
claim's "first fails ... whenever the name is present in the scope's
inaccessibleVariables". -/
theorem C5_counterexample :
    SMap.find? (ExecutionContext.mk [⟨"x", 7⟩] []
        [("x", .ReferenceToTheAdjacentUnionOperand)]).inaccessibleVariables
        "x" = some .ReferenceToTheAdjacentUnionOperand ∧
    ProcessBindingVariableReference
      (ExecutionContext.mk [⟨"x", 7⟩] []
        [("x", .ReferenceToTheAdjacentUnionOperand)]) "x" = .ok 7 ∧
    (Except.ok 7 : Except ErrorCode Nat) ≠
      .error (inaccessibleCode .ReferenceToTheAdjacentUnionOperand) := by
  exact ⟨rfl, rfl, fun h => Except.noConfusion h⟩

/-- C5 (amended): resolving a variable reference looks the name up in the
working record first and succeeds if present; only on a miss does a
recorded inaccessibility reason fail the reference (E0051 for an adjacent
union operand, E0052 for a non-local group-degree reference, E0053 for a
reference from a selective path pattern); with no recorded reason a miss
yields E0113 when the name exists in the working table and E0054
otherwise. -/
theorem C5_reference_resolution_order (context : ExecutionContext)
    (name : String) :
    (∀ field, hasFieldIn context.workingRecord name = some field →
      ProcessBindingVariableReference context name = .ok field.type) ∧
    (hasFieldIn context.workingRecord name = none →
      ∀ reason, SMap.find? context.inaccessibleVariables name = some reason →
        ProcessBindingVariableReference context name =
          .error (inaccessibleCode reason)) ∧
    (hasFieldIn context.workingRecord name = none →
      SMap.find? context.inaccessibleVariables name = none →
      ProcessBindingVariableReference context name =
        (if (hasFieldIn context.workingTable name).isSome then
          .error .E0113 else .error .E0054)) := by
  unfold ProcessBindingVariableReference
  refine ⟨?_, ?_, ?_⟩
  · intro field hf
    rw [hf]
  · intro hf reason hr
    rw [hf, hr]
  · intro hf hr
    rw [hf, hr]

/-- Witness for C5 (amended): a name missing from the working record with
a recorded group-degree inaccessibility reason resolves to E0052. -/
theorem C5_witness :
    ProcessBindingVariableReference
      (ExecutionContext.mk [] []
        [("y", .NonLocalReferenceWithGroupDegreeOfReference)]) "y" =
      .error (inaccessibleCode .NonLocalReferenceWithGroupDegreeOfReference) :=
  (C5_reference_resolution_order
    (ExecutionContext.mk [] []
      [("y", .NonLocalReferenceWithGroupDegreeOfReference)]) "y").2.1
    rfl _ rfl

end GqlSpec

namespace GqlSpec

theorem SMap.find?_mapConst {α β : Type} (m : SMap α) (b : β) (k : String) :
    SMap.find? (m.map (fun kv => (kv.1, b))) k =
      (SMap.find? m k).map (fun _ => b) := by
  induction m with
  | nil => simp [SMap.find?]
  | cons e rest ih =>
      by_cases hk : e.1 = k
      · subst hk
        simp [SMap.find?, ih]
      · simp [SMap.find?, if_neg hk, ih]

namespace GraphPatternContext

theorem AppendExposedVariables_ok {st st' : GraphPatternContext}
    (h : st.AppendExposedVariables = .ok st') :
    ∃ top next rest merged, st.exposedVariables = top :: next :: rest ∧
      mergeEntries next top = .ok merged ∧
      st' = { st with exposedVariables := merged :: rest } := by
  unfold AppendExposedVariables at h
  split at h
  case _ top next rest heq =>
      cases hm : mergeEntries next top with
      | error e =>
          rw [hm] at h
          exact absurd h (by simp [Except.map])
      | ok merged =>
          rw [hm] at h
          simp only [Except.map, Except.ok.injEq] at h
          exact ⟨top, next, rest, merged, heq, hm, h.symm⟩
  case _ => exact absurd h (by simp)

theorem ExitVariableScope_ok_invariants {st st' : GraphPatternContext}
    (h : st.ExitVariableScope = .ok st') :
    st'.searchConditionScopes = st.searchConditionScopes ∧
    st'.declarationsInUnions = st.declarationsInUnions ∧
    st'.variableDeclarations = st.variableDeclarations := by
  unfold ExitVariableScope at h
  split at h
  case _ frame frest i stackRest hf hs =>
      split at h
      case _ => exact absurd h (by simp)
      case _ scopes hm =>
          obtain ⟨top, next, rest, merged, _, _, rfl⟩ :=
            AppendExposedVariables_ok h
          exact ⟨rfl, rfl, rfl⟩
  case _ => exact absurd h (by simp)

end GraphPatternContext

/-- C4: after `Finalize`, a name remains in a search-condition scope's
`inaccessibleVariables` exactly when the graph pattern's total declaration
count for it does not exceed the recorded adjacent-operand count; and a
reference to a name surviving in a scope's `inaccessibleVariables`
resolves, against the execution context modelled for that scope, to error
E0051. -/
theorem C4_finalize_inaccessibility (st st' : GraphPatternContext)
    (total : SMap Int) (drest : List (SMap Int))
    (hd : st.declarationsInUnions = total :: drest)
    (h : st.Finalize = .ok st')
    (hnd : ∀ sc ∈ st.searchConditionScopes, sc.inaccessibleVariables.Nodup) :
    (∀ i sc', st'.searchConditionScopes.get? i = some sc' →
      ∃ sc, st.searchConditionScopes.get? i = some sc ∧
        ∀ name c, (SMap.find? sc'.inaccessibleVariables name = some c ↔
          SMap.find? sc.inaccessibleVariables name = some c ∧
            SMap.findD total name 0 ≤ c)) ∧
    (∀ sc : SearchConditionScope, ∀ fields name,
      (SMap.find? sc.inaccessibleVariables name).isSome = true →
      ProcessBindingVariableReference (contextForScope sc fields) name =
        .error .E0051) := by
  constructor
  · unfold GraphPatternContext.Finalize at h
    rw [hd] at h
    have hscopes := (GraphPatternContext.ExitVariableScope_ok_invariants h).1
    intro i sc' hsc'
    rw [hscopes] at hsc'
    simp only [List.get?_map] at hsc'
    cases hsc : st.searchConditionScopes.get? i with
    | none =>
        rw [hsc] at hsc'
        exact absurd hsc' (by simp)
    | some sc =>
        rw [hsc] at hsc'
        simp only [Option.map_some', Option.some.injEq] at hsc'
        refine ⟨sc, rfl, ?_⟩
        intro name c
        have hmem : sc ∈ st.searchConditionScopes := List.get?_mem hsc
        have hnds : sc.inaccessibleVariables.Nodup :=
          hnd sc hmem
        rw [← hsc']
        simp only
        rw [SMap.find?_filter hnds]
        constructor
        · rintro ⟨h1, h2⟩
          refine ⟨h1, ?_⟩
          simp only [Bool.not_eq_true', decide_eq_false_iff_not,
            Int.not_lt] at h2
          exact h2
        · rintro ⟨h1, h2⟩
          refine ⟨h1, ?_⟩
          simp only [Bool.not_eq_true', decide_eq_false_iff_not, Int.not_lt]
          exact h2
  · intro sc fields name hsome
    have hkey : SMap.hasKey sc.inaccessibleVariables name = true := by
      simpa [SMap.hasKey] using hsome
    have h1 : hasFieldIn (fields.filter
        (fun f => !(SMap.hasKey sc.inaccessibleVariables f.name))) name =
          none :=
      hasFieldIn_filter_inaccessible (m := sc.inaccessibleVariables) fields hkey
    have h2 : SMap.find? (sc.inaccessibleVariables.map
        (fun kv => (kv.1,
          InaccessibleReason.ReferenceToTheAdjacentUnionOperand))) name =
        some .ReferenceToTheAdjacentUnionOperand := by
      rw [SMap.find?_mapConst]
      cases hw : SMap.find? sc.inaccessibleVariables name with
      | none => rw [hw] at hsome; exact absurd hsome (by simp)
      | some c => simp
    unfold ProcessBindingVariableReference contextForScope
    simp only
    rw [h1, h2]
    rfl

/-- Witness for C4: a scope whose only inaccessible name "d" has adjacent
count 1 with total declaration count 1 keeps it through `Finalize`, and
the modelled reference to "d" fails with E0051. -/
theorem C4_witness :
    ProcessBindingVariableReference
      (contextForScope ⟨0, none, [("d", 1)]⟩ [⟨"d", 5⟩]) "d" =
      .error .E0051 :=
  (C4_finalize_inaccessibility
    { searchConditionScopes := [⟨0, none, [("d", 1)]⟩],
      declarationsInUnions := [[("d", 1)]],
      exposedVariables := [[], []],
      variableScopes := [{}],
      variableScopeStack := [0] } _ _ _ rfl rfl (by decide)).2
    ⟨0, none, [("d", 1)]⟩ [⟨"d", 5⟩] "d" rfl

end GqlSpec

namespace GqlSpec

theorem SMap.not_mem_keys_of_find?_eq_none {α : Type} {m : SMap α}
    {k : String} (h : SMap.find? m k = none) : k ∉ SMap.keys m := by
  induction m with
  | nil => simp [SMap.keys]
  | cons e rest ih =>
      by_cases hk : e.1 = k
      · simp [SMap.find?, hk] at h
      · simp only [SMap.find?, if_neg hk] at h
        simp only [SMap.keys, List.map_cons, List.mem_cons]
        push_neg
        exact ⟨fun hh => hk hh.symm, by simpa [SMap.keys] using ih h⟩

namespace GraphPatternContext

theorem unionOperandStep_find?_ne {firstOperand : Bool}
    {uf : SMap ExposedVariable} {kv : String × ExposedVariable} {j : String}
    (hj : j ≠ kv.1) :
    SMap.find? (unionOperandStep firstOperand uf kv) j = SMap.find? uf j := by
  unfold unionOperandStep
  cases hf : SMap.find? uf kv.1 with
  | none => exact SMap.find?_insert_ne uf _ hj
  | some ex => exact SMap.find?_set_ne uf _ hj

theorem unionFold_find?_notin {firstOperand : Bool}
    {uf : SMap ExposedVariable} {es : List (String × ExposedVariable)}
    {n : String} (h : n ∉ es.map Prod.fst) :
    SMap.find? (es.foldl (unionOperandStep firstOperand) uf) n =
      SMap.find? uf n := by
  induction es generalizing uf with
  | nil => rfl
  | cons e rest ih =>
      simp only [List.map_cons, List.mem_cons] at h
      push_neg at h
      rw [List.foldl_cons, ih h.2, unionOperandStep_find?_ne h.1]

theorem unionFold_find?_mem {firstOperand : Bool}
    {uf : SMap ExposedVariable} {es : List (String × ExposedVariable)}
    {n : String} {v : ExposedVariable}
    (hnd : (es.map Prod.fst).Nodup) (hmem : (n, v) ∈ es) :
    SMap.find? (es.foldl (unionOperandStep firstOperand) uf) n =
      (match SMap.find? uf n with
        | none => some (unionInsertDemote firstOperand v)
        | some ex =>
            some { ex with degree := unionMergeDegree v.degree ex.degree }) := by
  induction es generalizing uf with
  | nil => simp at hmem
  | cons e rest ih =>
      simp only [List.map_cons, List.nodup_cons] at hnd
      rcases List.mem_cons.mp hmem with heq | hmem
      · subst heq
        rw [List.foldl_cons, unionFold_find?_notin hnd.1]
        unfold unionOperandStep
        cases hf : SMap.find? uf n with
        | none => exact SMap.find?_insert_self n _ hf
        | some ex => exact SMap.find?_set_self uf n _
      · have hne : n ≠ e.1 := fun hh =>
          hnd.1 (hh ▸ List.mem_map.mpr ⟨(n, v), hmem, rfl⟩)
        rw [List.foldl_cons, ih hnd.2 hmem, unionOperandStep_find?_ne hne]

end GraphPatternContext

/-- C2 counterexample: a variable exposed by the union so far with degree
`EffectivelyBoundedGroup` and not exposed by the exiting operand keeps its
degree instead of being demoted to `ConditionalSingleton` as the claim
states: only unconditional singletons are demoted. -/
theorem C2_counterexample :
    (GraphPatternContext.ExitPathPatternUnionOperand
      { exposedVariables := [[], [("x", ⟨⟨.Node, {}, false, .EffectivelyBoundedGroup⟩, false⟩)], []],
        pathPatternUnion := [⟨[0], [[]]⟩],
        minimumPathLength := [0, 0, 0],
        nonZeroNodeCount := [false, true, false],
        declarationsInUnions := [[], [], []] }).map
      (fun st' => st'.exposedVariables.head?.map (fun f => SMap.find? f "x"))
      = .ok (some (some ⟨⟨.Node, {}, false, .EffectivelyBoundedGroup⟩, false⟩)) ∧
    VariableDegreeOfExposure.EffectivelyBoundedGroup ≠
      .ConditionalSingleton := by
  exact ⟨rfl, by decide⟩

/-- C2 (amended): on exit of a path pattern union operand, a variable
exposed by the union so far but not by this operand is demoted to
`ConditionalSingleton` only when its degree is `UnconditionalSingleton`
(other degrees are kept); for operands after the first, a variable newly
exposed only by this operand is likewise demoted only when it is an
unconditional singleton; a name on both sides merges to
`EffectivelyUnboundedGroup` if either side is, else to
`EffectivelyBoundedGroup` if either side is, else to
`ConditionalSingleton` if either side is, else stays unconditional; the
union's minimum path length becomes the minimum of union and operand
values and its nonZeroNodeCount the conjunction. -/
theorem C2_union_operand_exit (st : GraphPatternContext)
    {opFrame uFrame : SMap ExposedVariable}
    {rest : List (SMap ExposedVariable)}
    {u : UnionFrame} {us : List UnionFrame}
    {m m2 : Int} {ms : List Int} {b b2 : Bool} {bs : List Bool}
    {d d2 : SMap Int} {ds : List (SMap Int)}
    (hx : st.exposedVariables = opFrame :: uFrame :: rest)
    (hu : st.pathPatternUnion = u :: us)
    (hm : st.minimumPathLength = m :: m2 :: ms)
    (hb : st.nonZeroNodeCount = b :: b2 :: bs)
    (hd : st.declarationsInUnions = d :: d2 :: ds)
    (hndOp : opFrame.Nodup) :
    ∃ st', st.ExitPathPatternUnionOperand = .ok st' ∧
      st'.minimumPathLength = (min m2 m) :: ms ∧
      st'.nonZeroNodeCount = (b && b2) :: bs ∧
      ∃ merged, st'.exposedVariables = merged :: rest ∧
        (∀ n v, SMap.find? uFrame n = some v → SMap.find? opFrame n = none →
          SMap.find? merged n =
            some (if v.degree = .UnconditionalSingleton then
              { v with degree := .ConditionalSingleton } else v)) ∧
        (∀ n v, SMap.find? opFrame n = some v → SMap.find? uFrame n = none →
          SMap.find? merged n =
            some (if u.isFirstOperand = false ∧
                v.degree = .UnconditionalSingleton then
              { v with degree := .ConditionalSingleton } else v)) ∧
        (∀ n v ex, SMap.find? opFrame n = some v →
          SMap.find? uFrame n = some ex →
          SMap.find? merged n =
            some { ex with degree :=
              GraphPatternContext.unionMergeDegree v.degree ex.degree }) := by
  unfold GraphPatternContext.ExitPathPatternUnionOperand
  rw [hx, hu, hm, hb, hd]
  refine ⟨_, rfl, rfl, rfl, GraphPatternContext.unionOperandFrameMerge
    opFrame uFrame u.isFirstOperand, rfl, ?_, ?_, ?_⟩
  · intro n v hvU hvOpNone
    unfold GraphPatternContext.unionOperandFrameMerge
    rw [GraphPatternContext.unionFold_find?_notin
      (SMap.not_mem_keys_of_find?_eq_none hvOpNone)]
    rw [SMap.find?_mapVal uFrame
      (fun k v => GraphPatternContext.unionAbsentDemote opFrame k v) n]
    rw [hvU]
    simp only [Option.map_some', Option.some.injEq]
    unfold GraphPatternContext.unionAbsentDemote
    have hkey : SMap.hasKey opFrame n = false := by
      simp [SMap.hasKey, hvOpNone]
    by_cases hdeg : v.degree = .UnconditionalSingleton
    · rw [if_pos ⟨hdeg, by simp [hkey]⟩, if_pos hdeg]
    · rw [if_neg (fun hc => hdeg hc.1), if_neg hdeg]
  · intro n v hvOp hvUNone
    unfold GraphPatternContext.unionOperandFrameMerge
    rw [GraphPatternContext.unionFold_find?_mem hndOp
      (SMap.mem_of_find? hvOp)]
    rw [SMap.find?_mapVal uFrame
      (fun k v => GraphPatternContext.unionAbsentDemote opFrame k v) n]
    rw [hvUNone]
    simp only [Option.map_none']
    unfold GraphPatternContext.unionInsertDemote
    by_cases hfirst : u.isFirstOperand = false
    · by_cases hdeg : v.degree = .UnconditionalSingleton
      · rw [if_pos (by simp [hfirst, hdeg]), if_pos ⟨hfirst, hdeg⟩]
      · rw [if_neg (by simp [hdeg]), if_neg (fun hc => hdeg hc.2)]
    · have hfirst' : u.isFirstOperand = true := by
        cases hf : u.isFirstOperand
        · exact absurd hf hfirst
        · rfl
      rw [if_neg (by simp [hfirst']), if_neg (fun hc => hfirst hc.1)]
  · intro n v ex hvOp hexU
    unfold GraphPatternContext.unionOperandFrameMerge
    rw [GraphPatternContext.unionFold_find?_mem hndOp
      (SMap.mem_of_find? hvOp)]
    rw [SMap.find?_mapVal uFrame
      (fun k v => GraphPatternContext.unionAbsentDemote opFrame k v) n]
    rw [hexU]
    simp only [Option.map_some']
    unfold GraphPatternContext.unionAbsentDemote
    have hkey : SMap.hasKey opFrame n = true := by
      simp [SMap.hasKey, hvOp]
    rw [if_neg (fun hc => by simp [hkey] at hc)]

/-- Witness for C2 (amended) at a concrete state: the exit succeeds and
the merge behaves as characterized. -/
theorem C2_witness :
    ∃ st', GraphPatternContext.ExitPathPatternUnionOperand
      { exposedVariables := [[("a", ⟨⟨.Node, {}, false, .UnconditionalSingleton⟩, false⟩)], [], []],
        pathPatternUnion := [⟨[0], []⟩],
        minimumPathLength := [1, 2, 0],
        nonZeroNodeCount := [true, true, false],
        declarationsInUnions := [[("a", 1)], [], []] } = .ok st' ∧
      st'.minimumPathLength = (min 2 1) :: [0] ∧
      st'.nonZeroNodeCount = (true && true) :: [false] := by
  obtain ⟨st', h1, h2, h3, _⟩ := C2_union_operand_exit
    { exposedVariables := [[("a", ⟨⟨.Node, {}, false, .UnconditionalSingleton⟩, false⟩)], [], []],
      pathPatternUnion := [⟨[0], []⟩],
      minimumPathLength := [1, 2, 0],
      nonZeroNodeCount := [true, true, false],
      declarationsInUnions := [[("a", 1)], [], []] }
    rfl rfl rfl rfl rfl (by decide)
  exact ⟨st', h1, h2, h3⟩

end GqlSpec

namespace GqlSpec

theorem SMap.mem_keys_filter {α : Type} {m : SMap α}
    {p : String × α → Bool} {name : String} (hnd : m.Nodup) :
    name ∈ SMap.keys (m.filter p) ↔
      ∃ v, SMap.find? m name = some v ∧ p (name, v) = true := by
  constructor
  · intro h
    obtain ⟨kv, hmem, hname⟩ := List.mem_map.mp h
    obtain ⟨hmemM, hp⟩ := List.mem_filter.mp hmem
    refine ⟨kv.2, ?_, ?_⟩
    · rw [← hname]
      exact SMap.find?_eq_of_mem hnd hmemM
    · rw [← hname]
      exact hp
  · rintro ⟨v, hfind, hp⟩
    exact List.mem_map.mpr ⟨(name, v),
      List.mem_filter.mpr ⟨SMap.mem_of_find? hfind, hp⟩, rfl⟩

/-- C1: for every path pattern exit that analysis accepts, the
`joinableVariables` attached to the `PathPattern` node are exactly the
names on the pattern's frame (after the selective-pattern prologue) whose
degree is `UnconditionalSingleton`, and every variable on that frame with
degree `EffectivelyUnboundedGroup` is exposed upward to the enclosing
frame with degree `EffectivelyBoundedGroup`. -/
theorem C1_exit_path_pattern (st st' stp : GraphPatternContext)
    (aux : PathPatternAuxData)
    (h : st.ExitPathPattern = .ok (st', aux))
    (hp : st.exitPathPatternPrep = .ok stp)
    {frame : SMap ExposedVariable} {rest : List (SMap ExposedVariable)}
    (hf : stp.exposedVariables = frame :: rest)
    (hnd : frame.Nodup) :
    (∀ name, name ∈ aux.joinableVariables ↔
      ∃ v, SMap.find? frame name = some v ∧
        v.degree = .UnconditionalSingleton) ∧
    (∀ name v, SMap.find? frame name = some v →
      v.degree = .EffectivelyUnboundedGroup →
      ∃ v', (st'.exposedVariables.head?.bind
        (fun f => SMap.find? f name)) = some v' ∧
        v'.degree = .EffectivelyBoundedGroup) := by
  unfold GraphPatternContext.ExitPathPattern at h
  rw [hp] at h
  simp only at h
  rw [hf] at h
  cases rest with
  | nil => exact absurd h (by simp)
  | cons next rest' =>
      simp only at h
      cases hmerge : GraphPatternContext.mergeEntries next
          (frame.map (fun kv =>
            if kv.2.degree = .EffectivelyUnboundedGroup then
              (kv.1, { kv.2 with degree := .EffectivelyBoundedGroup })
            else kv)) with
      | error e => rw [hmerge] at h; exact absurd h (by simp)
      | ok merged =>
          rw [hmerge] at h
          cases hnz : stp.nonZeroNodeCount with
          | nil => rw [hnz] at h; exact absurd h (by simp)
          | cons nz nzs =>
              rw [hnz] at h
              dsimp only at h
              by_cases hnzval : nz = true
              · rw [if_neg (by simp [hnzval])] at h
                simp only [Except.ok.injEq, Prod.mk.injEq] at h
                obtain ⟨hst', haux⟩ := h
                constructor
                · intro name
                  rw [← haux]
                  simp only
                  rw [SMap.mem_keys_filter hnd]
                  constructor
                  · rintro ⟨v, hfind, hp2⟩
                    exact ⟨v, hfind, by simpa using hp2⟩
                  · rintro ⟨v, hfind, hp2⟩
                    exact ⟨v, hfind, by simpa using hp2⟩
                · intro name v hfind hdeg
                  have hmem : (name, v) ∈ frame := SMap.mem_of_find? hfind
                  have hmem' : (name, { v with degree :=
                      .EffectivelyBoundedGroup }) ∈ frame.map (fun kv =>
                        if kv.2.degree = .EffectivelyUnboundedGroup then
                          (kv.1, { kv.2 with degree :=
                            .EffectivelyBoundedGroup })
                        else kv) :=
                    List.mem_map.mpr ⟨(name, v), hmem, by simp [hdeg]⟩
                  have hkeys : List.map Prod.fst (frame.map (fun kv =>
                      if kv.2.degree = .EffectivelyUnboundedGroup then
                        (kv.1, { kv.2 with degree :=
                          .EffectivelyBoundedGroup })
                      else kv)) = List.map Prod.fst frame := by
                    rw [List.map_map]
                    apply List.map_congr_left
                    intro kv _
                    by_cases hc : kv.2.degree = .EffectivelyUnboundedGroup
                    · simp [hc]
                    · simp [hc]
                  have hndE : (List.map Prod.fst (frame.map (fun kv =>
                      if kv.2.degree = .EffectivelyUnboundedGroup then
                        (kv.1, { kv.2 with degree :=
                          .EffectivelyBoundedGroup })
                      else kv))).Nodup := by
                    rw [hkeys]
                    exact hnd
                  rcases GraphPatternContext.mergeEntries_ok_mem hmerge hndE
                      hmem' with hok | ⟨old, _, _, habs, _⟩
                  · refine ⟨{ v with degree := .EffectivelyBoundedGroup },
                      ?_, rfl⟩
                    rw [← hst']
                    simpa using hok
                  · exact absurd habs (by simp)
              · rw [if_pos (by simp [hnzval])] at h
                exact absurd h (by simp)

/-- Witness for C1: a pattern frame with an unconditional singleton "a"
and an effectively unbounded group "g" yields joinable = {"a"} and
re-exposes "g" upward as an effectively bounded group. -/
theorem C1_witness :
    ∃ st' aux v', GraphPatternContext.ExitPathPattern
      { exposedVariables := [[("a", ⟨⟨.Node, {}, false, .UnconditionalSingleton⟩, false⟩), ("g", ⟨⟨.Edge, {}, false, .EffectivelyUnboundedGroup⟩, false⟩)], []],
        nonZeroNodeCount := [true, false] } = .ok (st', aux) ∧
      "a" ∈ aux.joinableVariables ∧
      st'.exposedVariables.head?.bind (fun f => SMap.find? f "g") =
        some v' ∧
      v'.degree = .EffectivelyBoundedGroup := by
  obtain ⟨hA, hB⟩ := C1_exit_path_pattern
    { exposedVariables := [[("a", ⟨⟨.Node, {}, false, .UnconditionalSingleton⟩, false⟩), ("g", ⟨⟨.Edge, {}, false, .EffectivelyUnboundedGroup⟩, false⟩)], []],
      nonZeroNodeCount := [true, false] } _ _ _ rfl rfl rfl (by decide)
  obtain ⟨v', hv', hdeg⟩ := hB "g" _ rfl rfl
  exact ⟨_, _, v', rfl, (hA "a").mpr ⟨_, rfl, rfl⟩, hv', hdeg⟩

end GqlSpec

namespace GqlSpec

/-- C3: on exit of a quantified path primary with parameters (bounded,
lower): when the exit succeeds, every variable the primary exposes is
re-exposed with the degree rewrite `quantifiedDegree` — a degree other
than `EffectivelyUnboundedGroup` becomes `EffectivelyBoundedGroup` when
the quantifier is bounded or an enclosing path mode is restrictive and
`EffectivelyUnboundedGroup` otherwise — the popped minimum path length
(necessarily non-zero) times lower is added to the enclosing minimum path
length, and the enclosing nonZeroNodeCount is OR-ed with the conjunction
of the primary's nonZeroNodeCount and lower > 0; and when the re-exposure
merge succeeds but the primary's accumulated minimum path length is zero,
the exit fails with E0006. -/
theorem C3_exit_quantified_path_primary (st : GraphPatternContext)
    (bounded : Bool) (lowerBound : Int)
    {frame next : SMap ExposedVariable} {rest' : List (SMap ExposedVariable)}
    {r : Bool} {rs : List Bool}
    (hx : st.exposedVariables = frame :: next :: rest')
    (hr : st.isRestrictivePathMode = r :: rs)
    (hnd : frame.Nodup) :
    (∀ st', st.ExitQuantifiedPathPrimary bounded lowerBound = .ok st' →
      (∀ name v, SMap.find? frame name = some v →
        (st'.exposedVariables.head?.bind (fun f => SMap.find? f name)) =
          some (GraphPatternContext.quantifiedDegree bounded r v)) ∧
      (∃ m m2 ms nz nz2 nzs,
        st.minimumPathLength = m :: m2 :: ms ∧ m ≠ 0 ∧
        st'.minimumPathLength = (m2 + m * lowerBound) :: ms ∧
        st.nonZeroNodeCount = nz :: nz2 :: nzs ∧
        st'.nonZeroNodeCount =
          (nz2 || (nz && decide (0 < lowerBound))) :: nzs)) ∧
    (∀ stm, GraphPatternContext.exposeNewList
        { st with isInsideQuantifiedPathPrimary := false, exposedVariables := next :: rest' }
        (frame.map (fun kv =>
          (kv.1, GraphPatternContext.quantifiedDegree bounded r kv.2))) =
          .ok stm →
      st.minimumPathLength.head? = some 0 →
      st.ExitQuantifiedPathPrimary bounded lowerBound =
        .error (.code .E0006)) := by
  have hkeys : List.map Prod.fst (frame.map (fun kv =>
      (kv.1, GraphPatternContext.quantifiedDegree bounded r kv.2))) =
      List.map Prod.fst frame := by
    rw [List.map_map]
    rfl
  obtain ⟨dem, qpp, sel, irpm, vs, vss, ev, vd, lvdp, diu, scs, idx, elb,
    lb, prb, ppu, mpl, nzc, rsc, cvr⟩ := st
  simp only at hx hr
  subst hx
  subst hr
  constructor
  · intro st' h
    unfold GraphPatternContext.ExitQuantifiedPathPrimary at h
    dsimp only at h
    cases hlist : GraphPatternContext.exposeNewList
        ⟨dem, false, sel, r :: rs, vs, vss, next :: rest', vd, lvdp, diu,
          scs, idx, elb, lb, prb, ppu, mpl, nzc, rsc, cvr⟩
        (frame.map (fun kv =>
          (kv.1, GraphPatternContext.quantifiedDegree bounded r kv.2))) with
    | error e => rw [hlist] at h; exact absurd h (by simp)
    | ok stm =>
        rw [hlist] at h
        dsimp only at h
        obtain ⟨merged, hmerge, hstm, hmin, hnzc, _⟩ :=
          GraphPatternContext.exposeNewList_ok_frames hlist rfl
        cases hm : stm.minimumPathLength with
        | nil => rw [hm] at h; exact absurd h (by simp)
        | cons m mrest =>
            rw [hm] at h
            dsimp only at h
            by_cases hm0 : m = 0
            · rw [if_pos hm0] at h
              exact absurd h (by simp)
            · rw [if_neg hm0] at h
              cases mrest with
              | nil => exact absurd h (by simp)
              | cons m2 ms =>
                  dsimp only at h
                  cases hnzs : stm.nonZeroNodeCount with
                  | nil => rw [hnzs] at h; exact absurd h (by simp)
                  | cons nz nzrest =>
                      cases nzrest with
                      | nil => rw [hnzs] at h; exact absurd h (by simp)
                      | cons nz2 nzs =>
                          rw [hnzs] at h
                          dsimp only at h
                          simp only [Except.ok.injEq] at h
                          constructor
                          · intro name v hfind
                            have hmem' : (name,
                                GraphPatternContext.quantifiedDegree bounded
                                  r v) ∈ frame.map (fun kv => (kv.1,
                                GraphPatternContext.quantifiedDegree bounded
                                  r kv.2)) :=
                              List.mem_map.mpr
                                ⟨(name, v), SMap.mem_of_find? hfind, rfl⟩
                            have hndE : (List.map Prod.fst (frame.map
                                (fun kv => (kv.1,
                                  GraphPatternContext.quantifiedDegree
                                    bounded r kv.2)))).Nodup := by
                              rw [hkeys]
                              exact hnd
                            rcases GraphPatternContext.mergeEntries_ok_mem
                                hmerge hndE hmem' with hok |
                                ⟨old, _, _, habs, _⟩
                            · rw [← h]
                              simpa [hstm] using hok
                            · exfalso
                              unfold GraphPatternContext.quantifiedDegree
                                at habs
                              by_cases hc : v.degree =
                                  .EffectivelyUnboundedGroup
                              · rw [if_neg (by simp [hc])] at habs
                                rw [hc] at habs
                                exact absurd habs (by simp)
                              · rw [if_pos hc] at habs
                                by_cases hb : (bounded || r) = true
                                · simp [hb] at habs
                                · simp [Bool.not_eq_true] at hb
                                  simp [hb] at habs
                          · refine ⟨m, m2, ms, nz, nz2, nzs, ?_, hm0, ?_,
                              ?_, ?_⟩
                            · show mpl = m :: m2 :: ms
                              simp only at hmin
                              rw [← hmin, hm]
                            · rw [← h]
                            · show nzc = nz :: nz2 :: nzs
                              simp only at hnzc
                              rw [← hnzc, hnzs]
                            · rw [← h]
  · intro stm hlist hmin0
    simp only at hlist hmin0
    unfold GraphPatternContext.ExitQuantifiedPathPrimary
    dsimp only
    rw [hlist]
    dsimp only
    obtain ⟨merged, hmerge, hstm, hmin, hnzc, _⟩ :=
      GraphPatternContext.exposeNewList_ok_frames hlist rfl
    simp only at hmin
    cases hm : stm.minimumPathLength with
    | nil =>
        rw [← hmin] at hmin0
        rw [hm] at hmin0
        exact absurd hmin0 (by simp)
    | cons m mrest =>
        have hmz : m = 0 := by
          rw [← hmin] at hmin0
          rw [hm] at hmin0
          simpa using hmin0
        dsimp only
        rw [if_pos hmz]

/-- Witness for C3: a bounded quantifier over a frame exposing edge "b"
as an unconditional singleton re-exposes it as an effectively bounded
group, doubles the primary's minimum path length into the enclosing one,
and propagates the node count. -/
theorem C3_witness :
    ∃ st', GraphPatternContext.ExitQuantifiedPathPrimary
      { exposedVariables := [[("b", ⟨⟨.Edge, {}, false, .UnconditionalSingleton⟩, false⟩)], []],
        isRestrictivePathMode := [false],
        minimumPathLength := [1, 0],
        nonZeroNodeCount := [true, false],
        referenceScopes := [⟨[]⟩],
        currentVariableReferenceScope := some 0 } true 2 = .ok st' ∧
      (st'.exposedVariables.head?.bind (fun f => SMap.find? f "b")) =
        some (GraphPatternContext.quantifiedDegree true false
          ⟨⟨.Edge, {}, false, .UnconditionalSingleton⟩, false⟩) ∧
      st'.minimumPathLength = [0 + 1 * 2] := by
  obtain ⟨h1, _⟩ := C3_exit_quantified_path_primary
    { exposedVariables := [[("b", ⟨⟨.Edge, {}, false, .UnconditionalSingleton⟩, false⟩)], []],
      isRestrictivePathMode := [false],
      minimumPathLength := [1, 0],
      nonZeroNodeCount := [true, false],
      referenceScopes := [⟨[]⟩],
      currentVariableReferenceScope := some 0 } true 2 rfl rfl (by decide)
  obtain ⟨hfind, m, m2, ms, nz, nz2, nzs, hs1, hne, hs2, hs3, hs4⟩ :=
    h1 _ rfl
  refine ⟨_, rfl, hfind "b" _ rfl, ?_⟩
  rw [hs2]
  injection hs1 with e1 e2
  injection e2 with e2 e3
  subst e1
  subst e2
  subst e3
  rfl

end GqlSpec

namespace GqlSpec

namespace GraphPatternContext

theorem ExposeVariable_ok_scopes {st st' : GraphPatternContext}
    {k : String} {v : ExposedVariable} (h : st.ExposeVariable k v = .ok st') :
    st'.referenceScopes = st.referenceScopes ∧
    st'.currentVariableReferenceScope = st.currentVariableReferenceScope := by
  unfold ExposeVariable at h
  cases hf : st.exposedVariables with
  | nil => rw [hf] at h; exact absurd h (by simp)
  | cons frame rest =>
      rw [hf] at h
      dsimp only at h
      cases hstep : exposeIntoFrame frame k v with
      | error e => rw [hstep] at h; exact absurd h (by simp [Except.map])
      | ok f1 =>
          rw [hstep] at h
          simp only [Except.map, Except.ok.injEq] at h
          rw [← h]
          exact ⟨rfl, rfl⟩

theorem ExposeNewVariable_scopes {st st' : GraphPatternContext}
    {name : String} {v : ExposedVariable}
    (h : st.ExposeNewVariable name v = .ok st') :
    (∀ sc' ∈ st'.referenceScopes, ∀ e ∈ sc'.declaredVariables,
      (∃ sc ∈ st.referenceScopes, e ∈ sc.declaredVariables) ∨
      (e.1 = name ∧ e.2 = AuxVariable.mk v.type v.degree false ∧
        (v.type = .Node ∨ v.type = .Edge))) ∧
    ((v.type = .Path ∨ v.type = .Subpath) →
      st'.referenceScopes = st.referenceScopes) ∧
    (∀ i, st.currentVariableReferenceScope = some i →
      (v.type = .Node ∨ v.type = .Edge) →
      ∃ sc', st'.referenceScopes.get? i = some sc' ∧
        SMap.find? sc'.declaredVariables name =
          some (AuxVariable.mk v.type v.degree false)) := by
  unfold ExposeNewVariable at h
  cases hx : st.ExposeVariable name v with
  | error e => rw [hx] at h; exact absurd h (by simp)
  | ok st1 =>
      rw [hx] at h
      dsimp only at h
      obtain ⟨hrs1, hc1⟩ := ExposeVariable_ok_scopes hx
      by_cases ht : v.type = .Node ∨ v.type = .Edge
      · rw [if_pos ht] at h
        cases hc : st1.currentVariableReferenceScope with
        | none => rw [hc] at h; exact absurd h (by simp)
        | some i =>
            rw [hc] at h
            dsimp only at h
            cases hm : listModify st1.referenceScopes i (fun sc =>
                { sc with declaredVariables := sc.declaredVariables.set name (AuxVariable.mk v.type v.degree false) }) with
            | none => rw [hm] at h; exact absurd h (by simp)
            | some scopes =>
                rw [hm] at h
                simp only [Except.ok.injEq] at h
                have hscopes' : st'.referenceScopes = scopes := by
                  rw [← h]
                refine ⟨?_, ?_, ?_⟩
                · intro sc' hsc' e he
                  rw [hscopes'] at hsc'
                  rcases listModify_mem hm hsc' with hold | ⟨sc, hsc, hwr⟩
                  · exact Or.inl ⟨sc', hrs1 ▸ hold, he⟩
                  · subst hwr
                    simp only at he
                    rcases SMap.mem_set he with hold2 | ⟨he1, he2⟩
                    · exact Or.inl ⟨sc, hrs1 ▸ hsc, hold2⟩
                    · exact Or.inr ⟨he1, he2, ht⟩
                · intro hpath
                  rcases ht with ht | ht <;> rcases hpath with hp | hp <;>
                    simp [ht] at hp
                · intro j hcj _
                  have hij : i = j := by
                    rw [← hc1, hc] at hcj
                    injection hcj with hcj
                  subst hij
                  obtain ⟨a, _, hget', _⟩ := listModify_get hm
                  refine ⟨_, by rw [hscopes']; exact hget', ?_⟩
                  simp only
                  exact SMap.find?_set_self _ name _
      · rw [if_neg ht] at h
        simp only [Except.ok.injEq] at h
        have hrs : st'.referenceScopes = st.referenceScopes := by
          rw [← h]
          exact hrs1
        refine ⟨?_, fun _ => hrs, ?_⟩
        · intro sc' hsc' e he
          exact Or.inl ⟨sc', hrs ▸ hsc', he⟩
        · intro i _ hne
          exact absurd hne ht

theorem variablesFold_none {top : SMap ExposedVariable}
    (entries : List (String × VariableDeclaration)) :
    entries.foldl (variablesFold top) none = none := by
  induction entries with
  | nil => rfl
  | cons e rest ih => simpa [variablesFold] using ih

theorem variablesFold_step_some {top : SMap ExposedVariable}
    {m : SMap Variable} {kv : String × VariableDeclaration}
    {vd : ExposedVariable} (hf : SMap.find? top kv.1 = some vd) :
    variablesFold top (some m) kv =
      some (SMap.set m kv.1 (variablesJoin kv.2 vd)) := by
  unfold variablesFold
  rw [hf]

theorem variablesFold_step_none {top : SMap ExposedVariable}
    {m : SMap Variable} {kv : String × VariableDeclaration}
    (hf : SMap.find? top kv.1 = none) :
    variablesFold top (some m) kv = none := by
  unfold variablesFold
  rw [hf]

theorem variablesFold_find?_notin {top : SMap ExposedVariable}
    {entries : List (String × VariableDeclaration)}
    {macc m : SMap Variable} {k : String}
    (h : entries.foldl (variablesFold top) (some macc) = some m)
    (hk : k ∉ entries.map Prod.fst) :
    SMap.find? m k = SMap.find? macc k := by
  induction entries generalizing macc with
  | nil =>
      simp only [List.foldl_nil, Option.some.injEq] at h
      rw [h]
  | cons e rest ih =>
      simp only [List.map_cons, List.mem_cons] at hk
      push_neg at hk
      rw [List.foldl_cons] at h
      cases hf : SMap.find? top e.1 with
      | none =>
          rw [variablesFold_step_none hf, variablesFold_none rest] at h
          exact absurd h (by simp)
      | some varDef =>
          rw [variablesFold_step_some hf] at h
          rw [ih h hk.2, SMap.find?_set_ne _ _ (fun hh => hk.1 hh)]

theorem variablesFold_find?_mem {top : SMap ExposedVariable}
    {entries : List (String × VariableDeclaration)}
    {macc m : SMap Variable} {k : String} {decl : VariableDeclaration}
    {ev : ExposedVariable}
    (h : entries.foldl (variablesFold top) (some macc) = some m)
    (hnd : (entries.map Prod.fst).Nodup)
    (hmem : (k, decl) ∈ entries)
    (hev : SMap.find? top k = some ev) :
    SMap.find? m k = some (variablesJoin decl ev) := by
  induction entries generalizing macc with
  | nil => simp at hmem
  | cons e rest ih =>
      simp only [List.map_cons, List.nodup_cons] at hnd
      rw [List.foldl_cons] at h
      rcases List.mem_cons.mp hmem with heq | hmem
      · subst heq
        rw [variablesFold_step_some hev] at h
        rw [variablesFold_find?_notin h hnd.1, SMap.find?_set_self]
      · have hne : k ≠ e.1 := fun hh =>
          hnd.1 (hh ▸ List.mem_map.mpr ⟨(k, decl), hmem, rfl⟩)
        cases hf : SMap.find? top e.1 with
        | none =>
            rw [variablesFold_step_none hf, variablesFold_none rest] at h
            exact absurd h (by simp)
        | some varDef =>
            rw [variablesFold_step_some hf] at h
            exact ih h hnd.2 hmem

end GraphPatternContext

end GqlSpec

namespace GqlSpec

/-- C10: every entry `ExposeNewVariable` writes into a
`PathVariableReferenceScopeAuxData.declaredVariables` map carries
`isTemp = false`, even when the exposed variable itself has
`isTemp = true`; the temporary flag survives only in the map returned by
`GraphPatternContext::variables()`, whose entry for a declared and exposed
variable joins the declaration record with the exposure and keeps the
exposure's `isTemp` bit. -/
theorem C10_declared_variables_temp_flag
    (st st' : GraphPatternContext) (name : String) (v : ExposedVariable)
    (h : st.ExposeNewVariable name v = .ok st')
    (hclean : ∀ sc ∈ st.referenceScopes, ∀ e ∈ sc.declaredVariables,
      e.2.isTemp = false) :
    (∀ sc' ∈ st'.referenceScopes, ∀ e ∈ sc'.declaredVariables,
      e.2.isTemp = false) ∧
    (∀ top rest m k decl ev,
      st'.exposedVariables = top :: rest →
      st'.variableDeclarations.Nodup →
      (k, decl) ∈ st'.variableDeclarations →
      SMap.find? top k = some ev →
      st'.variablesMap = some m →
      SMap.find? m k = some (GraphPatternContext.variablesJoin decl ev) ∧
        (GraphPatternContext.variablesJoin decl ev).isTemp = ev.isTemp) := by
  constructor
  · intro sc' hsc' e he
    rcases (GraphPatternContext.ExposeNewVariable_scopes h).1 sc' hsc' e he with
      ⟨sc, hsc, hmem⟩ | ⟨_, he2, _⟩
    · exact hclean sc hsc e hmem
    · rw [he2]
  · intro top rest m k decl ev hexp hnd hmem hev hmap
    unfold GraphPatternContext.variablesMap at hmap
    rw [hexp] at hmap
    dsimp only at hmap
    refine ⟨?_, rfl⟩
    rw [GraphPatternContext.variablesFold_find?_mem hmap hnd hmem hev]

/-- Witness for C10: exposing a generated temporary node variable records
it in the reference scope with `isTemp = false`. -/
theorem C10_witness :
    ∃ st', GraphPatternContext.ExposeNewVariable
        (GraphPatternContext.pushReferenceScope
          (GraphPatternContext.init true)).1
        "t" { type := .Node, isTemp := true } = .ok st' ∧
      (∀ sc' ∈ st'.referenceScopes, ∀ e ∈ sc'.declaredVariables,
        e.2.isTemp = false) := by
  refine ⟨_, rfl, ?_⟩
  exact (C10_declared_variables_temp_flag
    (GraphPatternContext.pushReferenceScope (GraphPatternContext.init true)).1
    _ "t" { type := .Node, isTemp := true } rfl (by decide)).1

end GqlSpec

namespace GqlSpec

/-- C6 counterexample: re-declaring the same node variable under a second
reference scope records it in that scope's `declaredVariables` as well, so
the variable ends up in the maps of two distinct auxiliary records — not
exactly one as the claim states. -/
theorem C6_counterexample :
    (((GraphPatternContext.DeclareNodeVariable
        (GraphPatternContext.pushReferenceScope
          (GraphPatternContext.init false)).1 "a" {} false).bind
      (fun st2 =>
        GraphPatternContext.DeclareNodeVariable
          (GraphPatternContext.pushReferenceScope
            (GraphPatternContext.popReferenceScope st2
              (GraphPatternContext.pushReferenceScope
                (GraphPatternContext.init false)).2)).1
          "a" {} false)).map
      (fun st' => ((st'.referenceScopes.filter
        (fun sc => sc.declaredVariables.hasKey "a")).length))
      = .ok 2) ∧ 2 ≠ 1 := by
  exact ⟨rfl, by decide⟩

/-- C6 (amended): `ExposeNewVariable` records Node and Edge variables in
the `declaredVariables` map of the current (deepest) reference scope — a
variable re-exposed under several scopes may therefore appear in several
maps; exposing a Path or Subpath variable leaves every `declaredVariables`
map untouched, and every entry of every map is of kind Node or Edge. -/
theorem C6_declared_variables_scoping
    (st st' : GraphPatternContext) (name : String) (v : ExposedVariable)
    (h : st.ExposeNewVariable name v = .ok st') :
    ((v.type = .Path ∨ v.type = .Subpath) →
      st'.referenceScopes = st.referenceScopes) ∧
    ((∀ sc ∈ st.referenceScopes, ∀ e ∈ sc.declaredVariables,
        e.2.type = .Node ∨ e.2.type = .Edge) →
      ∀ sc' ∈ st'.referenceScopes, ∀ e ∈ sc'.declaredVariables,
        e.2.type = .Node ∨ e.2.type = .Edge) ∧
    (∀ i, st.currentVariableReferenceScope = some i →
      (v.type = .Node ∨ v.type = .Edge) →
      ∃ sc', st'.referenceScopes.get? i = some sc' ∧
        SMap.find? sc'.declaredVariables name =
          some (AuxVariable.mk v.type v.degree false)) := by
  obtain ⟨hall, hpath, hcur⟩ := GraphPatternContext.ExposeNewVariable_scopes h
  refine ⟨hpath, ?_, hcur⟩
  intro hinv sc' hsc' e he
  rcases hall sc' hsc' e he with ⟨sc, hsc, hmem⟩ | ⟨_, he2, ht⟩
  · exact hinv sc hsc e hmem
  · rw [he2]
    exact ht

/-- Witness for C6: a node variable exposed under the sole reference scope
is recorded in that scope's `declaredVariables` map. -/
theorem C6_witness :
    ∃ st', GraphPatternContext.ExposeNewVariable
        (GraphPatternContext.pushReferenceScope
          (GraphPatternContext.init false)).1
        "b" { type := .Node } = .ok st' ∧
      ∃ sc', st'.referenceScopes.get? 0 = some sc' ∧
        SMap.find? sc'.declaredVariables "b" =
          some (AuxVariable.mk .Node .UnconditionalSingleton false) := by
  refine ⟨_, rfl, ?_⟩
  exact (C6_declared_variables_scoping
    (GraphPatternContext.pushReferenceScope
      (GraphPatternContext.init false)).1
    _ "b" { type := .Node } rfl).2.2 0 rfl (Or.inl rfl)

end GqlSpec

namespace GqlSpec

namespace Rewrite

theorem buildPropConjAux_eq_foldl (varName : String) :
    ∀ (ps : List PropertyKeyValue) (acc : ValueExpr),
      buildPropConjAux varName acc ps =
        ps.foldl
          (fun acc q => .binary 0 .BoolAnd acc (mkPropComparison varName q))
          acc
  | [], _ => rfl
  | _ :: rest, _ => buildPropConjAux_eq_foldl varName rest _

/-- C8: an element pattern carrying a non-empty property specification is
rewritten by R4 into a parenthesized wrapper whose `WHERE` condition is
the left-associative conjunction of `v.pᵢ = vᵢ` comparisons folded in the
order the properties were written; an existing filler variable is reused
with the counter unchanged, while a missing one is replaced by an injected
declaration named with the generated prefix at the incremented counter and
`isTemp = true`; the per-program pass starts the counter at zero, so the
first generated name is `gql_gen_prop1`. -/
theorem C8_property_predicate_lifting
    (c : Nat) (e : ElementPattern) (spos : Nat)
    (p0 : PropertyKeyValue) (ps : List PropertyKeyValue)
    (hpred : e.filler.predicate = some (.propertySpec spos (p0 :: ps))) :
    (∀ varName, buildPropConj varName (p0 :: ps) =
      some (ps.foldl
        (fun acc q => .binary 0 .BoolAnd acc (mkPropComparison varName q))
        (mkPropComparison varName p0))) ∧
    (∀ v, e.filler.var = some v →
      r4Primary c (.element e) =
        ((.parenthesized (setPosParen e.pos (wrapElement
            (e.withFiller { e.filler with predicate := none, var := some v })
            { pos := 0, condition := buildPropConj v.name (p0 :: ps) }))),
         c)) ∧
    (e.filler.var = none →
      (r4Primary c (.element e) =
        ((.parenthesized (setPosParen e.pos (wrapElement
            (e.withFiller { e.filler with predicate := none, var := some (setPosVar e.pos { name := generatedName (c + 1), isTemp := true }) })
            { pos := 0, condition :=
                buildPropConj (generatedName (c + 1)) (p0 :: ps) }))),
         c + 1)) ∧
      (setPosVar e.pos
        { name := generatedName (c + 1), isTemp := true }).isTemp = true) ∧
    (∀ prog : GQLProgramModel, RewriteElementPropertyPredicate prog =
      ⟨(r4Paths 0 prog.paths).1⟩) ∧
    generatedName (0 + 1) = "gql_gen_prop1" := by
  refine ⟨?_, ?_, ?_, fun _ => rfl, rfl⟩
  · intro varName
    simp only [buildPropConj, buildPropConjAux_eq_foldl]
  · intro v hv
    unfold r4Primary
    rw [hpred]
    dsimp only
    rw [hv]
  · intro hv
    refine ⟨?_, rfl⟩
    unfold r4Primary
    rw [hpred]
    dsimp only
    rw [hv]
    rfl

end Rewrite

/-- Witness for C8: `MATCH ({prop: atom})` with the counter at zero turns
into a parenthesized wrapper with the injected temporary
`gql_gen_prop1`. -/
theorem C8_witness :
    (Rewrite.r4Primary 0 (.element (.node 7
        { predicate := some (.propertySpec 3
            [⟨"prop", .atomExpr 1 3⟩]) })) =
      ((.parenthesized (Rewrite.setPosParen 7 (Rewrite.wrapElement
          ((Rewrite.ElementPattern.node 7 { predicate := some (.propertySpec 3 [⟨"prop", .atomExpr 1 3⟩]) }).withFiller
            { predicate := none, var := some (Rewrite.setPosVar 7 { name := Rewrite.generatedName 1, isTemp := true }) })
          { pos := 0, condition :=
              Rewrite.buildPropConj (Rewrite.generatedName 1)
                [⟨"prop", .atomExpr 1 3⟩] }))), 1)) ∧
    (Rewrite.setPosVar 7
      { name := Rewrite.generatedName 1, isTemp := true }).isTemp = true ∧
    Rewrite.generatedName (0 + 1) = "gql_gen_prop1" := by
  have h := Rewrite.C8_property_predicate_lifting 0
    (.node 7 { predicate := some (.propertySpec 3
        [⟨"prop", .atomExpr 1 3⟩]) })
    3 ⟨"prop", .atomExpr 1 3⟩ [] rfl
  exact ⟨(h.2.2.1 rfl).1, (h.2.2.1 rfl).2, h.2.2.2.2⟩

end GqlSpec


namespace GqlSpec

namespace Rewrite

theorem withFiller_filler (e : ElementPattern) (f : ElementPatternFiller) :
    (e.withFiller f).filler = f := by
  cases e <;> rfl

theorem setPosElement_predicate_none (pos : Nat) (e : ElementPattern)
    (h : e.filler.predicate = none) :
    (setPosElement pos e).filler.predicate = none := by
  cases e with
  | node q f =>
      cases f with
      | mk v l pr =>
          simp only [ElementPattern.filler] at h
          subst h
          unfold setPosElement
          split <;> simp [setPosFiller, ElementPattern.filler]
  | edge q d f =>
      cases f with
      | mk v l pr =>
          simp only [ElementPattern.filler] at h
          subst h
          unfold setPosElement
          split <;> simp [setPosFiller, ElementPattern.filler]

theorem noExistsValue_allValue (d : Bool) (p : PathPrimary → Bool) :
    ∀ v : ValueExpr, noExistsValue v = true → allValue d p v = true
  | .comparison _ _ l r, h => by
      simp only [noExistsValue, Bool.and_eq_true] at h
      simp [allValue, noExistsValue_allValue d p l h.1,
        noExistsValue_allValue d p r h.2]
  | .binary _ _ l r, h => by
      simp only [noExistsValue, Bool.and_eq_true] at h
      simp [allValue, noExistsValue_allValue d p l h.1,
        noExistsValue_allValue d p r h.2]
  | .propertyReference _ e _, h => by
      simp only [noExistsValue] at h
      simp [allValue, noExistsValue_allValue d p e h]
  | .bindingVariableReference _ _, _ => rfl
  | .atomExpr _ _, _ => rfl
  | .existsMatch _ _, h => by simp [noExistsValue] at h

theorem noExistsValue_setPosExpr (pos : Nat) :
    ∀ v : ValueExpr, noExistsValue v = true →
      noExistsValue (setPosExpr pos v) = true
  | .comparison q op l r, h => by
      simp only [noExistsValue, Bool.and_eq_true] at h
      unfold setPosExpr
      split
      · simp [noExistsValue, h.1, h.2]
      · simp [noExistsValue, noExistsValue_setPosExpr pos l h.1,
          noExistsValue_setPosExpr pos r h.2]
  | .binary q op l r, h => by
      simp only [noExistsValue, Bool.and_eq_true] at h
      unfold setPosExpr
      split
      · simp [noExistsValue, h.1, h.2]
      · simp [noExistsValue, noExistsValue_setPosExpr pos l h.1,
          noExistsValue_setPosExpr pos r h.2]
  | .propertyReference q e n, h => by
      simp only [noExistsValue] at h
      unfold setPosExpr
      split
      · simp [noExistsValue, h]
      · simp [noExistsValue, noExistsValue_setPosExpr pos e h]
  | .bindingVariableReference q n, _ => by
      unfold setPosExpr
      split <;> rfl
  | .atomExpr q i, _ => by
      unfold setPosExpr
      split <;> rfl
  | .existsMatch q paths, h => by simp [noExistsValue] at h

theorem allParen_wrapper (p : PathPrimary → Bool) (pos : Nat)
    (e : ElementPattern) (w : WhereClause)
    (hpred : e.filler.predicate = none)
    (hw : ∀ c, w.condition = some c → noExistsValue c = true)
    (hp : ∀ e2 : ElementPattern, e2.filler.predicate = none →
      p (.element e2) = true) :
    allParen false p (setPosParen pos (wrapElement e w)) = true := by
  have hwhere : allWhere false p (setPosWhere pos w) = true := by
    cases w with
    | mk q cond =>
        cases cond with
        | none =>
            unfold setPosWhere
            split <;> rfl
        | some c =>
            have hc := hw c rfl
            unfold setPosWhere
            split
            · simp [allWhere, noExistsValue_allValue false p c hc]
            · simp [allWhere,
                noExistsValue_allValue false p _
                  (noExistsValue_setPosExpr pos c hc)]
  simp [wrapElement, setPosParen, setPosExprP, setPosTerms, setPosTerm,
    setPosFactors, setPosFactor, setPosPrimary, setPosWhereOpt, allParen,
    allExprP, allTerms, allTerm, allFactors, allFactor, allPrimary,
    allWhereOpt, hwhere, hp _ (setPosElement_predicate_none pos e hpred)]

end Rewrite

end GqlSpec

namespace GqlSpec

namespace Rewrite

mutual

theorem r3Primary_clean : ∀ pr : PathPrimary,
    allPrimary false noExistsUnderElem pr = true →
    allPrimary false noWherePredicate (r3Primary pr) = true
  | .element e, h => by
      simp only [allPrimary, if_neg, Bool.false_eq_true, ite_false,
        Bool.and_true] at h
      unfold r3Primary
      cases hp : e.filler.predicate with
      | none => simp [allPrimary, noWherePredicate, hp]
      | some pred =>
          cases pred with
          | whereClause wpos cond =>
              simp only [noExistsUnderElem, hp] at h
              dsimp only
              simp only [allPrimary, Bool.and_eq_true]
              refine ⟨rfl, allParen_wrapper _ _ _ _ ?_ ?_ ?_⟩
              · simp [withFiller_filler]
              · intro c hc
                simp only [Option.some.injEq] at hc
                subst hc
                exact h
              · intro e2 h2
                simp [noWherePredicate, h2]
          | propertySpec spos props =>
              simp [allPrimary, noWherePredicate, hp]
  | .parenthesized pp, h => by
      simp only [allPrimary, Bool.and_eq_true] at h
      simp [r3Primary, allPrimary, noWherePredicate, r3Paren_clean pp h.2]
  | .simplified q d c, _ => by
      simp [r3Primary, allPrimary, noWherePredicate]
  | .bareDash, _ => by simp [r3Primary, allPrimary, noWherePredicate]

theorem r3Paren_clean : ∀ pp : ParenthesizedPPE,
    allParen false noExistsUnderElem pp = true →
    allParen false noWherePredicate (r3Paren pp) = true
  | .mk q sv mode pat wc, h => by
      simp only [allParen, Bool.and_eq_true] at h
      simp [r3Paren, allParen, r3ExprP_clean pat h.1, r3WhereOpt_clean wc h.2]

theorem r3WhereOpt_clean : ∀ wc : Option (WhereClauseF ValueExpr),
    allWhereOpt false noExistsUnderElem wc = true →
    allWhereOpt false noWherePredicate (r3WhereOpt wc) = true
  | none, _ => rfl
  | some w, h => by
      simp only [allWhereOpt] at h
      simp [r3WhereOpt, allWhereOpt, r3Where_clean w h]

theorem r3Where_clean : ∀ w : WhereClauseF ValueExpr,
    allWhere false noExistsUnderElem w = true →
    allWhere false noWherePredicate (r3Where w) = true
  | .mk q none, _ => rfl
  | .mk q (some c), h => by
      simp only [allWhere] at h
      simp [r3Where, allWhere, r3Value_clean c h]

theorem r3Value_clean : ∀ v : ValueExpr,
    allValue false noExistsUnderElem v = true →
    allValue false noWherePredicate (r3Value v) = true
  | .comparison _ _ l r, h => by
      simp only [allValue, Bool.and_eq_true] at h
      simp [r3Value, allValue, r3Value_clean l h.1, r3Value_clean r h.2]
  | .binary _ _ l r, h => by
      simp only [allValue, Bool.and_eq_true] at h
      simp [r3Value, allValue, r3Value_clean l h.1, r3Value_clean r h.2]
  | .propertyReference _ e _, h => by
      simp only [allValue] at h
      simp [r3Value, allValue, r3Value_clean e h]
  | .bindingVariableReference _ _, _ => rfl
  | .atomExpr _ _, _ => rfl
  | .existsMatch _ paths, h => by
      simp only [allValue] at h
      simp [r3Value, allValue, r3Paths_clean paths h]

theorem r3Paths_clean : ∀ l : List PathPatternExpr,
    allPathsL false noExistsUnderElem l = true →
    allPathsL false noWherePredicate (r3Paths l) = true
  | [], _ => rfl
  | x :: rest, h => by
      simp only [allPathsL, Bool.and_eq_true] at h
      simp [r3Paths, allPathsL, r3ExprP_clean x h.1, r3Paths_clean rest h.2]

theorem r3ExprP_clean : ∀ x : PathPatternExpr,
    allExprP false noExistsUnderElem x = true →
    allExprP false noWherePredicate (r3ExprP x) = true
  | .mk op ts, h => by
      simp only [allExprP] at h
      simp [r3ExprP, allExprP, r3Terms_clean ts h]

theorem r3Terms_clean : ∀ ts : List PathTerm,
    allTerms false noExistsUnderElem ts = true →
    allTerms false noWherePredicate (r3Terms ts) = true
  | [], _ => rfl
  | t :: rest, h => by
      simp only [allTerms, Bool.and_eq_true] at h
      simp [r3Terms, allTerms, r3Term_clean t h.1, r3Terms_clean rest h.2]

theorem r3Term_clean : ∀ t : PathTerm,
    allTerm false noExistsUnderElem t = true →
    allTerm false noWherePredicate (r3Term t) = true
  | .mk fs, h => by
      simp only [allTerm] at h
      simp [r3Term, allTerm, r3Factors_clean fs h]

theorem r3Factors_clean : ∀ fs : List PathFactor,
    allFactors false noExistsUnderElem fs = true →
    allFactors false noWherePredicate (r3Factors fs) = true
  | [], _ => rfl
  | f :: rest, h => by
      simp only [allFactors, Bool.and_eq_true] at h
      simp [r3Factors, allFactors, r3Factor_clean f h.1,
        r3Factors_clean rest h.2]

theorem r3Factor_clean : ∀ f : PathFactor,
    allFactor false noExistsUnderElem f = true →
    allFactor false noWherePredicate (r3Factor f) = true
  | .mk q pr, h => by
      simp only [allFactor] at h
      simp [r3Factor, allFactor, r3Primary_clean pr h]

end

end Rewrite

end GqlSpec

namespace GqlSpec

namespace Rewrite

mutual

theorem r3Primary_id : ∀ pr : PathPrimary,
    allPrimary false noWherePredicate pr = true → r3Primary pr = pr
  | .element e, h => by
      unfold r3Primary
      cases hp : e.filler.predicate with
      | none => simp
      | some pred =>
          cases pred with
          | whereClause wpos cond =>
              exfalso
              simp [allPrimary, noWherePredicate, hp] at h
          | propertySpec spos props => simp
  | .parenthesized pp, h => by
      simp only [allPrimary, Bool.and_eq_true] at h
      simp [r3Primary, r3Paren_id pp h.2]
  | .simplified q d c, _ => rfl
  | .bareDash, _ => rfl

theorem r3Paren_id : ∀ pp : ParenthesizedPPE,
    allParen false noWherePredicate pp = true → r3Paren pp = pp
  | .mk q sv mode pat wc, h => by
      simp only [allParen, Bool.and_eq_true] at h
      simp [r3Paren, r3ExprP_id pat h.1, r3WhereOpt_id wc h.2]

theorem r3WhereOpt_id : ∀ wc : Option (WhereClauseF ValueExpr),
    allWhereOpt false noWherePredicate wc = true → r3WhereOpt wc = wc
  | none, _ => rfl
  | some w, h => by
      simp only [allWhereOpt] at h
      simp [r3WhereOpt, r3Where_id w h]

theorem r3Where_id : ∀ w : WhereClauseF ValueExpr,
    allWhere false noWherePredicate w = true → r3Where w = w
  | .mk q none, _ => rfl
  | .mk q (some c), h => by
      simp only [allWhere] at h
      simp [r3Where, r3Value_id c h]

theorem r3Value_id : ∀ v : ValueExpr,
    allValue false noWherePredicate v = true → r3Value v = v
  | .comparison _ _ l r, h => by
      simp only [allValue, Bool.and_eq_true] at h
      simp [r3Value, r3Value_id l h.1, r3Value_id r h.2]
  | .binary _ _ l r, h => by
      simp only [allValue, Bool.and_eq_true] at h
      simp [r3Value, r3Value_id l h.1, r3Value_id r h.2]
  | .propertyReference _ e _, h => by
      simp only [allValue] at h
      simp [r3Value, r3Value_id e h]
  | .bindingVariableReference _ _, _ => rfl
  | .atomExpr _ _, _ => rfl
  | .existsMatch _ paths, h => by
      simp only [allValue] at h
      simp [r3Value, r3Paths_id paths h]

theorem r3Paths_id : ∀ l : List PathPatternExpr,
    allPathsL false noWherePredicate l = true → r3Paths l = l
  | [], _ => rfl
  | x :: rest, h => by
      simp only [allPathsL, Bool.and_eq_true] at h
      simp [r3Paths, r3ExprP_id x h.1, r3Paths_id rest h.2]

theorem r3ExprP_id : ∀ x : PathPatternExpr,
    allExprP false noWherePredicate x = true → r3ExprP x = x
  | .mk op ts, h => by
      simp only [allExprP] at h
      simp [r3ExprP, r3Terms_id ts h]

theorem r3Terms_id : ∀ ts : List PathTerm,
    allTerms false noWherePredicate ts = true → r3Terms ts = ts
  | [], _ => rfl
  | t :: rest, h => by
      simp only [allTerms, Bool.and_eq_true] at h
      simp [r3Terms, r3Term_id t h.1, r3Terms_id rest h.2]

theorem r3Term_id : ∀ t : PathTerm,
    allTerm false noWherePredicate t = true → r3Term t = t
  | .mk fs, h => by
      simp only [allTerm] at h
      simp [r3Term, r3Factors_id fs h]

theorem r3Factors_id : ∀ fs : List PathFactor,
    allFactors false noWherePredicate fs = true → r3Factors fs = fs
  | [], _ => rfl
  | f :: rest, h => by
      simp only [allFactors, Bool.and_eq_true] at h
      simp [r3Factors, r3Factor_id f h.1, r3Factors_id rest h.2]

theorem r3Factor_id : ∀ f : PathFactor,
    allFactor false noWherePredicate f = true → r3Factor f = f
  | .mk q pr, h => by
      simp only [allFactor] at h
      simp [r3Factor, r3Primary_id pr h]

end

theorem r3Paths_idem (l : List PathPatternExpr)
    (h : allPathsL false noExistsUnderElem l = true) :
    r3Paths (r3Paths l) = r3Paths l :=
  r3Paths_id (r3Paths l) (r3Paths_clean l h)

end Rewrite

end GqlSpec

namespace GqlSpec

namespace Rewrite

theorem noExistsValue_mkPropComparison (varName : String)
    (kv : PropertyKeyValueF ValueExpr) (h : noExistsValue kv.value = true) :
    noExistsValue (mkPropComparison varName kv) = true := by
  simp [mkPropComparison, noExistsValue, h]

theorem noExistsValue_buildPropConjAux (varName : String) :
    ∀ (ps : List (PropertyKeyValueF ValueExpr)) (acc : ValueExpr),
      noExistsProps ps = true → noExistsValue acc = true →
      noExistsValue (buildPropConjAux varName acc ps) = true
  | [], _, _, hacc => hacc
  | .mk n v :: rest, acc, hps, hacc => by
      simp only [noExistsProps, Bool.and_eq_true] at hps
      exact noExistsValue_buildPropConjAux varName rest _ hps.2
        (by simp [buildPropConjAux, noExistsValue, hacc, hps.1,
          noExistsValue_mkPropComparison varName ⟨n, v⟩ hps.1])

theorem noExistsValue_buildPropConj (varName : String)
    (props : List (PropertyKeyValueF ValueExpr)) (c : ValueExpr)
    (hps : noExistsProps props = true)
    (h : buildPropConj varName props = some c) :
    noExistsValue c = true := by
  cases props with
  | nil => simp [buildPropConj] at h
  | cons p rest =>
      obtain ⟨n, v⟩ := p
      simp only [buildPropConj, Option.some.injEq] at h
      subst h
      simp only [noExistsProps, Bool.and_eq_true] at hps
      exact noExistsValue_buildPropConjAux varName rest _ hps.2
        (noExistsValue_mkPropComparison varName ⟨n, v⟩ hps.1)

mutual

theorem r4Primary_clean : ∀ (c : Nat) (pr : PathPrimary),
    allPrimary false noExistsUnderElem pr = true →
    allPrimary false noPropSpec (r4Primary c pr).1 = true
  | c, .element e, h => by
      simp only [allPrimary, if_neg, Bool.false_eq_true, ite_false,
        Bool.and_true] at h
      unfold r4Primary
      cases hp : e.filler.predicate with
      | none => simp [allPrimary, noPropSpec, hp]
      | some pred =>
          cases pred with
          | propertySpec spos props =>
              simp only [noExistsUnderElem, hp] at h
              dsimp only
              simp only [allPrimary, Bool.and_eq_true]
              refine ⟨rfl, allParen_wrapper _ _ _ _ ?_ ?_ ?_⟩
              · simp [withFiller_filler]
              · intro c' hc'
                exact noExistsValue_buildPropConj _ props c' h hc'
              · intro e2 h2
                simp [noPropSpec, h2]
          | whereClause wpos cond =>
              simp [allPrimary, noPropSpec, hp]
  | c, .parenthesized pp, h => by
      simp only [allPrimary, Bool.and_eq_true] at h
      simp [r4Primary, allPrimary, noPropSpec, r4Paren_clean c pp h.2]
  | c, .simplified q d cs, _ => by
      simp [r4Primary, allPrimary, noPropSpec]
  | c, .bareDash, _ => by simp [r4Primary, allPrimary, noPropSpec]

theorem r4Paren_clean : ∀ (c : Nat) (pp : ParenthesizedPPE),
    allParen false noExistsUnderElem pp = true →
    allParen false noPropSpec (r4Paren c pp).1 = true
  | c, .mk q sv mode pat wc, h => by
      simp only [allParen, Bool.and_eq_true] at h
      simp [r4Paren, allParen, r4ExprP_clean c pat h.1,
        r4WhereOpt_clean (r4ExprP c pat).2 wc h.2]

theorem r4WhereOpt_clean : ∀ (c : Nat) (wc : Option (WhereClauseF ValueExpr)),
    allWhereOpt false noExistsUnderElem wc = true →
    allWhereOpt false noPropSpec (r4WhereOpt c wc).1 = true
  | _, none, _ => rfl
  | c, some w, h => by
      simp only [allWhereOpt] at h
      simp [r4WhereOpt, allWhereOpt, r4Where_clean c w h]

theorem r4Where_clean : ∀ (c : Nat) (w : WhereClauseF ValueExpr),
    allWhere false noExistsUnderElem w = true →
    allWhere false noPropSpec (r4Where c w).1 = true
  | _, .mk q none, _ => rfl
  | c, .mk q (some v), h => by
      simp only [allWhere] at h
      simp [r4Where, allWhere, r4Value_clean c v h]

theorem r4Value_clean : ∀ (c : Nat) (v : ValueExpr),
    allValue false noExistsUnderElem v = true →
    allValue false noPropSpec (r4Value c v).1 = true
  | c, .comparison _ _ l r, h => by
      simp only [allValue, Bool.and_eq_true] at h
      simp [r4Value, allValue, r4Value_clean c l h.1,
        r4Value_clean (r4Value c l).2 r h.2]
  | c, .binary _ _ l r, h => by
      simp only [allValue, Bool.and_eq_true] at h
      simp [r4Value, allValue, r4Value_clean c l h.1,
        r4Value_clean (r4Value c l).2 r h.2]
  | c, .propertyReference _ e _, h => by
      simp only [allValue] at h
      simp [r4Value, allValue, r4Value_clean c e h]
  | _, .bindingVariableReference _ _, _ => rfl
  | _, .atomExpr _ _, _ => rfl
  | c, .existsMatch _ paths, h => by
      simp only [allValue] at h
      simp [r4Value, allValue, r4Paths_clean c paths h]

theorem r4Paths_clean : ∀ (c : Nat) (l : List PathPatternExpr),
    allPathsL false noExistsUnderElem l = true →
    allPathsL false noPropSpec (r4Paths c l).1 = true
  | _, [], _ => rfl
  | c, x :: rest, h => by
      simp only [allPathsL, Bool.and_eq_true] at h
      simp [r4Paths, allPathsL, r4ExprP_clean c x h.1,
        r4Paths_clean (r4ExprP c x).2 rest h.2]

theorem r4ExprP_clean : ∀ (c : Nat) (x : PathPatternExpr),
    allExprP false noExistsUnderElem x = true →
    allExprP false noPropSpec (r4ExprP c x).1 = true
  | c, .mk op ts, h => by
      simp only [allExprP] at h
      simp [r4ExprP, allExprP, r4Terms_clean c ts h]

theorem r4Terms_clean : ∀ (c : Nat) (ts : List PathTerm),
    allTerms false noExistsUnderElem ts = true →
    allTerms false noPropSpec (r4Terms c ts).1 = true
  | _, [], _ => rfl
  | c, t :: rest, h => by
      simp only [allTerms, Bool.and_eq_true] at h
      simp [r4Terms, allTerms, r4Term_clean c t h.1,
        r4Terms_clean (r4Term c t).2 rest h.2]

theorem r4Term_clean : ∀ (c : Nat) (t : PathTerm),
    allTerm false noExistsUnderElem t = true →
    allTerm false noPropSpec (r4Term c t).1 = true
  | c, .mk fs, h => by
      simp only [allTerm] at h
      simp [r4Term, allTerm, r4Factors_clean c fs h]

theorem r4Factors_clean : ∀ (c : Nat) (fs : List PathFactor),
    allFactors false noExistsUnderElem fs = true →
    allFactors false noPropSpec (r4Factors c fs).1 = true
  | _, [], _ => rfl
  | c, f :: rest, h => by
      simp only [allFactors, Bool.and_eq_true] at h
      simp [r4Factors, allFactors, r4Factor_clean c f h.1,
        r4Factors_clean (r4Factor c f).2 rest h.2]

theorem r4Factor_clean : ∀ (c : Nat) (f : PathFactor),
    allFactor false noExistsUnderElem f = true →
    allFactor false noPropSpec (r4Factor c f).1 = true
  | c, .mk q pr, h => by
      simp only [allFactor] at h
      simp [r4Factor, allFactor, r4Primary_clean c pr h]

end

end Rewrite

end GqlSpec

namespace GqlSpec

namespace Rewrite

mutual

theorem r4Primary_id : ∀ (c : Nat) (pr : PathPrimary),
    allPrimary false noPropSpec pr = true → r4Primary c pr = (pr, c)
  | c, .element e, h => by
      unfold r4Primary
      cases hp : e.filler.predicate with
      | none => simp
      | some pred =>
          cases pred with
          | propertySpec spos props =>
              exfalso
              simp [allPrimary, noPropSpec, hp] at h
          | whereClause wpos cond => simp
  | c, .parenthesized pp, h => by
      simp only [allPrimary, Bool.and_eq_true] at h
      simp [r4Primary, r4Paren_id c pp h.2]
  | c, .simplified q d cs, _ => rfl
  | c, .bareDash, _ => rfl

theorem r4Paren_id : ∀ (c : Nat) (pp : ParenthesizedPPE),
    allParen false noPropSpec pp = true → r4Paren c pp = (pp, c)
  | c, .mk q sv mode pat wc, h => by
      simp only [allParen, Bool.and_eq_true] at h
      simp [r4Paren, r4ExprP_id c pat h.1, r4WhereOpt_id c wc h.2]

theorem r4WhereOpt_id : ∀ (c : Nat) (wc : Option (WhereClauseF ValueExpr)),
    allWhereOpt false noPropSpec wc = true → r4WhereOpt c wc = (wc, c)
  | _, none, _ => rfl
  | c, some w, h => by
      simp only [allWhereOpt] at h
      simp [r4WhereOpt, r4Where_id c w h]

theorem r4Where_id : ∀ (c : Nat) (w : WhereClauseF ValueExpr),
    allWhere false noPropSpec w = true → r4Where c w = (w, c)
  | _, .mk q none, _ => rfl
  | c, .mk q (some v), h => by
      simp only [allWhere] at h
      simp [r4Where, r4Value_id c v h]

theorem r4Value_id : ∀ (c : Nat) (v : ValueExpr),
    allValue false noPropSpec v = true → r4Value c v = (v, c)
  | c, .comparison _ _ l r, h => by
      simp only [allValue, Bool.and_eq_true] at h
      simp [r4Value, r4Value_id c l h.1, r4Value_id c r h.2]
  | c, .binary _ _ l r, h => by
      simp only [allValue, Bool.and_eq_true] at h
      simp [r4Value, r4Value_id c l h.1, r4Value_id c r h.2]
  | c, .propertyReference _ e _, h => by
      simp only [allValue] at h
      simp [r4Value, r4Value_id c e h]
  | _, .bindingVariableReference _ _, _ => rfl
  | _, .atomExpr _ _, _ => rfl
  | c, .existsMatch _ paths, h => by
      simp only [allValue] at h
      simp [r4Value, r4Paths_id c paths h]

theorem r4Paths_id : ∀ (c : Nat) (l : List PathPatternExpr),
    allPathsL false noPropSpec l = true → r4Paths c l = (l, c)
  | _, [], _ => rfl
  | c, x :: rest, h => by
      simp only [allPathsL, Bool.and_eq_true] at h
      simp [r4Paths, r4ExprP_id c x h.1, r4Paths_id c rest h.2]

theorem r4ExprP_id : ∀ (c : Nat) (x : PathPatternExpr),
    allExprP false noPropSpec x = true → r4ExprP c x = (x, c)
  | c, .mk op ts, h => by
      simp only [allExprP] at h
      simp [r4ExprP, r4Terms_id c ts h]

theorem r4Terms_id : ∀ (c : Nat) (ts : List PathTerm),
    allTerms false noPropSpec ts = true → r4Terms c ts = (ts, c)
  | _, [], _ => rfl
  | c, t :: rest, h => by
      simp only [allTerms, Bool.and_eq_true] at h
      simp [r4Terms, r4Term_id c t h.1, r4Terms_id c rest h.2]

theorem r4Term_id : ∀ (c : Nat) (t : PathTerm),
    allTerm false noPropSpec t = true → r4Term c t = (t, c)
  | c, .mk fs, h => by
      simp only [allTerm] at h
      simp [r4Term, r4Factors_id c fs h]

theorem r4Factors_id : ∀ (c : Nat) (fs : List PathFactor),
    allFactors false noPropSpec fs = true → r4Factors c fs = (fs, c)
  | _, [], _ => rfl
  | c, f :: rest, h => by
      simp only [allFactors, Bool.and_eq_true] at h
      simp [r4Factors, r4Factor_id c f h.1, r4Factors_id c rest h.2]

theorem r4Factor_id : ∀ (c : Nat) (f : PathFactor),
    allFactor false noPropSpec f = true → r4Factor c f = (f, c)
  | c, .mk q pr, h => by
      simp only [allFactor] at h
      simp [r4Factor, r4Primary_id c pr h]

end

theorem r4Paths_idem (l : List PathPatternExpr)
    (h : allPathsL false noExistsUnderElem l = true) (c c2 : Nat) :
    r4Paths c2 (r4Paths c l).1 = ((r4Paths c l).1, c2) :=
  r4Paths_id c2 _ (r4Paths_clean c l h)

end Rewrite

end GqlSpec

namespace GqlSpec

namespace Rewrite

theorem allTerms_append (d : Bool) (p : PathPrimary → Bool) :
    ∀ a b : List PathTerm,
      allTerms d p (a ++ b) = (allTerms d p a && allTerms d p b)
  | [], b => by simp [allTerms]
  | t :: rest, b => by
      simp [allTerms, allTerms_append d p rest b, Bool.and_assoc]

theorem allFactors_append (d : Bool) (p : PathPrimary → Bool) :
    ∀ a b : List PathFactor,
      allFactors d p (a ++ b) = (allFactors d p a && allFactors d p b)
  | [], b => by simp [allFactors]
  | f :: rest, b => by
      simp [allFactors, allFactors_append d p rest b, Bool.and_assoc]

theorem allFactor_pattern (d : Bool) (p : PathPrimary → Bool)
    (f : PathFactor) : allFactor d p f = allPrimary d p f.pattern := by
  cases f
  rfl

theorem simplified_translation_clean (c : SimplifiedContents) :
    ∀ dir : EdgeDirection,
      allFactor true noSimplified (translateFactor dir c) = true ∧
      allTerms true noSimplified (altTerms dir c) = true ∧
      allFactors true noSimplified (factorSeq dir c) = true := by
  induction c with
  | labelTerm e =>
      intro dir
      refine ⟨rfl, ?_, ?_⟩ <;>
        simp [altTerms, factorSeq, allTerms, allTerm, allFactors,
          simplifiedEdge, allFactor, allPrimary, noSimplified,
          allElement, allFiller]
  | alternation l r ihl ihr =>
      intro dir
      obtain ⟨hl1, hl2, hl3⟩ := ihl dir
      obtain ⟨hr1, hr2, hr3⟩ := ihr dir
      refine ⟨?_, ?_, ?_⟩ <;>
        simp [translateFactor, altTerms, factorSeq, allFactor, allPrimary,
          noSimplified, allParen, allExprP, allWhereOpt, allTerms,
          allTerms_append, allTerm, allFactors_append, allFactors,
          hl2, hr2, hl3, hr3]
  | concatenation l r ihl ihr =>
      intro dir
      obtain ⟨hl1, hl2, hl3⟩ := ihl dir
      obtain ⟨hr1, hr2, hr3⟩ := ihr dir
      refine ⟨?_, ?_, ?_⟩ <;>
        simp [translateFactor, altTerms, factorSeq, allFactor, allPrimary,
          noSimplified, allParen, allExprP, allWhereOpt, allTerms,
          allTerms_append, allTerm, allFactors_append, allFactors,
          hl2, hr2, hl3, hr3]
  | quantified q inner ih =>
      intro dir
      have hq : allPrimary true noSimplified (translateFactor dir inner).pattern
          = true := by
        rw [← allFactor_pattern]
        exact (ih dir).1
      refine ⟨?_, ?_, ?_⟩ <;>
        simp [translateFactor, altTerms, factorSeq, allFactor, allTerms,
          allTerm, allFactors, hq]
  | directed d inner ih =>
      intro dir
      refine ⟨?_, ?_, ?_⟩
      · rw [translateFactor]
        exact (ih d).1
      · rw [altTerms]
        exact (ih d).2.1
      · rw [factorSeq]
        exact (ih d).2.2

theorem r1Simplified_clean (pos : Nat) (dir : EdgeDirection)
    (c : SimplifiedContents) :
    allParen true noSimplified (r1Simplified pos dir c) = true := by
  simp [r1Simplified, allParen, allExprP, allWhereOpt,
    (simplified_translation_clean c dir).2.1]

mutual

theorem r1Primary_clean : ∀ pr : PathPrimary,
    allPrimary true noSimplified (r1Primary pr) = true
  | .element e => by
      simp [r1Primary, allPrimary, noSimplified, r1Element_clean e]
  | .parenthesized (.mk q sv mode pat wc) => by
      simp [r1Primary, allPrimary, noSimplified, allParen,
        r1ExprP_clean pat, r1WhereOpt_clean wc]
  | .simplified q d c => by
      simp [r1Primary, allPrimary, noSimplified, r1Simplified_clean q d c]
  | .bareDash => rfl

theorem r1Element_clean : ∀ e : ElementPattern,
    allElement true noSimplified (r1Element e) = true
  | .node p f => by simp [r1Element, allElement, r1Filler_clean f]
  | .edge p d f => by simp [r1Element, allElement, r1Filler_clean f]

theorem r1Filler_clean : ∀ f : FillerF ElementPredicate,
    allFiller true noSimplified (r1Filler f) = true
  | .mk v l none => rfl
  | .mk v l (some pr) => by simp [r1Filler, allFiller, r1Pred_clean pr]

theorem r1Pred_clean : ∀ pr : ElementPredicate,
    allPred true noSimplified (r1Pred pr) = true
  | .whereClause p c => by simp [r1Pred, allPred, r1Value_clean c]
  | .propertySpec p props => by simp [r1Pred, allPred, r1Props_clean props]

theorem r1Props_clean : ∀ props : List (PropertyKeyValueF ValueExpr),
    allProps true noSimplified (r1Props props) = true
  | [] => rfl
  | .mk n v :: rest => by
      simp [r1Props, allProps, r1Value_clean v, r1Props_clean rest]

theorem r1Value_clean : ∀ v : ValueExpr,
    allValue true noSimplified (r1Value v) = true
  | .comparison _ _ l r => by
      simp [r1Value, allValue, r1Value_clean l, r1Value_clean r]
  | .binary _ _ l r => by
      simp [r1Value, allValue, r1Value_clean l, r1Value_clean r]
  | .propertyReference _ e _ => by
      simp [r1Value, allValue, r1Value_clean e]
  | .bindingVariableReference _ _ => rfl
  | .atomExpr _ _ => rfl
  | .existsMatch _ paths => by
      simp [r1Value, allValue, r1Paths_clean paths]

theorem r1WhereOpt_clean : ∀ wc : Option (WhereClauseF ValueExpr),
    allWhereOpt true noSimplified (r1WhereOpt wc) = true
  | none => rfl
  | some w => by simp [r1WhereOpt, allWhereOpt, r1Where_clean w]

theorem r1Where_clean : ∀ w : WhereClauseF ValueExpr,
    allWhere true noSimplified (r1Where w) = true
  | .mk q none => rfl
  | .mk q (some c) => by simp [r1Where, allWhere, r1Value_clean c]

theorem r1Paths_clean : ∀ l : List PathPatternExpr,
    allPathsL true noSimplified (r1Paths l) = true
  | [] => rfl
  | x :: rest => by
      simp [r1Paths, allPathsL, r1ExprP_clean x, r1Paths_clean rest]

theorem r1ExprP_clean : ∀ x : PathPatternExpr,
    allExprP true noSimplified (r1ExprP x) = true
  | .mk op ts => by simp [r1ExprP, allExprP, r1Terms_clean ts]

theorem r1Terms_clean : ∀ ts : List PathTerm,
    allTerms true noSimplified (r1Terms ts) = true
  | [] => rfl
  | t :: rest => by
      simp [r1Terms, allTerms, r1Term_clean t, r1Terms_clean rest]

theorem r1Term_clean : ∀ t : PathTerm,
    allTerm true noSimplified (r1Term t) = true
  | .mk fs => by simp [r1Term, allTerm, r1Factors_clean fs]

theorem r1Factors_clean : ∀ fs : List PathFactor,
    allFactors true noSimplified (r1Factors fs) = true
  | [] => rfl
  | f :: rest => by
      simp [r1Factors, allFactors, r1Factor_clean f, r1Factors_clean rest]

theorem r1Factor_clean : ∀ f : PathFactor,
    allFactor true noSimplified (r1Factor f) = true
  | .mk q pr => by simp [r1Factor, allFactor, r1Primary_clean pr]

end

end Rewrite

end GqlSpec

namespace GqlSpec

namespace Rewrite

mutual

theorem r1Primary_id : ∀ pr : PathPrimary,
    allPrimary true noSimplified pr = true → r1Primary pr = pr
  | .element e, h => by
      simp only [allPrimary, if_pos, Bool.and_eq_true] at h
      simp [r1Primary, r1Element_id e h.2]
  | .parenthesized (.mk q sv mode pat wc), h => by
      simp only [allPrimary, allParen, Bool.and_eq_true] at h
      simp [r1Primary, r1ExprP_id pat h.2.1, r1WhereOpt_id wc h.2.2]
  | .simplified q d c, h => by
      exfalso
      simp [allPrimary, noSimplified] at h
  | .bareDash, _ => rfl

theorem r1Element_id : ∀ e : ElementPattern,
    allElement true noSimplified e = true → r1Element e = e
  | .node p f, h => by
      simp only [allElement] at h
      simp [r1Element, r1Filler_id f h]
  | .edge p d f, h => by
      simp only [allElement] at h
      simp [r1Element, r1Filler_id f h]

theorem r1Filler_id : ∀ f : FillerF ElementPredicate,
    allFiller true noSimplified f = true → r1Filler f = f
  | .mk v l none, _ => rfl
  | .mk v l (some pr), h => by
      simp only [allFiller] at h
      simp [r1Filler, r1Pred_id pr h]

theorem r1Pred_id : ∀ pr : ElementPredicate,
    allPred true noSimplified pr = true → r1Pred pr = pr
  | .whereClause p c, h => by
      simp only [allPred] at h
      simp [r1Pred, r1Value_id c h]
  | .propertySpec p props, h => by
      simp only [allPred] at h
      simp [r1Pred, r1Props_id props h]

theorem r1Props_id : ∀ props : List (PropertyKeyValueF ValueExpr),
    allProps true noSimplified props = true → r1Props props = props
  | [], _ => rfl
  | .mk n v :: rest, h => by
      simp only [allProps, Bool.and_eq_true] at h
      simp [r1Props, r1Value_id v h.1, r1Props_id rest h.2]

theorem r1Value_id : ∀ v : ValueExpr,
    allValue true noSimplified v = true → r1Value v = v
  | .comparison _ _ l r, h => by
      simp only [allValue, Bool.and_eq_true] at h
      simp [r1Value, r1Value_id l h.1, r1Value_id r h.2]
  | .binary _ _ l r, h => by
      simp only [allValue, Bool.and_eq_true] at h
      simp [r1Value, r1Value_id l h.1, r1Value_id r h.2]
  | .propertyReference _ e _, h => by
      simp only [allValue] at h
      simp [r1Value, r1Value_id e h]
  | .bindingVariableReference _ _, _ => rfl
  | .atomExpr _ _, _ => rfl
  | .existsMatch _ paths, h => by
      simp only [allValue] at h
      simp [r1Value, r1Paths_id paths h]

theorem r1WhereOpt_id : ∀ wc : Option (WhereClauseF ValueExpr),
    allWhereOpt true noSimplified wc = true → r1WhereOpt wc = wc
  | none, _ => rfl
  | some w, h => by
      simp only [allWhereOpt] at h
      simp [r1WhereOpt, r1Where_id w h]

theorem r1Where_id : ∀ w : WhereClauseF ValueExpr,
    allWhere true noSimplified w = true → r1Where w = w
  | .mk q none, _ => rfl
  | .mk q (some c), h => by
      simp only [allWhere] at h
      simp [r1Where, r1Value_id c h]

theorem r1Paths_id : ∀ l : List PathPatternExpr,
    allPathsL true noSimplified l = true → r1Paths l = l
  | [], _ => rfl
  | x :: rest, h => by
      simp only [allPathsL, Bool.and_eq_true] at h
      simp [r1Paths, r1ExprP_id x h.1, r1Paths_id rest h.2]

theorem r1ExprP_id : ∀ x : PathPatternExpr,
    allExprP true noSimplified x = true → r1ExprP x = x
  | .mk op ts, h => by
      simp only [allExprP] at h
      simp [r1ExprP, r1Terms_id ts h]

theorem r1Terms_id : ∀ ts : List PathTerm,
    allTerms true noSimplified ts = true → r1Terms ts = ts
  | [], _ => rfl
  | t :: rest, h => by
      simp only [allTerms, Bool.and_eq_true] at h
      simp [r1Terms, r1Term_id t h.1, r1Terms_id rest h.2]

theorem r1Term_id : ∀ t : PathTerm,
    allTerm true noSimplified t = true → r1Term t = t
  | .mk fs, h => by
      simp only [allTerm] at h
      simp [r1Term, r1Factors_id fs h]

theorem r1Factors_id : ∀ fs : List PathFactor,
    allFactors true noSimplified fs = true → r1Factors fs = fs
  | [], _ => rfl
  | f :: rest, h => by
      simp only [allFactors, Bool.and_eq_true] at h
      simp [r1Factors, r1Factor_id f h.1, r1Factors_id rest h.2]

theorem r1Factor_id : ∀ f : PathFactor,
    allFactor true noSimplified f = true → r1Factor f = f
  | .mk q pr, h => by
      simp only [allFactor] at h
      simp [r1Factor, r1Primary_id pr h]

end

theorem r1Paths_idem (l : List PathPatternExpr) :
    r1Paths (r1Paths l) = r1Paths l :=
  r1Paths_id (r1Paths l) (r1Paths_clean l)

end Rewrite

end GqlSpec

namespace GqlSpec

namespace Rewrite

theorem isBareDash_false (f : PathFactor)
    (h : allFactor true noBareDash f = true) : isBareDash f = false := by
  cases f with
  | mk q pr =>
      cases pr <;> cases q <;>
        simp_all [allFactor, allPrimary, noBareDash, isBareDash]

mutual

theorem r2Primary_clean : ∀ pr : PathPrimary, noBareDash pr = true →
    allPrimary true noBareDash (r2Primary pr) = true
  | .element e, _ => by
      simp [r2Primary, allPrimary, noBareDash, r2Element_clean e]
  | .parenthesized (.mk q sv mode pat wc), _ => by
      simp [r2Primary, allPrimary, noBareDash, allParen,
        r2ExprP_clean pat, r2WhereOpt_clean wc]
  | .simplified q d c, _ => rfl
  | .bareDash, h => by simp [noBareDash] at h

theorem r2Element_clean : ∀ e : ElementPattern,
    allElement true noBareDash (r2Element e) = true
  | .node p f => by simp [r2Element, allElement, r2Filler_clean f]
  | .edge p d f => by simp [r2Element, allElement, r2Filler_clean f]

theorem r2Filler_clean : ∀ f : FillerF ElementPredicate,
    allFiller true noBareDash (r2Filler f) = true
  | .mk v l none => rfl
  | .mk v l (some pr) => by simp [r2Filler, allFiller, r2Pred_clean pr]

theorem r2Pred_clean : ∀ pr : ElementPredicate,
    allPred true noBareDash (r2Pred pr) = true
  | .whereClause p c => by simp [r2Pred, allPred, r2Value_clean c]
  | .propertySpec p props => by simp [r2Pred, allPred, r2Props_clean props]

theorem r2Props_clean : ∀ props : List (PropertyKeyValueF ValueExpr),
    allProps true noBareDash (r2Props props) = true
  | [] => rfl
  | .mk n v :: rest => by
      simp [r2Props, allProps, r2Value_clean v, r2Props_clean rest]

theorem r2Value_clean : ∀ v : ValueExpr,
    allValue true noBareDash (r2Value v) = true
  | .comparison _ _ l r => by
      simp [r2Value, allValue, r2Value_clean l, r2Value_clean r]
  | .binary _ _ l r => by
      simp [r2Value, allValue, r2Value_clean l, r2Value_clean r]
  | .propertyReference _ e _ => by
      simp [r2Value, allValue, r2Value_clean e]
  | .bindingVariableReference _ _ => rfl
  | .atomExpr _ _ => rfl
  | .existsMatch _ paths => by
      simp [r2Value, allValue, r2Paths_clean paths]

theorem r2WhereOpt_clean : ∀ wc : Option (WhereClauseF ValueExpr),
    allWhereOpt true noBareDash (r2WhereOpt wc) = true
  | none => rfl
  | some w => by simp [r2WhereOpt, allWhereOpt, r2Where_clean w]

theorem r2Where_clean : ∀ w : WhereClauseF ValueExpr,
    allWhere true noBareDash (r2Where w) = true
  | .mk q none => rfl
  | .mk q (some c) => by simp [r2Where, allWhere, r2Value_clean c]

theorem r2Paths_clean : ∀ l : List PathPatternExpr,
    allPathsL true noBareDash (r2Paths l) = true
  | [] => rfl
  | x :: rest => by
      simp [r2Paths, allPathsL, r2ExprP_clean x, r2Paths_clean rest]

theorem r2ExprP_clean : ∀ x : PathPatternExpr,
    allExprP true noBareDash (r2ExprP x) = true
  | .mk op ts => by simp [r2ExprP, allExprP, r2Terms_clean ts]

theorem r2Terms_clean : ∀ ts : List PathTerm,
    allTerms true noBareDash (r2Terms ts) = true
  | [] => rfl
  | t :: rest => by
      simp [r2Terms, allTerms, r2Term_clean t, r2Terms_clean rest]

theorem r2Term_clean : ∀ t : PathTerm,
    allTerm true noBareDash (r2Term t) = true
  | .mk fs => by simp [r2Term, allTerm, r2Start_clean fs]

theorem r2Start_clean : ∀ fs : List PathFactor,
    allFactors true noBareDash (r2Start fs) = true
  | [] => rfl
  | f :: rest => by
      cases hb : isBareDash f with
      | true =>
          simp [r2Start, hb, allFactors, anonNodeFactor, anonEdgeFactor,
            allFactor, allPrimary, noBareDash, allElement, allFiller,
            r2AfterDash_clean rest]
      | false =>
          simp [r2Start, hb, allFactors, r2Factor_clean f, r2Mid_clean rest]

theorem r2Mid_clean : ∀ fs : List PathFactor,
    allFactors true noBareDash (r2Mid fs) = true
  | [] => rfl
  | f :: rest => by
      cases hb : isBareDash f with
      | true =>
          simp [r2Mid, hb, allFactors, anonEdgeFactor,
            allFactor, allPrimary, noBareDash, allElement, allFiller,
            r2AfterDash_clean rest]
      | false =>
          simp [r2Mid, hb, allFactors, r2Factor_clean f, r2Mid_clean rest]

theorem r2AfterDash_clean : ∀ fs : List PathFactor,
    allFactors true noBareDash (r2AfterDash fs) = true
  | [] => by
      simp [r2AfterDash, allFactors, anonNodeFactor, allFactor,
        allPrimary, noBareDash, allElement, allFiller]
  | f :: rest => by
      cases hb : isBareDash f with
      | true =>
          simp [r2AfterDash, hb, allFactors, anonNodeFactor, anonEdgeFactor,
            allFactor, allPrimary, noBareDash, allElement, allFiller,
            r2AfterDash_clean rest]
      | false =>
          simp [r2AfterDash, hb, allFactors, r2Factor_clean f,
            r2Mid_clean rest]

theorem r2Factor_clean : ∀ f : PathFactor,
    allFactor true noBareDash (r2Factor f) = true
  | .mk q .bareDash => by
      simp [r2Factor, allFactor, allPrimary, noBareDash, allParen,
        allExprP, allWhereOpt, allTerms, allTerm, allFactors, dashTriple,
        anonNodeFactor, anonEdgeFactor, allElement, allFiller]
  | .mk q (.element e) => by
      simp [r2Factor, allFactor, r2Primary_clean (.element e) rfl]
  | .mk q (.parenthesized pp) => by
      simp [r2Factor, allFactor, r2Primary_clean (.parenthesized pp) rfl]
  | .mk q (.simplified qq d c) => rfl

end

end Rewrite

end GqlSpec

namespace GqlSpec

namespace Rewrite

mutual

theorem r2Primary_id : ∀ pr : PathPrimary,
    allPrimary true noBareDash pr = true → r2Primary pr = pr
  | .element e, h => by
      simp only [allPrimary, if_pos, Bool.and_eq_true] at h
      simp [r2Primary, r2Element_id e h.2]
  | .parenthesized (.mk q sv mode pat wc), h => by
      simp only [allPrimary, allParen, Bool.and_eq_true] at h
      simp [r2Primary, r2ExprP_id pat h.2.1, r2WhereOpt_id wc h.2.2]
  | .simplified q d c, _ => rfl
  | .bareDash, h => by simp [allPrimary, noBareDash] at h

theorem r2Element_id : ∀ e : ElementPattern,
    allElement true noBareDash e = true → r2Element e = e
  | .node p f, h => by
      simp only [allElement] at h
      simp [r2Element, r2Filler_id f h]
  | .edge p d f, h => by
      simp only [allElement] at h
      simp [r2Element, r2Filler_id f h]

theorem r2Filler_id : ∀ f : FillerF ElementPredicate,
    allFiller true noBareDash f = true → r2Filler f = f
  | .mk v l none, _ => rfl
  | .mk v l (some pr), h => by
      simp only [allFiller] at h
      simp [r2Filler, r2Pred_id pr h]

theorem r2Pred_id : ∀ pr : ElementPredicate,
    allPred true noBareDash pr = true → r2Pred pr = pr
  | .whereClause p c, h => by
      simp only [allPred] at h
      simp [r2Pred, r2Value_id c h]
  | .propertySpec p props, h => by
      simp only [allPred] at h
      simp [r2Pred, r2Props_id props h]

theorem r2Props_id : ∀ props : List (PropertyKeyValueF ValueExpr),
    allProps true noBareDash props = true → r2Props props = props
  | [], _ => rfl
  | .mk n v :: rest, h => by
      simp only [allProps, Bool.and_eq_true] at h
      simp [r2Props, r2Value_id v h.1, r2Props_id rest h.2]

theorem r2Value_id : ∀ v : ValueExpr,
    allValue true noBareDash v = true → r2Value v = v
  | .comparison _ _ l r, h => by
      simp only [allValue, Bool.and_eq_true] at h
      simp [r2Value, r2Value_id l h.1, r2Value_id r h.2]
  | .binary _ _ l r, h => by
      simp only [allValue, Bool.and_eq_true] at h
      simp [r2Value, r2Value_id l h.1, r2Value_id r h.2]
  | .propertyReference _ e _, h => by
      simp only [allValue] at h
      simp [r2Value, r2Value_id e h]
  | .bindingVariableReference _ _, _ => rfl
  | .atomExpr _ _, _ => rfl
  | .existsMatch _ paths, h => by
      simp only [allValue] at h
      simp [r2Value, r2Paths_id paths h]

theorem r2WhereOpt_id : ∀ wc : Option (WhereClauseF ValueExpr),
    allWhereOpt true noBareDash wc = true → r2WhereOpt wc = wc
  | none, _ => rfl
  | some w, h => by
      simp only [allWhereOpt] at h
      simp [r2WhereOpt, r2Where_id w h]

theorem r2Where_id : ∀ w : WhereClauseF ValueExpr,
    allWhere true noBareDash w = true → r2Where w = w
  | .mk q none, _ => rfl
  | .mk q (some c), h => by
      simp only [allWhere] at h
      simp [r2Where, r2Value_id c h]

theorem r2Paths_id : ∀ l : List PathPatternExpr,
    allPathsL true noBareDash l = true → r2Paths l = l
  | [], _ => rfl
  | x :: rest, h => by
      simp only [allPathsL, Bool.and_eq_true] at h
      simp [r2Paths, r2ExprP_id x h.1, r2Paths_id rest h.2]

theorem r2ExprP_id : ∀ x : PathPatternExpr,
    allExprP true noBareDash x = true → r2ExprP x = x
  | .mk op ts, h => by
      simp only [allExprP] at h
      simp [r2ExprP, r2Terms_id ts h]

theorem r2Terms_id : ∀ ts : List PathTerm,
    allTerms true noBareDash ts = true → r2Terms ts = ts
  | [], _ => rfl
  | t :: rest, h => by
      simp only [allTerms, Bool.and_eq_true] at h
      simp [r2Terms, r2Term_id t h.1, r2Terms_id rest h.2]

theorem r2Term_id : ∀ t : PathTerm,
    allTerm true noBareDash t = true → r2Term t = t
  | .mk fs, h => by
      simp only [allTerm] at h
      simp [r2Term, r2Start_id fs h]

theorem r2Start_id : ∀ fs : List PathFactor,
    allFactors true noBareDash fs = true → r2Start fs = fs
  | [], _ => rfl
  | f :: rest, h => by
      simp only [allFactors, Bool.and_eq_true] at h
      simp [r2Start, isBareDash_false f h.1, r2Factor_id f h.1,
        r2Mid_id rest h.2]

theorem r2Mid_id : ∀ fs : List PathFactor,
    allFactors true noBareDash fs = true → r2Mid fs = fs
  | [], _ => rfl
  | f :: rest, h => by
      simp only [allFactors, Bool.and_eq_true] at h
      simp [r2Mid, isBareDash_false f h.1, r2Factor_id f h.1,
        r2Mid_id rest h.2]

theorem r2Factor_id : ∀ f : PathFactor,
    allFactor true noBareDash f = true → r2Factor f = f
  | .mk q .bareDash, h => by
      simp [allFactor, allPrimary, noBareDash] at h
  | .mk q (.element e), h => by
      simp only [allFactor] at h
      simp [r2Factor, r2Primary_id (.element e) h]
  | .mk q (.parenthesized pp), h => by
      simp only [allFactor] at h
      simp [r2Factor, r2Primary_id (.parenthesized pp) h]
  | .mk q (.simplified qq d c), _ => rfl

end

theorem r2Paths_idem (l : List PathPatternExpr) :
    r2Paths (r2Paths l) = r2Paths l :=
  r2Paths_id (r2Paths l) (r2Paths_clean l)

end Rewrite

end GqlSpec

namespace GqlSpec

/-- C9 counterexample: R3 is not idempotent.  On
`MATCH (a WHERE EXISTS {MATCH (b WHERE ...)})` the first pass lifts the
outer element's `WHERE` and, returning `kSkipChildren` on the element,
never reaches the inner element nested in the lifted condition's `EXISTS`
subquery; the second pass descends through the now-unshielded wrapper
`WHERE` and rewrites the inner element, so applying R3 twice differs from
applying it once (witnessed by the element-`WHERE` cleanliness check,
which is false after one pass and true after two). -/
theorem C9_counterexample :
    (Rewrite.allPathsL false Rewrite.noWherePredicate
      (Rewrite.RewriteElementPatternWhereClause
        ⟨[Rewrite.PathPatternExpr.mk .Concat [Rewrite.PathTerm.mk
          [Rewrite.PathFactor.mk .noQuant (.element (.node 1
            { predicate := some (.whereClause 2 (.existsMatch 3
              [Rewrite.PathPatternExpr.mk .Concat [Rewrite.PathTerm.mk
                [Rewrite.PathFactor.mk .noQuant (.element (.node 4
                  { predicate := some (.whereClause 5 (.atomExpr 6 0)) }))]]]))
            }))]]]⟩).paths = false) ∧
    (Rewrite.allPathsL false Rewrite.noWherePredicate
      (Rewrite.RewriteElementPatternWhereClause
        (Rewrite.RewriteElementPatternWhereClause
        ⟨[Rewrite.PathPatternExpr.mk .Concat [Rewrite.PathTerm.mk
          [Rewrite.PathFactor.mk .noQuant (.element (.node 1
            { predicate := some (.whereClause 2 (.existsMatch 3
              [Rewrite.PathPatternExpr.mk .Concat [Rewrite.PathTerm.mk
                [Rewrite.PathFactor.mk .noQuant (.element (.node 4
                  { predicate := some (.whereClause 5 (.atomExpr 6 0)) }))]]]))
            }))]]]⟩)).paths = true) ∧
    Rewrite.RewriteElementPatternWhereClause
        (Rewrite.RewriteElementPatternWhereClause
        ⟨[Rewrite.PathPatternExpr.mk .Concat [Rewrite.PathTerm.mk
          [Rewrite.PathFactor.mk .noQuant (.element (.node 1
            { predicate := some (.whereClause 2 (.existsMatch 3
              [Rewrite.PathPatternExpr.mk .Concat [Rewrite.PathTerm.mk
                [Rewrite.PathFactor.mk .noQuant (.element (.node 4
                  { predicate := some (.whereClause 5 (.atomExpr 6 0)) }))]]]))
            }))]]]⟩) ≠
      Rewrite.RewriteElementPatternWhereClause
        ⟨[Rewrite.PathPatternExpr.mk .Concat [Rewrite.PathTerm.mk
          [Rewrite.PathFactor.mk .noQuant (.element (.node 1
            { predicate := some (.whereClause 2 (.existsMatch 3
              [Rewrite.PathPatternExpr.mk .Concat [Rewrite.PathTerm.mk
                [Rewrite.PathFactor.mk .noQuant (.element (.node 4
                  { predicate := some (.whereClause 5 (.atomExpr 6 0)) }))]]]))
            }))]]]⟩ := by
  refine ⟨by decide, by decide, fun h => ?_⟩
  have h2 := congrArg
    (fun prog : Rewrite.GQLProgramModel =>
      Rewrite.allPathsL false Rewrite.noWherePredicate prog.paths) h
  revert h2
  decide

/-- C9 (amended): R1 and R2 are idempotent on every program; R3 and R4
are idempotent on every program in which no element pattern's predicate
holds an `EXISTS` path-pattern subquery in its value expressions — in
general those rewrites return `kSkipChildren` on element patterns while
lifting the predicate into an unshielded `WHERE`, so a nested pattern
inside a lifted predicate is only rewritten by the following pass. -/
theorem C9_rewrites_idempotent (prog : Rewrite.GQLProgramModel) :
    Rewrite.RewriteSimplifiedPathPattern
        (Rewrite.RewriteSimplifiedPathPattern prog) =
      Rewrite.RewriteSimplifiedPathPattern prog ∧
    Rewrite.RewriteElementPatterns (Rewrite.RewriteElementPatterns prog) =
      Rewrite.RewriteElementPatterns prog ∧
    (Rewrite.allPathsL false Rewrite.noExistsUnderElem prog.paths = true →
      Rewrite.RewriteElementPatternWhereClause
          (Rewrite.RewriteElementPatternWhereClause prog) =
        Rewrite.RewriteElementPatternWhereClause prog) ∧
    (Rewrite.allPathsL false Rewrite.noExistsUnderElem prog.paths = true →
      Rewrite.RewriteElementPropertyPredicate
          (Rewrite.RewriteElementPropertyPredicate prog) =
        Rewrite.RewriteElementPropertyPredicate prog) := by
  refine ⟨?_, ?_, ?_, ?_⟩
  · simp [Rewrite.RewriteSimplifiedPathPattern, Rewrite.r1Paths_idem]
  · simp [Rewrite.RewriteElementPatterns, Rewrite.r2Paths_idem]
  · intro h
    simp [Rewrite.RewriteElementPatternWhereClause,
      Rewrite.r3Paths_idem _ h]
  · intro h
    simp [Rewrite.RewriteElementPropertyPredicate,
      Rewrite.r4Paths_idem _ h 0 0]

/-- Witness for C9: on a program whose element predicates hold no
`EXISTS` subquery (here a plain element `WHERE` comparison), a second
application of R3 or R4 changes nothing. -/
theorem C9_witness :
    Rewrite.allPathsL false Rewrite.noExistsUnderElem
      [Rewrite.PathPatternExpr.mk .Concat [Rewrite.PathTerm.mk
        [Rewrite.PathFactor.mk .noQuant (.element (.node 7
          { predicate := some (.whereClause 8 (.atomExpr 9 1)) }))]]]
      = true ∧
    Rewrite.RewriteElementPatternWhereClause
        (Rewrite.RewriteElementPatternWhereClause
          ⟨[Rewrite.PathPatternExpr.mk .Concat [Rewrite.PathTerm.mk
            [Rewrite.PathFactor.mk .noQuant (.element (.node 7
              { predicate := some (.whereClause 8 (.atomExpr 9 1)) }))]]]⟩) =
      Rewrite.RewriteElementPatternWhereClause
        ⟨[Rewrite.PathPatternExpr.mk .Concat [Rewrite.PathTerm.mk
          [Rewrite.PathFactor.mk .noQuant (.element (.node 7
            { predicate := some (.whereClause 8 (.atomExpr 9 1)) }))]]]⟩ ∧
    Rewrite.RewriteElementPropertyPredicate
        (Rewrite.RewriteElementPropertyPredicate
          ⟨[Rewrite.PathPatternExpr.mk .Concat [Rewrite.PathTerm.mk
            [Rewrite.PathFactor.mk .noQuant (.element (.node 7
              { predicate := some (.whereClause 8 (.atomExpr 9 1)) }))]]]⟩) =
      Rewrite.RewriteElementPropertyPredicate
        ⟨[Rewrite.PathPatternExpr.mk .Concat [Rewrite.PathTerm.mk
          [Rewrite.PathFactor.mk .noQuant (.element (.node 7
            { predicate := some (.whereClause 8 (.atomExpr 9 1)) }))]]]⟩ :=
  ⟨by decide,
   (C9_rewrites_idempotent _).2.2.1 (by decide),
   (C9_rewrites_idempotent _).2.2.2 (by decide)⟩

end GqlSpec
